import Mathlib

/-! asn1go: declaration generator (`codegen.go`)

A shallow embedding of the Go code generator of `asn1go` and a verification of
its behaviour.  The embedding follows `codegen.go` function by function:

* Go `error` values created with `errors.New` are their message `String`;
* the mutable `*moduleContext` receiver is threaded explicitly: a method that
  may mutate the context returns the new context next to its result;
* `unwrapToLeafType` recurses along the chain of type references without any
  cycle guard, so it takes a bound `fuel` on the recursion depth and returns
  `none` when the bound is exhausted; everything that calls it inherits the
  `Option`.  A computation that is `none` for every `fuel` never returns;
* the Go syntax tree handed to `go/printer` is the result of a successful
  `Generate`; strings are handled through their list of characters.
-/

namespace Asn1go

/-! ## The parsed module (declared in the package's `ast.go`) -/

/-- One arc of an object identifier value: `ObjectIdElement` carries a
symbolic name and a numeric id; any other element kind is `Other`. -/
inductive ObjectIdElementValue where
  | ObjectIdElement (Name : String) (Id : Int)
  | Other
  deriving DecidableEq, Repr

/-- ASN.1 values.  `Number` and `String` are the literals the generator
inspects; `Other` stands for every remaining value kind and carries its
Go-syntax rendering, which is all the generator uses of it. -/
inductive Value where
  | Number (IntValue : Int)
  | String (StringValue : String)
  | ObjectIdentifierValue (elems : List ObjectIdElementValue)
  | Other (goSyntax : String)
  deriving DecidableEq, Repr

/-- Tag classes. -/
inductive TagClass where
  | CLASS_UNIVERSAL
  | CLASS_APPLICATION
  | CLASS_CONTEXT_SPECIFIC
  | CLASS_PRIVATE
  deriving DecidableEq, Repr

/-- Tagging modes. -/
inductive TagType where
  | TAGS_EXPLICIT
  | TAGS_IMPLICIT
  | TAGS_AUTOMATIC
  deriving DecidableEq, Repr

/-- A tag: class and class number (a value). -/
structure Tag where
  Class : TagClass
  ClassNumber : Value
  deriving DecidableEq, Repr

/-- Lexical subtypes of restricted character strings. -/
inductive LexType where
  | IA5String
  | UTF8String
  | PrintableString
  | NumericString
  | VisibleString
  | GeneralString
  | OtherString
  deriving DecidableEq, Repr

/-- A constraint specification; the generator never looks inside it. -/
structure Constraint where
  ConstraintSpec : String
  deriving DecidableEq, Repr

/-- One item of an enumeration: name and index. -/
structure EnumItem where
  Name : String
  Index : Int
  deriving DecidableEq, Repr

mutual
/-- The type constructs of the notation.  `Unsupported` stands for every
construct `generateTypeBody` has no case for and carries its Go-syntax
rendering. -/
inductive Typ where
  | BooleanType
  | IntegerType
  | CharacterStringType
  | RealType
  | OctetStringType
  | ChoiceType (AlternativeTypeList : List NamedType)
  | SequenceType (Components : List ComponentType)
  | SetType (Components : List ComponentType)
  | SetOfType (elem : Typ)
  | SequenceOfType (elem : Typ)
  | TaggedType (Tag : Tag) (inner : Typ) (TagType : TagType)
  | ConstraintedType (inner : Typ) (Constraint : Constraint)
  | TypeReference (name : String)
  | RestrictedStringType (LexType : LexType)
  | BitStringType
  | EnumeratedType (Enums : List EnumItem)
  | IntegerEnumType (Enums : List EnumItem)
  | StringType
  | BigInt
  | NullType
  | ObjectIdentifierType
  | Unsupported (goSyntax : String)
/-- A named type: identifier and type. -/
inductive NamedType where
  | mk (Identifier : String) (type : Typ)
/-- An entry of a Sequence or Set: a named component with its optional flag
and default value, or a components-of inclusion. -/
inductive ComponentType where
  | NamedComponentType (NamedType : NamedType) (IsOptional : Bool) (Default : Option Value)
  | ComponentsOfComponentType (type : Typ)
end

/-- Identifier of a named type. -/
def NamedType.Identifier : NamedType → String
  | .mk i _ => i

/-- Type of a named type. -/
def NamedType.type : NamedType → Typ
  | .mk _ t => t

/-- The Go struct `NamedComponentType`. -/
structure NamedComponentType where
  NamedType : NamedType
  IsOptional : Bool
  Default : Option Value

/-- A type assignment, also the resolver's result: reference name, type (or
absent) and owning module (or empty). -/
structure TypeAssignment where
  TypeReference : String
  type : Option Typ
  Module : String

/-- An assignment of the module body. -/
inductive Assignment where
  | TypeAssignment (a : TypeAssignment)
  | ValueAssignment (ValueReference : String) (type : Option Typ) (Value : Value)

/-- The reference of an imported module. -/
structure GlobalModuleReference where
  Reference : String
  deriving DecidableEq, Repr

/-- One import clause; only the module reference is read. -/
structure SymbolsFromModule where
  Module : GlobalModuleReference
  deriving DecidableEq, Repr

/-- Module body: imports and assignment list. -/
structure ModuleBody where
  Imports : List SymbolsFromModule
  AssignmentList : List Assignment

/-- Module identifier. -/
structure ModuleIdentifier where
  Reference : String
  deriving DecidableEq, Repr

/-- A parsed module. -/
structure ModuleDefinition where
  ModuleIdentifier : ModuleIdentifier
  TagDefault : Int
  ExtensibilityImplied : Bool
  ModuleBody : ModuleBody

/-- Modelled from the spec: `AssignmentList.GetType` (declared in `ast.go`),
the lookup of a name in the module's own assignment list: the first type
assignment with that name. -/
def GetType : List Assignment → String → Option TypeAssignment
  | [], _ => none
  | Assignment.TypeAssignment a :: rest, name =>
      if a.TypeReference = name then some a else GetType rest name
  | Assignment.ValueAssignment _ _ _ :: rest, name => GetType rest name

/-- What `codegen.go` reads from outside its own file: the useful-type
catalog of `ast.go`, its table of owning pseudo-modules, the names of the two
time types, and the rendering `%#v` that `fmt` gives a value. -/
structure Catalog where
  USEFUL_TYPES : String → Option Typ
  USEFUL_TYPES_MODULE : String → Option String
  GeneralizedTimeName : String
  UTCTimeName : String
  goSyntax : Value → String

/-! ## The generated Go syntax tree (`go/ast`) -/

mutual
/-- Go type expressions produced by the generator; `nil` is the absent
expression. -/
inductive GoExpr where
  | nil
  | Ident (Name : String)
  | ArrayType (Elt : GoExpr)
  | StructType (Fields : List GoField)
/-- A struct field: name, type, tag literal and comment. -/
inductive GoField where
  | mk (Name : String) (type : GoExpr) (Tag : String) (Comment : Option String)
end

/-- Go declarations produced by the generator. -/
inductive GoDecl where
  | importDecl (Path : String)
  | typeDecl (Name : String) (type : GoExpr) (Comment : Option String)
  | constDecl (Names : List String) (type : GoExpr) (Comment : Option String)
      (Values : List String)

/-- The file handed to the printer. -/
structure GoFile where
  Name : String
  Decls : List GoDecl

/-! ## The generator -/

/-- Generator parameters. -/
structure GenParams where
  Package : String
  Prefix : String

/-- The per-module state. -/
structure moduleContext where
  extensibilityImplied : Bool
  tagDefault : Int
  errors : List String
  lookupContext : ModuleBody
  requiredModules : List String

/-- `appendError`. -/
def moduleContext.appendError (ctx : moduleContext) (err : String) : moduleContext :=
  { ctx with errors := ctx.errors ++ [err] }

/-- The loop of `requireModule`: is `module` already listed? -/
def requireModule.found (module : String) : List String → Bool
  | [] => false
  | existing :: rest => if existing = module then true else requireModule.found module rest

/-- `requireModule`. -/
def moduleContext.requireModule (ctx : moduleContext) (module : String) : moduleContext :=
  if requireModule.found module ctx.requiredModules then ctx
  else { ctx with requiredModules := ctx.requiredModules ++ [module] }

/-! ### Name normaliser -/

/-- `strings.ReplaceAll(s, old, new)` for one-character `old` and `new`. -/
def replaceChar (old new : Char) (s : List Char) : List Char :=
  s.map (fun c => if c = old then new else c)

/-- `strings.ReplaceAll(s, old, "")` for a one-character `old`. -/
def removeChar (old : Char) (s : List Char) : List Char :=
  s.filter (fun c => c != old)

/-- `strings.Split(s, sep)` for a one-character separator. -/
def splitChar (sep : Char) : List Char → List (List Char)
  | [] => [[]]
  | c :: cs =>
      if c = sep then [] :: splitChar sep cs
      else
        match splitChar sep cs with
        | [] => [[c]]
        | seg :: segs => (c :: seg) :: segs

/-- `IsUpper`: no letter of `s` is a non-upper-case letter (ASCII letters). -/
def IsUpper (s : List Char) : Bool :=
  s.all (fun r => !(!r.isUpper && r.isAlpha))

/-- `IsLower`: no letter of `s` is a non-lower-case letter (ASCII letters). -/
def IsLower (s : List Char) : Bool :=
  s.all (fun r => !(!r.isLower && r.isAlpha))

/-- Word-break classes that the title caser of `golang.org/x/text/cases`
distinguishes, on ASCII. -/
inductive WordBreak where
  | letter
  | mid
  | brk
  deriving DecidableEq, Repr

/-- Class of an ASCII character: letters, digits and the underscore continue
a word, the apostrophe, full stop and colon are mid-word characters, every
other character breaks the word. -/
def wordBreak (c : Char) : WordBreak :=
  if c.isAlphanum || c = '_' then WordBreak.letter
  else if c = Char.ofNat 39 || c = '.' || c = ':' then WordBreak.mid
  else WordBreak.brk

/-- The transformer of `cases.Title(language.English, cases.NoLower)` on
ASCII text: the first cased letter of every word is upper-cased, every other
character is copied; `isMidWord` is the transformer's state. -/
def titleAux : Bool → List Char → List Char
  | _, [] => []
  | isMidWord, c :: cs =>
      let wasMid := wordBreak c = WordBreak.mid
      let out := if c.isAlpha && !isMidWord then c.toUpper else c
      let mid1 :=
        if c.isAlpha then true
        else if wordBreak c = WordBreak.brk then false
        else isMidWord
      let mid2 :=
        match cs with
        | d :: _ => if wasMid && wordBreak d = WordBreak.mid then false else mid1
        | [] => mid1
      out :: titleAux mid2 cs

/-- `caser.String`. -/
def caserString (s : List Char) : List Char :=
  titleAux false s

/-- `strings.Join(names, "")`. -/
def joinSegments : List (List Char) → List Char
  | [] => []
  | seg :: segs => seg ++ joinSegments segs

/-- `goifyName`. -/
def goifyName (name : String) : String :=
  if name = "BigInt" then "int64"
  else if name = "StringStore" then "string"
  else
    let tmp := removeChar '-' name.data
    if IsUpper tmp then String.mk (caserString (replaceChar '-' '_' name.data))
    else
      let name1 := replaceChar '-' '_' name.data
      let names := splitChar '_' name1
      String.mk (joinSegments (names.map caserString))

/-! ### Type resolver -/

/-- `lookupValue`. -/
def lookupValue (val : Value) : Value :=
  val

/-- `removeWrapperTypes`. -/
def removeWrapperTypes : Typ → Typ
  | Typ.TaggedType _ t _ => removeWrapperTypes t
  | Typ.ConstraintedType t _ => removeWrapperTypes t
  | t => t

/-- `unwrapToLeafType`, with `fuel` bounding the depth of the recursion along
the reference chain; `none` when the bound is reached. -/
def unwrapToLeafType (ctx : moduleContext) : Nat → String → Option TypeAssignment
  | 0, _ => none
  | fuel + 1, reference =>
      match GetType ctx.lookupContext.AssignmentList reference with
      | some assignment =>
          match assignment.type.map removeWrapperTypes with
          | some (Typ.TypeReference tt) => unwrapToLeafType ctx fuel tt
          | _ => some assignment
      | none => some ⟨reference, none, ""⟩

/-- `lookupUsefulType`. -/
def lookupUsefulType (cat : Catalog) (reference : String) : Option Typ :=
  cat.USEFUL_TYPES reference

/-- `lookupUsefulTypeModule`. -/
def lookupUsefulTypeModule (cat : Catalog) (reference : String) : String :=
  match cat.USEFUL_TYPES_MODULE reference with
  | some usefulTypeModule => usefulTypeModule
  | none => ""

/-- `resolveTypeReference`: the resolved assignment (or `none` for Go's
`nil`) and the context. -/
def resolveTypeReference (cat : Catalog) (fuel : Nat) (ctx : moduleContext)
    (reference : String) : Option (Option TypeAssignment × moduleContext) :=
  match unwrapToLeafType ctx fuel reference with
  | none => none
  | some unwrapped =>
      if unwrapped.type.isSome then some (some unwrapped, ctx)
      else
        match lookupUsefulType cat unwrapped.TypeReference with
        | some tt =>
            some (some ⟨unwrapped.TypeReference, some tt,
              lookupUsefulTypeModule cat unwrapped.TypeReference⟩, ctx)
        | none =>
            some (none, ctx.appendError ("Can not resolve TypeReference " ++ reference))

/-! ### Documentation comments -/

/-- `fmt.Sprintf("%s(%d)", enum.Name, enum.Index)` for every item. -/
def enumComments (enums : List EnumItem) : List String :=
  enums.map (fun enum => enum.Name ++ "(" ++ toString enum.Index ++ ")")

/-- `commentFromType`: the text of the one comment of the group, or `none`
for Go's `nil`.  Absent types get no comment. -/
def commentFromType (t1 : Option Typ) (typeName : String) : Option String :=
  match t1 with
  | some Typ.ObjectIdentifierType => some ("/*" ++ goifyName typeName ++ ",OID*/")
  | some Typ.NullType => some ("//" ++ goifyName typeName ++ ",NullType\n")
  | some (Typ.ChoiceType _) => some ("//" ++ goifyName typeName ++ ",ChoiceOption\n")
  | some (Typ.IntegerEnumType enums) =>
      some ("//" ++ goifyName typeName ++ ",IntegerEnum:"
        ++ ",".intercalate (enumComments enums) ++ "\n")
  | some (Typ.EnumeratedType enums) =>
      some ("//" ++ goifyName typeName ++ ",EnumList:"
        ++ ",".intercalate (enumComments enums) ++ "\n")
  | _ => none

/-- `commentFromComponentType`. -/
def commentFromComponentType (nt : NamedComponentType) : Option String :=
  commentFromType (some nt.NamedType.type) nt.NamedType.Identifier

/-! ### Tag and metadata synthesizer -/

/-- The component that `asn1TagFromType` derives from the default value. -/
def defaultComponents : Option Value → List String
  | some (Value.Number defaultNumber) => ["default:" ++ toString defaultNumber]
  | some (Value.String defaultString) => ["default:" ++ defaultString]
  | _ => []

/-- The `unwrap:` loop of `asn1TagFromType`: strips tag and constraint layers,
accumulating components and diagnostics; returns the core type. -/
def asn1Unwrap (cat : Catalog) : Typ → List String → moduleContext →
    Typ × List String × moduleContext
  | Typ.TaggedType tag t tagType, components, ctx =>
      let c1 :=
        if tag.Class = TagClass.CLASS_APPLICATION then components ++ ["application"]
        else components
      let c2 := if tagType = TagType.TAGS_EXPLICIT then c1 ++ ["explicit"] else c1
      match lookupValue tag.ClassNumber with
      | Value.Number cn => asn1Unwrap cat t (c2 ++ ["tag:" ++ toString cn]) ctx
      | cn =>
          asn1Unwrap cat t c2
            (ctx.appendError ("Tag value should be Number, got " ++ cat.goSyntax cn))
  | Typ.ConstraintedType t _, components, ctx => asn1Unwrap cat t components ctx
  | t, components, ctx => (t, components, ctx)

/-- The switch of `asn1TagFromType` that adds type-specific tags: the
components and the flags `isReference` and `isArray`. -/
def asn1TypeTags (cat : Catalog) (fuel : Nat) (ctx : moduleContext) :
    Typ → List String → Option (List String × Bool × Bool)
  | Typ.OctetStringType, components => some (components, false, true)
  | Typ.SetOfType _, components => some (components, false, true)
  | Typ.SequenceOfType _, components => some (components, false, true)
  | Typ.RestrictedStringType lexType, components =>
      match lexType with
      | LexType.IA5String => some (components ++ ["ia5"], false, false)
      | LexType.UTF8String => some (components ++ ["utf8"], false, false)
      | LexType.PrintableString => some (components ++ ["printable"], false, false)
      | _ => some (components, false, false)
  | Typ.TypeReference tt, components =>
      match unwrapToLeafType ctx fuel tt with
      | none => none
      | some leaf =>
          if leaf.TypeReference = cat.GeneralizedTimeName then
            some (components ++ ["generalized"], true, false)
          else if leaf.TypeReference = cat.UTCTimeName then
            some (components ++ ["utc"], true, false)
          else some (components, true, false)
  | _, components => some (components, false, false)

/-- The structural name tag: the two `Sprintf` of `xmltag`. -/
def xmlTag (id : String) (omitEmpty : Bool) : String :=
  let json_field := String.mk (replaceChar '-' '_' id.data)
  if omitEmpty then "xml:\"" ++ id ++ "\" json:\"" ++ json_field ++ ",omitempty\""
  else "xml:\"" ++ id ++ "\" json:\"" ++ json_field ++ "\""

/-- The literal that `asn1TagFromType` returns for a name tag and a list of
components. -/
def tagLiteral (xmltag : String) (components : List String) : String :=
  if components.length > 0 then
    "`" ++ xmltag ++ " asn1:\"" ++ ",".intercalate components ++ "\"`"
  else "`" ++ xmltag ++ "`"

/-- `asn1TagFromType`: the value of the returned literal and the context. -/
def asn1TagFromType (cat : Catalog) (fuel : Nat) (ctx : moduleContext)
    (nt : NamedComponentType) : Option (String × moduleContext) :=
  let components := if nt.IsOptional then ["optional"] else []
  let components := components ++ defaultComponents nt.Default
  match asn1Unwrap cat nt.NamedType.type components ctx with
  | (t, components, ctx) =>
      match asn1TypeTags cat fuel ctx t components with
      | none => none
      | some (components, isReference, isArray) =>
          let id := nt.NamedType.Identifier
          some (tagLiteral (xmlTag id (nt.IsOptional || isReference || isArray)) components,
            ctx)

/-! ### Declaration emitter -/

/-- `generateSpecialCase`: the expression (or `none` for `nil`) and the
context. -/
def generateSpecialCase (cat : Catalog) (ctx : moduleContext) (resolved : TypeAssignment) :
    Option GoExpr × moduleContext :=
  if resolved.TypeReference = cat.GeneralizedTimeName
      || resolved.TypeReference = cat.UTCTimeName then
    (some (GoExpr.Ident "time.Time"), ctx.requireModule "time")
  else
    match resolved.type.map removeWrapperTypes with
    | some Typ.BitStringType =>
        (some (GoExpr.Ident "asn1.BitString"), ctx.requireModule "encoding/asn1")
    | _ => (none, ctx)

/-- The `TypeReference` case of `generateTypeBody`. -/
def generateReferenceBody (cat : Catalog) (fuel : Nat) (name : String) (noStar : Bool)
    (ctx : moduleContext) : Option (GoExpr × moduleContext) :=
  let pfx := if noStar then "" else "*"
  match resolveTypeReference cat fuel ctx name with
  | none => none
  | some (none, ctx) => some (GoExpr.Ident (pfx ++ goifyName name), ctx)
  | some (some nameAndType, ctx) =>
      match generateSpecialCase cat ctx nameAndType with
      | (some specialCase, ctx) => some (specialCase, ctx)
      | (none, ctx) =>
          if nameAndType.Module ≠ "" then
            some (GoExpr.Ident (pfx ++ goifyName nameAndType.Module ++ "."
              ++ goifyName name), ctx)
          else some (GoExpr.Ident (pfx ++ goifyName name), ctx)

mutual
/-- `generateTypeBody`. -/
def generateTypeBody (cat : Catalog) (fuel : Nat) :
    Typ → Bool → moduleContext → Option (GoExpr × moduleContext)
  | Typ.BooleanType, _, ctx => some (GoExpr.Ident "bool", ctx)
  | Typ.IntegerType, _, ctx => some (GoExpr.Ident "int64", ctx)
  | Typ.CharacterStringType, _, ctx => some (GoExpr.Ident "string", ctx)
  | Typ.RealType, _, ctx => some (GoExpr.Ident "float64", ctx)
  | Typ.OctetStringType, _, ctx => some (GoExpr.ArrayType (GoExpr.Ident "byte"), ctx)
  | Typ.ChoiceType alternatives, _, ctx =>
      match generateChoiceFields cat fuel alternatives ctx with
      | none => none
      | some (fields, ctx) => some (GoExpr.StructType fields, ctx)
  | Typ.SequenceType components, _, ctx =>
      match generateComponentFields cat fuel components ctx with
      | none => none
      | some (fields, ctx) => some (GoExpr.StructType fields, ctx)
  | Typ.SetType components, _, ctx =>
      match generateComponentFields cat fuel components ctx with
      | none => none
      | some (fields, ctx) => some (GoExpr.StructType fields, ctx)
  | Typ.SetOfType t, _, ctx =>
      match generateTypeBody cat fuel t true ctx with
      | none => none
      | some (elt, ctx) => some (GoExpr.ArrayType elt, ctx)
  | Typ.SequenceOfType t, _, ctx =>
      match generateTypeBody cat fuel t true ctx with
      | none => none
      | some (elt, ctx) => some (GoExpr.ArrayType elt, ctx)
  | Typ.TaggedType _ t _, _, ctx => generateTypeBody cat fuel t false ctx
  | Typ.ConstraintedType t _, _, ctx => generateTypeBody cat fuel t false ctx
  | Typ.TypeReference name, noStar, ctx => generateReferenceBody cat fuel name noStar ctx
  | Typ.RestrictedStringType _, _, ctx => some (GoExpr.Ident "string", ctx)
  | Typ.BitStringType, _, ctx =>
      some (GoExpr.Ident "asn1.BitString", ctx.requireModule "encoding/asn1")
  | Typ.EnumeratedType _, _, ctx => some (GoExpr.Ident "string", ctx)
  | Typ.IntegerEnumType _, _, ctx => some (GoExpr.Ident "int", ctx)
  | Typ.StringType, _, ctx => some (GoExpr.Ident "string", ctx)
  | Typ.BigInt, _, ctx => some (GoExpr.Ident "int64", ctx)
  | Typ.NullType, _, ctx => some (GoExpr.Ident "interface\x7b\x7d", ctx)
  | Typ.ObjectIdentifierType, _, ctx => some (GoExpr.Ident "int", ctx)
  | Typ.Unsupported goSyntax, _, ctx =>
      some (GoExpr.nil, ctx.appendError ("Ignoring unsupported type " ++ goSyntax))
/-- The loop of the `ChoiceType` case: one field per alternative. -/
def generateChoiceFields (cat : Catalog) (fuel : Nat) :
    List NamedType → moduleContext → Option (List GoField × moduleContext)
  | [], ctx => some ([], ctx)
  | f :: rest, ctx =>
      match generateStructField cat fuel f false none ctx with
      | none => none
      | some (field, ctx) =>
          match generateChoiceFields cat fuel rest ctx with
          | none => none
          | some (fields, ctx) => some (field :: fields, ctx)
/-- The loop of the `SequenceType` and `SetType` cases: one field per named
component, nothing for a components-of entry. -/
def generateComponentFields (cat : Catalog) (fuel : Nat) :
    List ComponentType → moduleContext → Option (List GoField × moduleContext)
  | [], ctx => some ([], ctx)
  | ComponentType.NamedComponentType f isOptional dflt :: rest, ctx =>
      match generateStructField cat fuel f isOptional dflt ctx with
      | none => none
      | some (field, ctx) =>
          match generateComponentFields cat fuel rest ctx with
          | none => none
          | some (fields, ctx) => some (field :: fields, ctx)
  | ComponentType.ComponentsOfComponentType _ :: rest, ctx =>
      generateComponentFields cat fuel rest ctx
/-- `generateStructField` on the parts of a `NamedComponentType`. -/
def generateStructField (cat : Catalog) (fuel : Nat) :
    NamedType → Bool → Option Value → moduleContext → Option (GoField × moduleContext)
  | NamedType.mk identifier t, isOptional, dflt, ctx =>
      match generateTypeBody cat fuel t false ctx with
      | none => none
      | some (type, ctx) =>
          match asn1TagFromType cat fuel ctx ⟨NamedType.mk identifier t, isOptional, dflt⟩ with
          | none => none
          | some (tag, ctx) =>
              some (GoField.mk (goifyName identifier) type tag
                (commentFromComponentType ⟨NamedType.mk identifier t, isOptional, dflt⟩), ctx)
end

/-- `generateValueBody`: the names and the value expressions (both empty for
Go's `nil, nil`). -/
def generateValueBody (value : Value) : List String × List String :=
  let pairs :=
    match value with
    | Value.ObjectIdentifierValue tt =>
        tt.filterMap (fun v =>
          match v with
          | ObjectIdElementValue.ObjectIdElement name id => some (goifyName name, toString id)
          | ObjectIdElementValue.Other => none)
    | _ => []
  if (pairs.map Prod.snd).length > 0 then (pairs.map Prod.fst, pairs.map Prod.snd)
  else ([], [])

/-- The `default:` case of `generateTypeBody` on an absent type, and
`generateTypeBody` on a present one. -/
def generateTypeBodyOpt (cat : Catalog) (fuel : Nat) (typeDescr : Option Typ) (noStar : Bool)
    (ctx : moduleContext) : Option (GoExpr × moduleContext) :=
  match typeDescr with
  | some t => generateTypeBody cat fuel t noStar ctx
  | none => some (GoExpr.nil, ctx.appendError "Ignoring unsupported type <nil>")

/-- `generateValueDecl`. -/
def generateValueDecl (cat : Catalog) (fuel : Nat) (ctx : moduleContext) (reference : String)
    (typeDescr : Option Typ) (value : Value) : Option (GoDecl × moduleContext) :=
  match generateValueBody value with
  | (names, values) =>
      match generateTypeBodyOpt cat fuel typeDescr true ctx with
      | none => none
      | some (type, ctx) =>
          some (GoDecl.constDecl names type (commentFromType typeDescr reference) values, ctx)

/-- `generateTypeDecl`. -/
def generateTypeDecl (cat : Catalog) (fuel : Nat) (ctx : moduleContext) (reference : String)
    (typeDescr : Option Typ) : Option (GoDecl × moduleContext) :=
  match generateTypeBodyOpt cat fuel typeDescr true ctx with
  | none => none
  | some (type, ctx) =>
      some (GoDecl.typeDecl (goifyName reference) type (commentFromType typeDescr reference),
        ctx)

/-- The body of the loop of `generateDeclarations`: the declaration of one
assignment. -/
def generateDecl (cat : Catalog) (fuel : Nat) (ctx : moduleContext) :
    Assignment → Option (GoDecl × moduleContext)
  | Assignment.TypeAssignment a => generateTypeDecl cat fuel ctx a.TypeReference a.type
  | Assignment.ValueAssignment reference type value =>
      generateValueDecl cat fuel ctx reference type value

/-- The loop of `generateDeclarations` over an assignment list. -/
def generateDeclList (cat : Catalog) (fuel : Nat) :
    List Assignment → moduleContext → Option (List GoDecl × moduleContext)
  | [], ctx => some ([], ctx)
  | assignment :: rest, ctx =>
      match generateDecl cat fuel ctx assignment with
      | none => none
      | some (decl, ctx) =>
          match generateDeclList cat fuel rest ctx with
          | none => none
          | some (decls, ctx) => some (decl :: decls, ctx)

/-- `generateDeclarations`. -/
def generateDeclarations (cat : Catalog) (fuel : Nat) (ctx : moduleContext)
    (module : ModuleDefinition) : Option (List GoDecl × moduleContext) :=
  generateDeclList cat fuel module.ModuleBody.AssignmentList ctx

/-- What a call of `Generate` does: it returns the error `msg` without
touching the writer, or it returns what `goprint.Fprint` returns on the
file `ast`. -/
inductive GenerateResult where
  | error (msg : String)
  | printed (ast : GoFile)

/-- The message that `Generate` builds from the recorded errors. -/
def errorMessage (errors : List String) : String :=
  errors.foldl (fun msg err => msg ++ "  " ++ err ++ "\n")
    "Errors generating Go AST from module: \n"

/-- The context `Generate` starts from. -/
def initialContext (module : ModuleDefinition) : moduleContext :=
  { extensibilityImplied := module.ExtensibilityImplied
    tagDefault := module.TagDefault
    errors := []
    lookupContext := module.ModuleBody
    requiredModules := [] }

/-- The loop of `Generate` over the imports of the module. -/
def requireImports (ctx : moduleContext) (imports : List SymbolsFromModule) : moduleContext :=
  imports.foldl (fun ctx v => ctx.requireModule (goifyName v.Module.Reference)) ctx

/-- The import declarations of `Generate`, one per required module. -/
def importDecls (requiredModules : List String) : List GoDecl :=
  requiredModules.map (fun moduleName => GoDecl.importDecl ("\"" ++ moduleName ++ "\""))

/-- `declCodeGen.Generate`. -/
def Generate (gen : GenParams) (cat : Catalog) (fuel : Nat) (module : ModuleDefinition) :
    Option GenerateResult :=
  let ctx := initialContext module
  let moduleName :=
    if gen.Package.length > 0 then gen.Package
    else goifyName module.ModuleIdentifier.Reference
  match generateDeclarations cat fuel ctx module with
  | none => none
  | some (decls, ctx) =>
      if ctx.errors.length ≠ 0 then some (GenerateResult.error (errorMessage ctx.errors))
      else
        let ctx := requireImports ctx module.ModuleBody.Imports
        some (GenerateResult.printed ⟨moduleName, importDecls ctx.requiredModules ++ decls⟩)

/-! ## Definitions used by the statements -/

/-- The lines that follow the header in the message of the aggregate error:
one line per diagnostic, in order. -/
def diagnosticLines : List String → String
  | [] => ""
  | err :: rest => "  " ++ err ++ "\n" ++ diagnosticLines rest

/-- The header identifier of the generated file. -/
def packageName (gen : GenParams) (module : ModuleDefinition) : String :=
  if gen.Package.length > 0 then gen.Package
  else goifyName module.ModuleIdentifier.Reference

/-- A sequence with every occurrence after the first of each element
removed. -/
def firstOccurrences (ids : List String) : List String :=
  ids.reverse.dedup.reverse

/-- The assignment list `name_i ::= reference_i` for a list of pairs
`(name_i, reference_i)`. -/
def referenceAssignments (pairs : List (String × String)) : List Assignment :=
  pairs.map (fun p => Assignment.TypeAssignment ⟨p.1, some (Typ.TypeReference p.2), ""⟩)

/-- The diagnostic that `resolveTypeReference` records for a name. -/
def cannotResolve (name : String) : String :=
  "Can not resolve TypeReference " ++ name

/-- The next link of a reference chain: the name that the local definition
of `name`, stripped of its tag and constraint wrappers, refers to. -/
def nextReference (ctx : moduleContext) (name : String) : Option String :=
  match GetType ctx.lookupContext.AssignmentList name with
  | some assignment =>
      match assignment.type.map removeWrapperTypes with
      | some (Typ.TypeReference tt) => some tt
      | _ => none
  | none => none

/-- The chain of local definitions that starts at `name` ends after at most
`n` links. -/
def chainEndsWithin (ctx : moduleContext) : Nat → String → Bool
  | 0, name => (nextReference ctx name).isNone
  | n + 1, name =>
      match nextReference ctx name with
      | none => true
      | some tt => chainEndsWithin ctx n tt

/-- The core type is a type reference or array-like. -/
def isReferenceOrArray : Typ → Bool
  | Typ.TypeReference _ => true
  | Typ.OctetStringType => true
  | Typ.SequenceOfType _ => true
  | Typ.SetOfType _ => true
  | _ => false

/-- Modelled from the spec: the useful-type catalog of `ast.go` with its two
time types, defined as in X.680; no owning pseudo-module is listed.  `%#v`
is rendered as a placeholder. -/
def sampleCatalog : Catalog :=
  { USEFUL_TYPES := fun name =>
      if name = "GeneralizedTime" then
        some (Typ.TaggedType ⟨TagClass.CLASS_UNIVERSAL, Value.Number 24⟩
          (Typ.RestrictedStringType LexType.VisibleString) TagType.TAGS_IMPLICIT)
      else if name = "UTCTime" then
        some (Typ.TaggedType ⟨TagClass.CLASS_UNIVERSAL, Value.Number 23⟩
          (Typ.RestrictedStringType LexType.VisibleString) TagType.TAGS_IMPLICIT)
      else none
    USEFUL_TYPES_MODULE := fun _ => none
    GeneralizedTimeName := "GeneralizedTime"
    UTCTimeName := "UTCTime"
    goSyntax := fun _ => "<value>" }

/-- The module of the tests, with the given assignments. -/
def testModule (assignments : List Assignment) : ModuleDefinition :=
  { ModuleIdentifier := ⟨"My-ASN1-ModuleName"⟩
    TagDefault := 0
    ExtensibilityImplied := false
    ModuleBody := ⟨[], assignments⟩ }

/-- Two assignments that refer to two undefined names. -/
def twoUndefined : ModuleDefinition :=
  testModule (referenceAssignments [("First", "Missing1"), ("Second", "Missing2")])

/-- `A ::= B` where `B` is undefined. -/
def chainModule : ModuleDefinition :=
  testModule (referenceAssignments [("A", "B")])

/-- `A ::= B`, `B ::= A`. -/
def cyclicModule : ModuleDefinition :=
  testModule (referenceAssignments [("A", "B"), ("B", "A")])

/-- `X ::= Missing`, `A ::= B`, `B ::= A`: an undefined reference followed by
a cycle. -/
def diagnosticThenCycle : ModuleDefinition :=
  testModule (referenceAssignments [("X", "Missing"), ("A", "B"), ("B", "A")])

/-- Generator parameters without package override. -/
def noParams : GenParams :=
  ⟨"", ""⟩

/-- The walk only ever extends a context: the lookup context and the module
flags stay, diagnostics and required modules are appended at the end, and a
duplicate-free list of required modules stays duplicate-free. -/
def moduleContext.Extends (ctx ctx' : moduleContext) : Prop :=
  ctx'.lookupContext = ctx.lookupContext
  ∧ ctx'.extensibilityImplied = ctx.extensibilityImplied
  ∧ ctx'.tagDefault = ctx.tagDefault
  ∧ (∃ errs, ctx'.errors = ctx.errors ++ errs)
  ∧ (∃ mods, ctx'.requiredModules = ctx.requiredModules ++ mods)
  ∧ (ctx.requiredModules.Nodup → ctx'.requiredModules.Nodup)

/-- The names that `Generate` requires for the imports of a module. -/
def importNames (module : ModuleDefinition) : List String :=
  module.ModuleBody.Imports.map (fun v => goifyName v.Module.Reference)

/-- The module of `TestTime`, importing one further module. -/
def timeModule : ModuleDefinition :=
  { ModuleIdentifier := ⟨"My-ASN1-ModuleName"⟩
    TagDefault := 0
    ExtensibilityImplied := false
    ModuleBody :=
      ⟨[⟨⟨"Other-Module"⟩⟩],
       [Assignment.TypeAssignment
          ⟨"MyTimeType", some (Typ.TypeReference "GeneralizedTime"), ""⟩,
        Assignment.TypeAssignment
          ⟨"MySequence",
           some (Typ.SequenceType
             [ComponentType.NamedComponentType
                (NamedType.mk "myTimeField" (Typ.TypeReference "MyTimeType")) false none]),
           ""⟩]⟩ }

/-- The declarations that the walk of `timeModule` produces. -/
def timeModuleDecls : List GoDecl :=
  [GoDecl.typeDecl "MyTimeType" (GoExpr.Ident "time.Time") none,
   GoDecl.typeDecl "MySequence"
     (GoExpr.StructType
       [GoField.mk "MyTimeField" (GoExpr.Ident "time.Time")
          "`xml:\"myTimeField\" json:\"myTimeField,omitempty\" asn1:\"generalized\"`" none])
     none]

/-- The context at the end of the walk of `timeModule`. -/
def timeModuleContext : moduleContext :=
  { initialContext timeModule with requiredModules := ["time"] }

/-- The field of `TestTags`: `myStringField IA5String`. -/
def myStringField : NamedComponentType :=
  ⟨NamedType.mk "myStringField" (Typ.RestrictedStringType LexType.IA5String), false, none⟩

/-- The field `myIntField INTEGER` of `TestDeclSequenceTypeSyntax`. -/
def myIntField : NamedComponentType :=
  ⟨NamedType.mk "myIntField" Typ.IntegerType, false, none⟩

/-- The field `myOctetString OCTET STRING` of `TestDeclSequenceTypeSyntax`. -/
def myOctetString : NamedComponentType :=
  ⟨NamedType.mk "myOctetString" Typ.OctetStringType, false, none⟩

/-- A field `count INTEGER DEFAULT 5`. -/
def defaultedField : NamedComponentType :=
  ⟨NamedType.mk "count" Typ.IntegerType, false, some (Value.Number 5)⟩

/-- A field `label [APPLICATION 3] EXPLICIT INTEGER OPTIONAL` with the
string default `abc`. -/
def taggedField : NamedComponentType :=
  ⟨NamedType.mk "label"
      (Typ.TaggedType ⟨TagClass.CLASS_APPLICATION, Value.Number 3⟩ Typ.IntegerType
        TagType.TAGS_EXPLICIT),
    true, some (Value.String "abc")⟩

/-- A character of a name: an ASCII letter, a digit, a hyphen or an
underscore. -/
def isNameChar (c : Char) : Bool :=
  c.isAlphanum || c = '-' || c = '_'

/-- The segments of a name: it is split at every hyphen and every
underscore. -/
def splitSegments : List Char → List (List Char)
  | [] => [[]]
  | c :: cs =>
      if c = '-' ∨ c = '_' then [] :: splitSegments cs
      else
        match splitSegments cs with
        | [] => [[c]]
        | seg :: segs => (c :: seg) :: segs

/-- A segment with its first letter upper-cased and the rest unchanged. -/
def upperFirstLetter : List Char → List Char
  | [] => []
  | c :: cs => if c.isAlpha then c.toUpper :: cs else c :: upperFirstLetter cs

/-- Every letter of the name is upper-case. -/
def allLettersUpper (name : List Char) : Bool :=
  name.all (fun c => !c.isAlpha || c.isUpper)

/-- The reference definition of the name normaliser, in the words of the
specification: the two legacy overrides; a name whose letters are all
upper-case keeps its text with each hyphen replaced by an underscore; any other
name is the concatenation of its segments, each with its first letter
upper-cased. -/
def goifyNameSpec (name : String) : String :=
  if name = "BigInt" then "int64"
  else if name = "StringStore" then "string"
  else if allLettersUpper name.data then String.mk (replaceChar '-' '_' name.data)
  else String.mk ((splitSegments name.data).map upperFirstLetter).flatten

/-- The type-mapping table of the primitive constructs, in the words of the
specification. -/
def primitiveShape : Typ → Option GoExpr
  | Typ.BooleanType => some (GoExpr.Ident "bool")
  | Typ.IntegerType => some (GoExpr.Ident "int64")
  | Typ.CharacterStringType => some (GoExpr.Ident "string")
  | Typ.RestrictedStringType _ => some (GoExpr.Ident "string")
  | Typ.RealType => some (GoExpr.Ident "float64")
  | Typ.OctetStringType => some (GoExpr.ArrayType (GoExpr.Ident "byte"))
  | Typ.EnumeratedType _ => some (GoExpr.Ident "string")
  | Typ.IntegerEnumType _ => some (GoExpr.Ident "int")
  | Typ.NullType => some (GoExpr.Ident "interface\x7b\x7d")
  | Typ.ObjectIdentifierType => some (GoExpr.Ident "int")
  | _ => none

/-- The assignment has a type, and the type is a primitive construct of the
table. -/
def isPrimitiveAssignment (a : TypeAssignment) : Bool :=
  (a.type.bind primitiveShape).isSome

/-- The declaration that the table gives a type assignment: its name is
`goifyName` of the assignment name, its body the shape of the table, its
comment the one `commentFromType` attaches. -/
def primitiveDecl (a : TypeAssignment) : GoDecl :=
  GoDecl.typeDecl (goifyName a.TypeReference) ((a.type.bind primitiveShape).getD GoExpr.nil)
    (commentFromType a.type a.TypeReference)

/-- The assignments of `TestDeclPrimitiveTypesSyntax`. -/
def primitiveAssignments : List TypeAssignment :=
  [⟨"MyBool", some Typ.BooleanType, ""⟩,
   ⟨"MyInt", some Typ.IntegerType, ""⟩,
   ⟨"MyString", some Typ.CharacterStringType, ""⟩,
   ⟨"MyOctetString", some Typ.OctetStringType, ""⟩,
   ⟨"MyReal", some Typ.RealType, ""⟩]

/-- The context after a step that recorded the diagnostics `errs` and required
the modules `mods`, in that order. -/
def moduleContext.record (ctx : moduleContext) (errs mods : List String) : moduleContext :=
  { mods.foldl moduleContext.requireModule ctx with errors := ctx.errors ++ errs }

/-- A step of the walk is framed by the lookup context `body`: on every
context with that lookup context it has the same outcome, either no return or
one result together with the diagnostics it records and the modules it
requires. -/
def Framed {α : Type} (body : ModuleBody) (f : moduleContext → Option (α × moduleContext)) :
    Prop :=
  (∀ ctx, ctx.lookupContext = body → f ctx = none)
  ∨ ∃ a errs mods, ∀ ctx, ctx.lookupContext = body → f ctx = some (a, ctx.record errs mods)

/-- The diagnostics recorded between a context and a later one. -/
def diagnosticsSince (ctx ctx' : moduleContext) : List String :=
  ctx'.errors.drop ctx.errors.length

/-- The tag layers around the core of a type, outermost first; constraint
layers carry no tag. -/
def tagLayers : Typ → List (Tag × TagType)
  | Typ.TaggedType tag t tagType => (tag, tagType) :: tagLayers t
  | Typ.ConstraintedType t _ => tagLayers t
  | _ => []

/-- The value is a literal `Number`. -/
def isLiteralNumber : Value → Bool
  | Value.Number _ => true
  | _ => false

/-- The metadata components of one tag layer. -/
def tagLayerComponents (layer : Tag × TagType) : List String :=
  (if layer.1.Class = TagClass.CLASS_APPLICATION then ["application"] else [])
    ++ (if layer.2 = TagType.TAGS_EXPLICIT then ["explicit"] else [])
    ++ (match layer.1.ClassNumber with
        | Value.Number cn => ["tag:" ++ toString cn]
        | _ => [])

/-- The diagnostic for a tag layer whose class number is no literal. -/
def tagLayerDiagnostic (cat : Catalog) (layer : Tag × TagType) : String :=
  "Tag value should be Number, got " ++ cat.goSyntax layer.1.ClassNumber

/-- The diagnostics of the tag layers of a type: one for every layer whose
class number is not a literal `Number`, outermost first. -/
def tagLayerDiagnostics (cat : Catalog) (t : Typ) : List String :=
  ((tagLayers t).filter (fun layer => !isLiteralNumber layer.1.ClassNumber)).map
    (tagLayerDiagnostic cat)

/-- The named components of a component list, in order; a components-of entry
contributes none. -/
def namedComponents : List ComponentType → List NamedComponentType
  | [] => []
  | ComponentType.NamedComponentType f isOptional dflt :: rest =>
      ⟨f, isOptional, dflt⟩ :: namedComponents rest
  | ComponentType.ComponentsOfComponentType _ :: rest => namedComponents rest

/-- The alternatives of a choice as named components, neither optional nor
defaulted. -/
def alternativeComponents (alternatives : List NamedType) : List NamedComponentType :=
  alternatives.map (fun f => ⟨f, false, none⟩)

/-- The field of a named component, translated in a context: it is named
`goifyName` of the identifier, its shape is the translation of the component
type in field position, its tag is the one `asn1TagFromType` gives the
component. -/
def IsFieldOf (cat : Catalog) (fuel : Nat) (ctx : moduleContext) (nc : NamedComponentType)
    (field : GoField) : Prop :=
  ∃ shape c1 tag c2,
    generateTypeBody cat fuel nc.NamedType.type false ctx = some (shape, c1)
    ∧ asn1TagFromType cat fuel ctx nc = some (tag, c2)
    ∧ field = GoField.mk (goifyName nc.NamedType.Identifier) shape tag
        (commentFromComponentType nc)

/-- The components of the sequence of `TestDeclSequenceTypeSyntax`: an integer
field and a nested sequence with one octet string field. -/
def nestedComponents : List ComponentType :=
  [ComponentType.NamedComponentType (NamedType.mk "myIntField" Typ.IntegerType) false none,
   ComponentType.NamedComponentType
     (NamedType.mk "myStructField"
       (Typ.SequenceType
         [ComponentType.NamedComponentType
            (NamedType.mk "myOctetString" Typ.OctetStringType) false none]))
     false none]

/-- The sequence of `TestDeclSequenceTypeSyntax`. -/
def nestedSequence : Typ :=
  Typ.SequenceType nestedComponents

/-- The module `Y ::= INTEGER`. -/
def integerAlias : ModuleDefinition :=
  testModule [Assignment.TypeAssignment ⟨"Y", some Typ.IntegerType, ""⟩]

/-- The type `[0] IMPLICIT Y`. -/
def taggedReference : Typ :=
  Typ.TaggedType ⟨TagClass.CLASS_CONTEXT_SPECIFIC, Value.Number 0⟩ (Typ.TypeReference "Y")
    TagType.TAGS_IMPLICIT

/-- The type `Y (constraint)`. -/
def constrainedReference : Typ :=
  Typ.ConstraintedType (Typ.TypeReference "Y") ⟨"SIZE (1..8)"⟩

/-- The name at which the chain of local definitions that starts at `name`
ends, when it ends within `n` links. -/
def chainEnd (ctx : moduleContext) : Nat → String → Option String
  | 0, name => if (nextReference ctx name).isNone then some name else none
  | n + 1, name =>
      match nextReference ctx name with
      | none => some name
      | some tt => chainEnd ctx n tt

/-- The type, stripped of its tag and constraint wrappers, is a BitString, or
it is a reference whose chain of local definitions ends within `n` links at a
definition that, stripped of its wrappers, is a BitString. -/
def endsAtBitString (ctx : moduleContext) (n : Nat) (t : Typ) : Bool :=
  match removeWrapperTypes t with
  | Typ.BitStringType => true
  | Typ.TypeReference reference =>
      match chainEnd ctx n reference with
      | some last =>
          match GetType ctx.lookupContext.AssignmentList last with
          | some definition =>
              match definition.type.map removeWrapperTypes with
              | some Typ.BitStringType => true
              | _ => false
          | none => false
      | none => false
  | _ => false

/-- The module of `TestBitString`. -/
def bitStringModule : ModuleDefinition :=
  testModule
    [Assignment.TypeAssignment
       ⟨"MyBitStringType",
        some (Typ.ConstraintedType Typ.BitStringType ⟨"SIZE (32..MAX)"⟩), ""⟩,
     Assignment.TypeAssignment
       ⟨"MyNestedBitStringType", some (Typ.TypeReference "MyBitStringType"), ""⟩,
     Assignment.TypeAssignment
       ⟨"MySequence",
        some (Typ.SequenceType
          [ComponentType.NamedComponentType
             (NamedType.mk "myNestedBitStringField" (Typ.TypeReference "MyNestedBitStringType"))
             false none,
           ComponentType.NamedComponentType
             (NamedType.mk "myBitStringField" (Typ.TypeReference "MyBitStringType"))
             false none,
           ComponentType.NamedComponentType
             (NamedType.mk "bitStringField" Typ.BitStringType) false none]),
        ""⟩]

/-- An assignment whose type is a construct the generator has no case for,
followed by a reference to an undefined name. -/
def unsupportedThenUndefined : List Assignment :=
  [Assignment.TypeAssignment ⟨"Odd", some (Typ.Unsupported "asn1go.AnyType\x7b\x7d"), ""⟩,
   Assignment.TypeAssignment ⟨"Second", some (Typ.TypeReference "Missing2"), ""⟩]

/-- A field `version [maxVersion] EXPLICIT INTEGER` whose class number is a
value reference, not a literal. -/
def symbolicTagField : NamedComponentType :=
  ⟨NamedType.mk "version"
      (Typ.TaggedType ⟨TagClass.CLASS_CONTEXT_SPECIFIC, Value.Other "maxVersion"⟩
        Typ.IntegerType TagType.TAGS_EXPLICIT),
    false, none⟩

/-- The object-identifier value made of the arc elements `(name, id)`. -/
def arcValue (arcs : List (String × Int)) : Value :=
  Value.ObjectIdentifierValue
    (arcs.map (fun arc => ObjectIdElementValue.ObjectIdElement arc.1 arc.2))

/-- The module with the one assignment `maxValue INTEGER ::= 5`. -/
def numberValueModule : ModuleDefinition :=
  testModule [Assignment.ValueAssignment "maxValue" (some Typ.IntegerType) (Value.Number 5)]

/-- The module with the one assignment `limit Missing ::= 5`, whose type is an
undefined reference. -/
def undefinedValueTypeModule : ModuleDefinition :=
  testModule
    [Assignment.ValueAssignment "limit" (some (Typ.TypeReference "Missing")) (Value.Number 5)]

/-- The entry `name(index)` of an enumeration item. -/
def enumEntry (item : EnumItem) : String :=
  item.Name ++ "(" ++ toString item.Index ++ ")"

/-- The kinds of type that get a documentation string: ObjectIdentifier, Null,
Choice and the two enumeration kinds. -/
def isDocumentedKind : Typ → Bool
  | Typ.ObjectIdentifierType => true
  | Typ.NullType => true
  | Typ.ChoiceType _ => true
  | Typ.IntegerEnumType _ => true
  | Typ.EnumeratedType _ => true
  | _ => false

/-- A field `value [APPLICATION 1] EXPLICIT [2] EXPLICIT INTEGER`, whose type
has two nested tag layers. -/
def doublyTaggedField : NamedComponentType :=
  ⟨NamedType.mk "value"
      (Typ.TaggedType ⟨TagClass.CLASS_APPLICATION, Value.Number 1⟩
        (Typ.TaggedType ⟨TagClass.CLASS_CONTEXT_SPECIFIC, Value.Number 2⟩ Typ.IntegerType
          TagType.TAGS_EXPLICIT)
        TagType.TAGS_EXPLICIT),
    false, none⟩

/-- The entry is a named component, not a components-of inclusion. -/
def isNamedEntry : ComponentType → Bool
  | ComponentType.NamedComponentType _ _ _ => true
  | ComponentType.ComponentsOfComponentType _ => false

/-- The module `Base ::= SEQUENCE { baseField INTEGER }`,
`Extended ::= SEQUENCE { COMPONENTS OF Base, ownField BOOLEAN }`. -/
def componentsOfModule : ModuleDefinition :=
  testModule
    [Assignment.TypeAssignment
       ⟨"Base",
        some (Typ.SequenceType
          [ComponentType.NamedComponentType (NamedType.mk "baseField" Typ.IntegerType)
             false none]),
        ""⟩,
     Assignment.TypeAssignment
       ⟨"Extended",
        some (Typ.SequenceType
          [ComponentType.ComponentsOfComponentType (Typ.TypeReference "Base"),
           ComponentType.NamedComponentType (NamedType.mk "ownField" Typ.BooleanType)
             false none]),
        ""⟩]

/-- The resolved leaf is one of the generator's special cases: it bears one of
the two time names, or its type stripped of wrappers is a BitString. -/
def isSpecialCase (cat : Catalog) (leaf : TypeAssignment) : Bool :=
  decide (leaf.TypeReference = cat.GeneralizedTimeName)
    || decide (leaf.TypeReference = cat.UTCTimeName)
    || (match leaf.type.map removeWrapperTypes with
        | some Typ.BitStringType => true
        | _ => false)

/-- The qualifier of a reference: `goifyName` of the owning module and a full
stop when the reference resolves to a leaf with a non-empty owning module,
nothing otherwise. -/
def ownerQualifier : Option TypeAssignment → String
  | some leaf => if leaf.Module ≠ "" then goifyName leaf.Module ++ "." else ""
  | none => ""

/-- The pointer mark of a position: none where `noStar` holds, `*`
elsewhere. -/
def pointerPrefix (noStar : Bool) : String :=
  if noStar then "" else "*"

/-- The module `Name ::= INTEGER` owned by `Other-Module`, and
`Alias ::= Name`. -/
def ownedModule : ModuleDefinition :=
  testModule
    [Assignment.TypeAssignment ⟨"Name", some Typ.IntegerType, "Other-Module"⟩,
     Assignment.TypeAssignment ⟨"Alias", some (Typ.TypeReference "Name"), ""⟩]

mutual
/-- Every type reference that the translation of the type visits starts a
chain of local definitions that ends within `n` links. -/
def referencesEndWithin (ctx : moduleContext) (n : Nat) : Typ → Bool
  | Typ.TypeReference name => chainEndsWithin ctx n name
  | Typ.TaggedType _ t _ => referencesEndWithin ctx n t
  | Typ.ConstraintedType t _ => referencesEndWithin ctx n t
  | Typ.SetOfType t => referencesEndWithin ctx n t
  | Typ.SequenceOfType t => referencesEndWithin ctx n t
  | Typ.ChoiceType alternatives => alternativesEndWithin ctx n alternatives
  | Typ.SequenceType components => componentsEndWithin ctx n components
  | Typ.SetType components => componentsEndWithin ctx n components
  | Typ.BooleanType => true
  | Typ.IntegerType => true
  | Typ.CharacterStringType => true
  | Typ.RealType => true
  | Typ.OctetStringType => true
  | Typ.RestrictedStringType _ => true
  | Typ.BitStringType => true
  | Typ.EnumeratedType _ => true
  | Typ.IntegerEnumType _ => true
  | Typ.StringType => true
  | Typ.BigInt => true
  | Typ.NullType => true
  | Typ.ObjectIdentifierType => true
  | Typ.Unsupported _ => true
/-- The same for the alternatives of a choice. -/
def alternativesEndWithin (ctx : moduleContext) (n : Nat) : List NamedType → Bool
  | [] => true
  | f :: rest => fieldEndsWithin ctx n f && alternativesEndWithin ctx n rest
/-- The same for the named components of a sequence or set; a components-of
entry is not visited. -/
def componentsEndWithin (ctx : moduleContext) (n : Nat) : List ComponentType → Bool
  | [] => true
  | ComponentType.NamedComponentType f _ _ :: rest =>
      fieldEndsWithin ctx n f && componentsEndWithin ctx n rest
  | ComponentType.ComponentsOfComponentType _ :: rest => componentsEndWithin ctx n rest
/-- The same for the type of a named type. -/
def fieldEndsWithin (ctx : moduleContext) (n : Nat) : NamedType → Bool
  | NamedType.mk _ t => referencesEndWithin ctx n t
end

/-- The same for the type of an assignment; an absent type has no
reference. -/
def typeEndsWithin (ctx : moduleContext) (n : Nat) : Option Typ → Bool
  | some t => referencesEndWithin ctx n t
  | none => true

/-- Every type reference that the walk of the assignment list visits starts a
chain of local definitions that ends within `n` links. -/
def assignmentsEndWithin (ctx : moduleContext) (n : Nat) : List Assignment → Bool
  | [] => true
  | Assignment.TypeAssignment a :: rest =>
      typeEndsWithin ctx n a.type && assignmentsEndWithin ctx n rest
  | Assignment.ValueAssignment _ type _ :: rest =>
      typeEndsWithin ctx n type && assignmentsEndWithin ctx n rest

/-- The sequence `SEQUENCE { next A }`. -/
def cyclicSequence : Typ :=
  Typ.SequenceType
    [ComponentType.NamedComponentType (NamedType.mk "next" (Typ.TypeReference "A")) false none]

/-- The module `MyTimeType ::= GeneralizedTime`, `A ::= B`, `B ::= A`: a time
alias next to a reference cycle. -/
def timeThenCycle : ModuleDefinition :=
  testModule
    [Assignment.TypeAssignment ⟨"MyTimeType", some (Typ.TypeReference "GeneralizedTime"), ""⟩,
     Assignment.TypeAssignment ⟨"A", some (Typ.TypeReference "B"), ""⟩,
     Assignment.TypeAssignment ⟨"B", some (Typ.TypeReference "A"), ""⟩]

/-- The type, stripped of its tag and constraint wrappers, is a reference whose
chain of local definitions ends within `n` links at one of the two time names
of the catalog. -/
def endsAtTimeName (cat : Catalog) (ctx : moduleContext) (n : Nat) (t : Typ) : Bool :=
  match removeWrapperTypes t with
  | Typ.TypeReference reference =>
      match chainEnd ctx n reference with
      | some last => last = cat.GeneralizedTimeName || last = cat.UTCTimeName
      | none => false
  | _ => false

/-- The module `GeneralizedTime ::= BIT STRING`, `MyBits ::= GeneralizedTime`:
a bit string defined under one of the two time names. -/
def timeNamedBitString : ModuleDefinition :=
  testModule
    [Assignment.TypeAssignment ⟨"GeneralizedTime", some Typ.BitStringType, ""⟩,
     Assignment.TypeAssignment ⟨"MyBits", some (Typ.TypeReference "GeneralizedTime"), ""⟩]

/-- The module `MyBits ::= BIT STRING`, `A ::= B`, `B ::= A`: a bit string next
to a reference cycle. -/
def bitStringThenCycle : ModuleDefinition :=
  testModule
    [Assignment.TypeAssignment ⟨"MyBits", some Typ.BitStringType, ""⟩,
     Assignment.TypeAssignment ⟨"A", some (Typ.TypeReference "B"), ""⟩,
     Assignment.TypeAssignment ⟨"B", some (Typ.TypeReference "A"), ""⟩]

/-- A field `version [maxVersion] EXPLICIT A` whose class number is a value
reference and whose core type is the reference `A`. -/
def symbolicTagCyclicField : NamedComponentType :=
  ⟨NamedType.mk "version"
      (Typ.TaggedType ⟨TagClass.CLASS_CONTEXT_SPECIFIC, Value.Other "maxVersion"⟩
        (Typ.TypeReference "A") TagType.TAGS_EXPLICIT),
    false, none⟩

/-! # Supporting lemmas -/

/-! ## The walk only extends the context -/

theorem Extends.refl (ctx : moduleContext) : ctx.Extends ctx :=
  ⟨rfl, rfl, rfl, ⟨[], by simp⟩, ⟨[], by simp⟩, id⟩

theorem Extends.trans {a b c : moduleContext} (h1 : a.Extends b) (h2 : b.Extends c) :
    a.Extends c := by
  obtain ⟨l1, x1, t1, ⟨e1, he1⟩, ⟨m1, hm1⟩, n1⟩ := h1
  obtain ⟨l2, x2, t2, ⟨e2, he2⟩, ⟨m2, hm2⟩, n2⟩ := h2
  refine ⟨l2.trans l1, x2.trans x1, t2.trans t1, ⟨e1 ++ e2, ?_⟩, ⟨m1 ++ m2, ?_⟩, fun h => n2 (n1 h)⟩
  · rw [he2, he1, List.append_assoc]
  · rw [hm2, hm1, List.append_assoc]

theorem found_eq_true (module : String) (mods : List String) :
    requireModule.found module mods = true ↔ module ∈ mods := by
  induction mods with
  | nil => simp [requireModule.found]
  | cons m ms ih =>
      simp only [requireModule.found, List.mem_cons]
      by_cases h : m = module
      · simp [h]
      · simp [h, ih, Ne.symm h]

theorem requiredModules_requireModule (ctx : moduleContext) (module : String) :
    (ctx.requireModule module).requiredModules
      = if module ∈ ctx.requiredModules then ctx.requiredModules
        else ctx.requiredModules ++ [module] := by
  unfold moduleContext.requireModule
  by_cases h : module ∈ ctx.requiredModules
  · rw [if_pos ((found_eq_true _ _).mpr h), if_pos h]
  · have : ¬ requireModule.found module ctx.requiredModules = true :=
      fun e => h ((found_eq_true _ _).mp e)
    rw [if_neg this, if_neg h]

theorem appendError_extends (ctx : moduleContext) (err : String) :
    ctx.Extends (ctx.appendError err) :=
  ⟨rfl, rfl, rfl, ⟨[err], rfl⟩, ⟨[], by simp [moduleContext.appendError]⟩, id⟩

theorem requireModule_extends (ctx : moduleContext) (module : String) :
    ctx.Extends (ctx.requireModule module) := by
  have hreq := requiredModules_requireModule ctx module
  have hrest : (ctx.requireModule module).lookupContext = ctx.lookupContext
      ∧ (ctx.requireModule module).extensibilityImplied = ctx.extensibilityImplied
      ∧ (ctx.requireModule module).tagDefault = ctx.tagDefault
      ∧ (ctx.requireModule module).errors = ctx.errors := by
    unfold moduleContext.requireModule
    split <;> exact ⟨rfl, rfl, rfl, rfl⟩
  refine ⟨hrest.1, hrest.2.1, hrest.2.2.1, ⟨[], by simp [hrest.2.2.2]⟩, ?_, ?_⟩
  · by_cases h : module ∈ ctx.requiredModules
    · exact ⟨[], by rw [hreq, if_pos h]; simp⟩
    · exact ⟨[module], by rw [hreq, if_neg h]⟩
  · intro hnd
    rw [hreq]
    by_cases h : module ∈ ctx.requiredModules
    · rw [if_pos h]; exact hnd
    · rw [if_neg h]
      exact List.Nodup.append hnd (List.nodup_singleton _) (by simpa using h)

theorem resolveTypeReference_extends (cat : Catalog) (fuel : Nat) (ctx : moduleContext)
    (reference : String) (r : Option TypeAssignment) (ctx' : moduleContext)
    (h : resolveTypeReference cat fuel ctx reference = some (r, ctx')) : ctx.Extends ctx' := by
  unfold resolveTypeReference at h
  split at h
  · cases h
  · split at h
    · cases h; exact Extends.refl _
    · split at h
      · cases h; exact Extends.refl _
      · cases h; exact appendError_extends _ _

theorem generateSpecialCase_extends (cat : Catalog) (ctx : moduleContext)
    (resolved : TypeAssignment) :
    ctx.Extends (generateSpecialCase cat ctx resolved).2 := by
  unfold generateSpecialCase
  split
  · exact requireModule_extends _ _
  · split
    · exact requireModule_extends _ _
    · exact Extends.refl _

theorem generateReferenceBody_extends (cat : Catalog) (fuel : Nat) (name : String)
    (noStar : Bool) (ctx : moduleContext) (e : GoExpr) (ctx' : moduleContext)
    (h : generateReferenceBody cat fuel name noStar ctx = some (e, ctx')) :
    ctx.Extends ctx' := by
  cases hres : resolveTypeReference cat fuel ctx name with
  | none => simp [generateReferenceBody, hres] at h
  | some p =>
      obtain ⟨r, c1⟩ := p
      have h1 := resolveTypeReference_extends _ _ _ _ _ _ hres
      cases r with
      | none =>
          simp only [generateReferenceBody, hres, Option.some.injEq, Prod.mk.injEq] at h
          rw [← h.2]; exact h1
      | some nameAndType =>
          have h2 := generateSpecialCase_extends cat c1 nameAndType
          cases hsc : generateSpecialCase cat c1 nameAndType with
          | mk sc c2 =>
              rw [hsc] at h2
              have h3 := Extends.trans h1 h2
              cases sc with
              | some specialCase =>
                  simp only [generateReferenceBody, hres, hsc, Option.some.injEq,
                    Prod.mk.injEq] at h
                  rw [← h.2]; exact h3
              | none =>
                  simp only [generateReferenceBody, hres, hsc] at h
                  split at h
                  · simp only [Option.some.injEq, Prod.mk.injEq] at h
                    rw [← h.2]; exact h3
                  · simp only [Option.some.injEq, Prod.mk.injEq] at h
                    rw [← h.2]; exact h3

theorem asn1Unwrap_extends (cat : Catalog) :
    ∀ (t : Typ) (components : List String) (ctx : moduleContext),
      ctx.Extends (asn1Unwrap cat t components ctx).2.2
  | Typ.TaggedType tag t tagType, components, ctx => by
      unfold asn1Unwrap
      simp only
      split
      · exact asn1Unwrap_extends cat t _ ctx
      · exact Extends.trans (appendError_extends _ _) (asn1Unwrap_extends cat t _ _)
  | Typ.ConstraintedType t _, components, ctx => by
      unfold asn1Unwrap
      exact asn1Unwrap_extends cat t components ctx
  | Typ.BooleanType, _, ctx => Extends.refl _
  | Typ.IntegerType, _, ctx => Extends.refl _
  | Typ.CharacterStringType, _, ctx => Extends.refl _
  | Typ.RealType, _, ctx => Extends.refl _
  | Typ.OctetStringType, _, ctx => Extends.refl _
  | Typ.ChoiceType _, _, ctx => Extends.refl _
  | Typ.SequenceType _, _, ctx => Extends.refl _
  | Typ.SetType _, _, ctx => Extends.refl _
  | Typ.SetOfType _, _, ctx => Extends.refl _
  | Typ.SequenceOfType _, _, ctx => Extends.refl _
  | Typ.TypeReference _, _, ctx => Extends.refl _
  | Typ.RestrictedStringType _, _, ctx => Extends.refl _
  | Typ.BitStringType, _, ctx => Extends.refl _
  | Typ.EnumeratedType _, _, ctx => Extends.refl _
  | Typ.IntegerEnumType _, _, ctx => Extends.refl _
  | Typ.StringType, _, ctx => Extends.refl _
  | Typ.BigInt, _, ctx => Extends.refl _
  | Typ.NullType, _, ctx => Extends.refl _
  | Typ.ObjectIdentifierType, _, ctx => Extends.refl _
  | Typ.Unsupported _, _, ctx => Extends.refl _

theorem asn1TagFromType_extends (cat : Catalog) (fuel : Nat) (ctx : moduleContext)
    (nt : NamedComponentType) (tag : String) (ctx' : moduleContext)
    (h : asn1TagFromType cat fuel ctx nt = some (tag, ctx')) : ctx.Extends ctx' := by
  unfold asn1TagFromType at h
  simp only at h
  have hu := asn1Unwrap_extends cat nt.NamedType.type
    ((if nt.IsOptional = true then ["optional"] else []) ++ defaultComponents nt.Default) ctx
  cases hun : asn1Unwrap cat nt.NamedType.type
      ((if nt.IsOptional = true then ["optional"] else []) ++ defaultComponents nt.Default)
      ctx with
  | mk t rest =>
      obtain ⟨components, c1⟩ := rest
      rw [hun] at h hu
      simp only at h hu
      cases htt : asn1TypeTags cat fuel c1 t components with
      | none => simp [htt] at h
      | some q =>
          simp only [htt, Option.some.injEq, Prod.mk.injEq] at h
          rw [← h.2]; exact hu

mutual
theorem generateTypeBody_extends (cat : Catalog) (fuel : Nat) :
    ∀ (t : Typ) (noStar : Bool) (ctx : moduleContext) (e : GoExpr) (ctx' : moduleContext),
      generateTypeBody cat fuel t noStar ctx = some (e, ctx') → ctx.Extends ctx'
  | Typ.ChoiceType alternatives, _, ctx, e, ctx', h => by
      unfold generateTypeBody at h
      cases hf : generateChoiceFields cat fuel alternatives ctx with
      | none => simp [hf] at h
      | some p =>
          simp only [hf, Option.some.injEq, Prod.mk.injEq] at h
          rw [← h.2]
          exact generateChoiceFields_extends cat fuel alternatives ctx p.1 p.2 hf
  | Typ.SequenceType components, _, ctx, e, ctx', h => by
      unfold generateTypeBody at h
      cases hf : generateComponentFields cat fuel components ctx with
      | none => simp [hf] at h
      | some p =>
          simp only [hf, Option.some.injEq, Prod.mk.injEq] at h
          rw [← h.2]
          exact generateComponentFields_extends cat fuel components ctx p.1 p.2 hf
  | Typ.SetType components, _, ctx, e, ctx', h => by
      unfold generateTypeBody at h
      cases hf : generateComponentFields cat fuel components ctx with
      | none => simp [hf] at h
      | some p =>
          simp only [hf, Option.some.injEq, Prod.mk.injEq] at h
          rw [← h.2]
          exact generateComponentFields_extends cat fuel components ctx p.1 p.2 hf
  | Typ.SetOfType t, _, ctx, e, ctx', h => by
      unfold generateTypeBody at h
      cases hf : generateTypeBody cat fuel t true ctx with
      | none => simp [hf] at h
      | some p =>
          simp only [hf, Option.some.injEq, Prod.mk.injEq] at h
          rw [← h.2]
          exact generateTypeBody_extends cat fuel t true ctx p.1 p.2 hf
  | Typ.SequenceOfType t, _, ctx, e, ctx', h => by
      unfold generateTypeBody at h
      cases hf : generateTypeBody cat fuel t true ctx with
      | none => simp [hf] at h
      | some p =>
          simp only [hf, Option.some.injEq, Prod.mk.injEq] at h
          rw [← h.2]
          exact generateTypeBody_extends cat fuel t true ctx p.1 p.2 hf
  | Typ.TaggedType _ t _, _, ctx, e, ctx', h => by
      unfold generateTypeBody at h
      exact generateTypeBody_extends cat fuel t false ctx e ctx' h
  | Typ.ConstraintedType t _, _, ctx, e, ctx', h => by
      unfold generateTypeBody at h
      exact generateTypeBody_extends cat fuel t false ctx e ctx' h
  | Typ.TypeReference name, noStar, ctx, e, ctx', h => by
      unfold generateTypeBody at h
      exact generateReferenceBody_extends cat fuel name noStar ctx e ctx' h
  | Typ.BitStringType, _, ctx, e, ctx', h => by
      simp only [generateTypeBody, Option.some.injEq, Prod.mk.injEq] at h
      rw [← h.2]; exact requireModule_extends _ _
  | Typ.Unsupported _, _, ctx, e, ctx', h => by
      simp only [generateTypeBody, Option.some.injEq, Prod.mk.injEq] at h
      rw [← h.2]; exact appendError_extends _ _
  | Typ.BooleanType, _, ctx, e, ctx', h => by
      simp only [generateTypeBody, Option.some.injEq, Prod.mk.injEq] at h
      rw [← h.2]; exact Extends.refl _
  | Typ.IntegerType, _, ctx, e, ctx', h => by
      simp only [generateTypeBody, Option.some.injEq, Prod.mk.injEq] at h
      rw [← h.2]; exact Extends.refl _
  | Typ.CharacterStringType, _, ctx, e, ctx', h => by
      simp only [generateTypeBody, Option.some.injEq, Prod.mk.injEq] at h
      rw [← h.2]; exact Extends.refl _
  | Typ.RealType, _, ctx, e, ctx', h => by
      simp only [generateTypeBody, Option.some.injEq, Prod.mk.injEq] at h
      rw [← h.2]; exact Extends.refl _
  | Typ.OctetStringType, _, ctx, e, ctx', h => by
      simp only [generateTypeBody, Option.some.injEq, Prod.mk.injEq] at h
      rw [← h.2]; exact Extends.refl _
  | Typ.RestrictedStringType _, _, ctx, e, ctx', h => by
      simp only [generateTypeBody, Option.some.injEq, Prod.mk.injEq] at h
      rw [← h.2]; exact Extends.refl _
  | Typ.EnumeratedType _, _, ctx, e, ctx', h => by
      simp only [generateTypeBody, Option.some.injEq, Prod.mk.injEq] at h
      rw [← h.2]; exact Extends.refl _
  | Typ.IntegerEnumType _, _, ctx, e, ctx', h => by
      simp only [generateTypeBody, Option.some.injEq, Prod.mk.injEq] at h
      rw [← h.2]; exact Extends.refl _
  | Typ.StringType, _, ctx, e, ctx', h => by
      simp only [generateTypeBody, Option.some.injEq, Prod.mk.injEq] at h
      rw [← h.2]; exact Extends.refl _
  | Typ.BigInt, _, ctx, e, ctx', h => by
      simp only [generateTypeBody, Option.some.injEq, Prod.mk.injEq] at h
      rw [← h.2]; exact Extends.refl _
  | Typ.NullType, _, ctx, e, ctx', h => by
      simp only [generateTypeBody, Option.some.injEq, Prod.mk.injEq] at h
      rw [← h.2]; exact Extends.refl _
  | Typ.ObjectIdentifierType, _, ctx, e, ctx', h => by
      simp only [generateTypeBody, Option.some.injEq, Prod.mk.injEq] at h
      rw [← h.2]; exact Extends.refl _
theorem generateChoiceFields_extends (cat : Catalog) (fuel : Nat) :
    ∀ (alternatives : List NamedType) (ctx : moduleContext) (fields : List GoField)
      (ctx' : moduleContext),
      generateChoiceFields cat fuel alternatives ctx = some (fields, ctx') → ctx.Extends ctx'
  | [], ctx, fields, ctx', h => by
      simp only [generateChoiceFields, Option.some.injEq, Prod.mk.injEq] at h
      rw [← h.2]; exact Extends.refl _
  | f :: rest, ctx, fields, ctx', h => by
      unfold generateChoiceFields at h
      cases hf : generateStructField cat fuel f false none ctx with
      | none => simp [hf] at h
      | some p =>
          have h1 := generateStructField_extends cat fuel f false none ctx p.1 p.2 hf
          cases hr : generateChoiceFields cat fuel rest p.2 with
          | none => simp [hf, hr] at h
          | some q =>
              have h2 := generateChoiceFields_extends cat fuel rest p.2 q.1 q.2 hr
              simp only [hf, hr, Option.some.injEq, Prod.mk.injEq] at h
              rw [← h.2]; exact Extends.trans h1 h2
theorem generateComponentFields_extends (cat : Catalog) (fuel : Nat) :
    ∀ (components : List ComponentType) (ctx : moduleContext) (fields : List GoField)
      (ctx' : moduleContext),
      generateComponentFields cat fuel components ctx = some (fields, ctx') → ctx.Extends ctx'
  | [], ctx, fields, ctx', h => by
      simp only [generateComponentFields, Option.some.injEq, Prod.mk.injEq] at h
      rw [← h.2]; exact Extends.refl _
  | ComponentType.NamedComponentType f isOptional dflt :: rest, ctx, fields, ctx', h => by
      unfold generateComponentFields at h
      cases hf : generateStructField cat fuel f isOptional dflt ctx with
      | none => simp [hf] at h
      | some p =>
          have h1 := generateStructField_extends cat fuel f isOptional dflt ctx p.1 p.2 hf
          cases hr : generateComponentFields cat fuel rest p.2 with
          | none => simp [hf, hr] at h
          | some q =>
              have h2 := generateComponentFields_extends cat fuel rest p.2 q.1 q.2 hr
              simp only [hf, hr, Option.some.injEq, Prod.mk.injEq] at h
              rw [← h.2]; exact Extends.trans h1 h2
  | ComponentType.ComponentsOfComponentType _ :: rest, ctx, fields, ctx', h => by
      unfold generateComponentFields at h
      exact generateComponentFields_extends cat fuel rest ctx fields ctx' h
theorem generateStructField_extends (cat : Catalog) (fuel : Nat) :
    ∀ (f : NamedType) (isOptional : Bool) (dflt : Option Value) (ctx : moduleContext)
      (field : GoField) (ctx' : moduleContext),
      generateStructField cat fuel f isOptional dflt ctx = some (field, ctx') →
        ctx.Extends ctx'
  | NamedType.mk identifier t, isOptional, dflt, ctx, field, ctx', h => by
      unfold generateStructField at h
      cases hf : generateTypeBody cat fuel t false ctx with
      | none => simp [hf] at h
      | some p =>
          have h1 := generateTypeBody_extends cat fuel t false ctx p.1 p.2 hf
          cases hr : asn1TagFromType cat fuel p.2 ⟨NamedType.mk identifier t, isOptional, dflt⟩ with
          | none => simp [hf, hr] at h
          | some q =>
              have h2 := asn1TagFromType_extends cat fuel p.2 _ q.1 q.2 hr
              simp only [hf, hr, Option.some.injEq, Prod.mk.injEq] at h
              rw [← h.2]; exact Extends.trans h1 h2
end

theorem generateTypeBodyOpt_extends (cat : Catalog) (fuel : Nat) (typeDescr : Option Typ)
    (noStar : Bool) (ctx : moduleContext) (e : GoExpr) (ctx' : moduleContext)
    (h : generateTypeBodyOpt cat fuel typeDescr noStar ctx = some (e, ctx')) :
    ctx.Extends ctx' := by
  cases typeDescr with
  | none =>
      simp only [generateTypeBodyOpt, Option.some.injEq, Prod.mk.injEq] at h
      rw [← h.2]; exact appendError_extends _ _
  | some t => exact generateTypeBody_extends cat fuel t noStar ctx e ctx' h

theorem generateDecl_extends (cat : Catalog) (fuel : Nat) (ctx : moduleContext)
    (assignment : Assignment) (decl : GoDecl) (ctx' : moduleContext)
    (h : generateDecl cat fuel ctx assignment = some (decl, ctx')) : ctx.Extends ctx' := by
  cases assignment with
  | TypeAssignment a =>
      simp only [generateDecl, generateTypeDecl] at h
      cases hb : generateTypeBodyOpt cat fuel a.type true ctx with
      | none => simp [hb] at h
      | some p =>
          simp only [hb, Option.some.injEq, Prod.mk.injEq] at h
          rw [← h.2]
          exact generateTypeBodyOpt_extends cat fuel a.type true ctx p.1 p.2 hb
  | ValueAssignment reference type value =>
      simp only [generateDecl, generateValueDecl] at h
      cases hb : generateTypeBodyOpt cat fuel type true ctx with
      | none => simp [hb] at h
      | some p =>
          simp only [hb, Option.some.injEq, Prod.mk.injEq] at h
          rw [← h.2]
          exact generateTypeBodyOpt_extends cat fuel type true ctx p.1 p.2 hb

theorem generateDeclList_spec (cat : Catalog) (fuel : Nat) :
    ∀ (assignments : List Assignment) (ctx : moduleContext) (decls : List GoDecl)
      (ctx' : moduleContext),
      generateDeclList cat fuel assignments ctx = some (decls, ctx') →
        ctx.Extends ctx'
        ∧ List.Forall₂
            (fun assignment decl =>
              ∃ c1 c2, c1.lookupContext = ctx.lookupContext
                ∧ generateDecl cat fuel c1 assignment = some (decl, c2))
            assignments decls
  | [], ctx, decls, ctx', h => by
      simp only [generateDeclList, Option.some.injEq, Prod.mk.injEq] at h
      rw [← h.1, ← h.2]
      exact ⟨Extends.refl _, List.Forall₂.nil⟩
  | assignment :: rest, ctx, decls, ctx', h => by
      unfold generateDeclList at h
      cases hd : generateDecl cat fuel ctx assignment with
      | none => simp [hd] at h
      | some p =>
          have h1 := generateDecl_extends cat fuel ctx assignment p.1 p.2 hd
          cases hr : generateDeclList cat fuel rest p.2 with
          | none => simp [hd, hr] at h
          | some q =>
              have h2 := generateDeclList_spec cat fuel rest p.2 q.1 q.2 hr
              simp only [hd, hr, Option.some.injEq, Prod.mk.injEq] at h
              rw [← h.1, ← h.2]
              refine ⟨Extends.trans h1 h2.1, List.Forall₂.cons ⟨ctx, p.2, rfl, hd⟩ ?_⟩
              refine List.Forall₂.imp ?_ h2.2
              intro a d ⟨c1, c2, hl, hg⟩
              exact ⟨c1, c2, hl.trans h1.1, hg⟩

theorem requireImports_eq (ctx : moduleContext) (imports : List SymbolsFromModule) :
    requireImports ctx imports
      = (imports.map (fun v => goifyName v.Module.Reference)).foldl
          moduleContext.requireModule ctx := by
  unfold requireImports
  rw [List.foldl_map]

theorem foldl_requireModule_extends (ids : List String) :
    ∀ ctx : moduleContext, ctx.Extends (ids.foldl moduleContext.requireModule ctx) := by
  induction ids with
  | nil => intro ctx; exact Extends.refl _
  | cons x xs ih =>
      intro ctx
      exact Extends.trans (requireModule_extends ctx x) (ih _)

/-! ## Reference chains and the returns of the resolver -/

theorem GetType_name (assignments : List Assignment) (name : String) (a : TypeAssignment)
    (h : GetType assignments name = some a) : a.TypeReference = name := by
  induction assignments with
  | nil => simp [GetType] at h
  | cons x xs ih =>
      cases x with
      | TypeAssignment b =>
          simp only [GetType] at h
          split at h
          · next hb => cases h; exact hb
          · exact ih h
      | ValueAssignment r t v =>
          simp only [GetType] at h
          exact ih h

theorem unwrapToLeafType_succ (ctx : moduleContext) (fuel : Nat) (reference : String) :
    unwrapToLeafType ctx (fuel + 1) reference
      = match nextReference ctx reference with
        | some tt => unwrapToLeafType ctx fuel tt
        | none =>
            match GetType ctx.lookupContext.AssignmentList reference with
            | some assignment => some assignment
            | none => some ⟨reference, none, ""⟩ := by
  conv_lhs => rw [unwrapToLeafType]
  unfold nextReference
  cases hg : GetType ctx.lookupContext.AssignmentList reference with
  | none => rfl
  | some assignment =>
      simp only
      split <;> simp_all

theorem unwrapToLeafType_leaf (ctx : moduleContext) :
    ∀ (fuel : Nat) (reference : String) (leaf : TypeAssignment),
      unwrapToLeafType ctx fuel reference = some leaf →
        (GetType ctx.lookupContext.AssignmentList leaf.TypeReference = none
            ∧ leaf.type = none ∧ leaf.Module = "")
        ∨ GetType ctx.lookupContext.AssignmentList leaf.TypeReference = some leaf := by
  intro fuel
  induction fuel with
  | zero => intro reference leaf h; simp [unwrapToLeafType] at h
  | succ n ih =>
      intro reference leaf h
      rw [unwrapToLeafType_succ] at h
      cases hn : nextReference ctx reference with
      | some tt =>
          rw [hn] at h
          exact ih tt leaf h
      | none =>
          rw [hn] at h
          cases hg : GetType ctx.lookupContext.AssignmentList reference with
          | none =>
              rw [hg] at h
              simp only [Option.some.injEq] at h
              subst h
              exact Or.inl ⟨hg, rfl, rfl⟩
          | some assignment =>
              rw [hg] at h
              simp only [Option.some.injEq] at h
              subst h
              have := GetType_name _ _ _ hg
              rw [this]
              exact Or.inr hg

theorem unwrapToLeafType_isSome_iff (ctx : moduleContext) :
    ∀ (n : Nat) (reference : String),
      (unwrapToLeafType ctx (n + 1) reference).isSome = true
        ↔ chainEndsWithin ctx n reference = true := by
  intro n
  induction n with
  | zero =>
      intro reference
      rw [unwrapToLeafType_succ]
      unfold chainEndsWithin
      cases hn : nextReference ctx reference with
      | some tt => simp [unwrapToLeafType]
      | none =>
          cases hg : GetType ctx.lookupContext.AssignmentList reference <;> simp
  | succ k ih =>
      intro reference
      rw [unwrapToLeafType_succ]
      unfold chainEndsWithin
      cases hn : nextReference ctx reference with
      | some tt => exact ih tt
      | none =>
          cases hg : GetType ctx.lookupContext.AssignmentList reference <;> simp

theorem resolveTypeReference_isSome (cat : Catalog) (fuel : Nat) (ctx : moduleContext)
    (reference : String) :
    (resolveTypeReference cat fuel ctx reference).isSome
      = (unwrapToLeafType ctx fuel reference).isSome := by
  unfold resolveTypeReference
  cases hu : unwrapToLeafType ctx fuel reference with
  | none => rfl
  | some leaf =>
      simp only
      split
      · rfl
      · split <;> rfl

theorem unwrapToLeafType_congr (c1 c2 : moduleContext)
    (h : c1.lookupContext = c2.lookupContext) :
    ∀ (fuel : Nat) (reference : String),
      unwrapToLeafType c1 fuel reference = unwrapToLeafType c2 fuel reference := by
  intro fuel
  induction fuel with
  | zero => intro reference; rfl
  | succ n ih =>
      intro reference
      rw [unwrapToLeafType_succ, unwrapToLeafType_succ]
      unfold nextReference
      rw [h]
      cases hg : GetType c2.lookupContext.AssignmentList reference with
      | none => rfl
      | some a =>
          simp only
          split
          · exact ih _
          · rfl

/-! ## The tag synthesizer: core type and flags -/

theorem asn1Unwrap_core (cat : Catalog) :
    ∀ (t : Typ) (components : List String) (ctx : moduleContext),
      (asn1Unwrap cat t components ctx).1 = removeWrapperTypes t
  | Typ.TaggedType tag t tagType, components, ctx => by
      unfold asn1Unwrap removeWrapperTypes
      simp only
      split
      · exact asn1Unwrap_core cat t _ ctx
      · exact asn1Unwrap_core cat t _ _
  | Typ.ConstraintedType t _, components, ctx => by
      unfold asn1Unwrap removeWrapperTypes
      exact asn1Unwrap_core cat t components ctx
  | Typ.BooleanType, _, _ => rfl
  | Typ.IntegerType, _, _ => rfl
  | Typ.CharacterStringType, _, _ => rfl
  | Typ.RealType, _, _ => rfl
  | Typ.OctetStringType, _, _ => rfl
  | Typ.ChoiceType _, _, _ => rfl
  | Typ.SequenceType _, _, _ => rfl
  | Typ.SetType _, _, _ => rfl
  | Typ.SetOfType _, _, _ => rfl
  | Typ.SequenceOfType _, _, _ => rfl
  | Typ.TypeReference _, _, _ => rfl
  | Typ.RestrictedStringType _, _, _ => rfl
  | Typ.BitStringType, _, _ => rfl
  | Typ.EnumeratedType _, _, _ => rfl
  | Typ.IntegerEnumType _, _, _ => rfl
  | Typ.StringType, _, _ => rfl
  | Typ.BigInt, _, _ => rfl
  | Typ.NullType, _, _ => rfl
  | Typ.ObjectIdentifierType, _, _ => rfl
  | Typ.Unsupported _, _, _ => rfl

theorem asn1TypeTags_flags (cat : Catalog) (fuel : Nat) (ctx : moduleContext) (t : Typ)
    (components cs : List String) (isReference isArray : Bool)
    (h : asn1TypeTags cat fuel ctx t components = some (cs, isReference, isArray)) :
    (isReference || isArray) = isReferenceOrArray t := by
  cases t with
  | RestrictedStringType lexType =>
      cases lexType <;>
        (simp only [asn1TypeTags, Option.some.injEq, Prod.mk.injEq] at h
         obtain ⟨-, rfl, rfl⟩ := h
         rfl)
  | TypeReference tt =>
      simp only [asn1TypeTags] at h
      cases hu : unwrapToLeafType ctx fuel tt with
      | none => simp [hu] at h
      | some leaf =>
          simp only [hu] at h
          split at h
          · simp only [Option.some.injEq, Prod.mk.injEq] at h
            obtain ⟨-, rfl, rfl⟩ := h
            rfl
          · split at h <;>
              (simp only [Option.some.injEq, Prod.mk.injEq] at h
               obtain ⟨-, rfl, rfl⟩ := h
               rfl)
  | _ =>
      simp only [asn1TypeTags, Option.some.injEq, Prod.mk.injEq] at h
      obtain ⟨-, rfl, rfl⟩ := h
      rfl

theorem xmlTag_omitempty_ne (id : String) : xmlTag id true ≠ xmlTag id false := by
  intro h
  have hl := congrArg String.length h
  simp only [xmlTag, if_true, if_false, Bool.false_eq_true, String.length_append] at hl
  have h1 : (",omitempty\"").length = 11 := by decide
  have h2 : ("\"").length = 1 := by decide
  omega

/-! ## The walk returns when every reference chain is finite -/

theorem generateReferenceBody_isSome (cat : Catalog) (fuel : Nat) (name : String)
    (noStar : Bool) (ctx : moduleContext)
    (h : (unwrapToLeafType ctx fuel name).isSome = true) :
    (generateReferenceBody cat fuel name noStar ctx).isSome = true := by
  rw [← resolveTypeReference_isSome cat] at h
  cases hres : resolveTypeReference cat fuel ctx name with
  | none => rw [hres] at h; cases h
  | some p =>
      obtain ⟨r, c1⟩ := p
      cases r with
      | none => simp [generateReferenceBody, hres]
      | some nameAndType =>
          cases hsc : generateSpecialCase cat c1 nameAndType with
          | mk sc c2 =>
              cases sc with
              | some specialCase => simp [generateReferenceBody, hres, hsc]
              | none =>
                  simp only [generateReferenceBody, hres, hsc]
                  split <;> rfl

theorem asn1TypeTags_isSome (cat : Catalog) (fuel : Nat) (ctx : moduleContext) (t : Typ)
    (components : List String)
    (h : ∀ tt, t = Typ.TypeReference tt → (unwrapToLeafType ctx fuel tt).isSome = true) :
    (asn1TypeTags cat fuel ctx t components).isSome = true := by
  cases t with
  | RestrictedStringType lexType => cases lexType <;> rfl
  | TypeReference tt =>
      have h1 := h tt rfl
      simp only [asn1TypeTags]
      cases hu : unwrapToLeafType ctx fuel tt with
      | none => rw [hu] at h1; cases h1
      | some leaf =>
          simp only
          split
          · rfl
          · split <;> rfl
  | _ => rfl

theorem asn1TagFromType_isSome (cat : Catalog) (fuel : Nat) (ctx : moduleContext)
    (nt : NamedComponentType)
    (h : ∀ tt, removeWrapperTypes nt.NamedType.type = Typ.TypeReference tt →
      (unwrapToLeafType ctx fuel tt).isSome = true) :
    (asn1TagFromType cat fuel ctx nt).isSome = true := by
  unfold asn1TagFromType
  simp only
  have hcore := asn1Unwrap_core cat nt.NamedType.type
    ((if nt.IsOptional = true then ["optional"] else []) ++ defaultComponents nt.Default) ctx
  have hext := asn1Unwrap_extends cat nt.NamedType.type
    ((if nt.IsOptional = true then ["optional"] else []) ++ defaultComponents nt.Default) ctx
  cases hun : asn1Unwrap cat nt.NamedType.type
      ((if nt.IsOptional = true then ["optional"] else []) ++ defaultComponents nt.Default)
      ctx with
  | mk t rest =>
      obtain ⟨components, c1⟩ := rest
      rw [hun] at hcore hext
      simp only at hcore hext ⊢
      have htags := asn1TypeTags_isSome cat fuel c1 t components (by
        intro tt htt
        rw [unwrapToLeafType_congr c1 ctx hext.1]
        exact h tt (by rw [← hcore, htt]))
      cases htt : asn1TypeTags cat fuel c1 t components with
      | none => rw [htt] at htags; cases htags
      | some q => rfl

mutual
theorem generateTypeBody_isSome (cat : Catalog) (fuel : Nat) (body : ModuleBody)
    (hret : ∀ c name, c.lookupContext = body → (unwrapToLeafType c fuel name).isSome = true) :
    ∀ (t : Typ) (noStar : Bool) (ctx : moduleContext), ctx.lookupContext = body →
      (generateTypeBody cat fuel t noStar ctx).isSome = true
  | Typ.ChoiceType alternatives, _, ctx, hctx => by
      have h := generateChoiceFields_isSome cat fuel body hret alternatives ctx hctx
      unfold generateTypeBody
      cases hf : generateChoiceFields cat fuel alternatives ctx with
      | none => rw [hf] at h; cases h
      | some p => rfl
  | Typ.SequenceType components, _, ctx, hctx => by
      have h := generateComponentFields_isSome cat fuel body hret components ctx hctx
      unfold generateTypeBody
      cases hf : generateComponentFields cat fuel components ctx with
      | none => rw [hf] at h; cases h
      | some p => rfl
  | Typ.SetType components, _, ctx, hctx => by
      have h := generateComponentFields_isSome cat fuel body hret components ctx hctx
      unfold generateTypeBody
      cases hf : generateComponentFields cat fuel components ctx with
      | none => rw [hf] at h; cases h
      | some p => rfl
  | Typ.SetOfType t, _, ctx, hctx => by
      have h := generateTypeBody_isSome cat fuel body hret t true ctx hctx
      unfold generateTypeBody
      cases hf : generateTypeBody cat fuel t true ctx with
      | none => rw [hf] at h; cases h
      | some p => rfl
  | Typ.SequenceOfType t, _, ctx, hctx => by
      have h := generateTypeBody_isSome cat fuel body hret t true ctx hctx
      unfold generateTypeBody
      cases hf : generateTypeBody cat fuel t true ctx with
      | none => rw [hf] at h; cases h
      | some p => rfl
  | Typ.TaggedType _ t _, _, ctx, hctx => by
      unfold generateTypeBody
      exact generateTypeBody_isSome cat fuel body hret t false ctx hctx
  | Typ.ConstraintedType t _, _, ctx, hctx => by
      unfold generateTypeBody
      exact generateTypeBody_isSome cat fuel body hret t false ctx hctx
  | Typ.TypeReference name, noStar, ctx, hctx => by
      unfold generateTypeBody
      exact generateReferenceBody_isSome cat fuel name noStar ctx (hret ctx name hctx)
  | Typ.BitStringType, _, _, _ => rfl
  | Typ.Unsupported _, _, _, _ => rfl
  | Typ.BooleanType, _, _, _ => rfl
  | Typ.IntegerType, _, _, _ => rfl
  | Typ.CharacterStringType, _, _, _ => rfl
  | Typ.RealType, _, _, _ => rfl
  | Typ.OctetStringType, _, _, _ => rfl
  | Typ.RestrictedStringType _, _, _, _ => rfl
  | Typ.EnumeratedType _, _, _, _ => rfl
  | Typ.IntegerEnumType _, _, _, _ => rfl
  | Typ.StringType, _, _, _ => rfl
  | Typ.BigInt, _, _, _ => rfl
  | Typ.NullType, _, _, _ => rfl
  | Typ.ObjectIdentifierType, _, _, _ => rfl
theorem generateChoiceFields_isSome (cat : Catalog) (fuel : Nat) (body : ModuleBody)
    (hret : ∀ c name, c.lookupContext = body → (unwrapToLeafType c fuel name).isSome = true) :
    ∀ (alternatives : List NamedType) (ctx : moduleContext), ctx.lookupContext = body →
      (generateChoiceFields cat fuel alternatives ctx).isSome = true
  | [], _, _ => rfl
  | f :: rest, ctx, hctx => by
      have h1 := generateStructField_isSome cat fuel body hret f false none ctx hctx
      unfold generateChoiceFields
      cases hf : generateStructField cat fuel f false none ctx with
      | none => rw [hf] at h1; cases h1
      | some p =>
          have hext := generateStructField_extends cat fuel f false none ctx p.1 p.2 hf
          have h2 := generateChoiceFields_isSome cat fuel body hret rest p.2
            (hext.1.trans hctx)
          simp only
          cases hr : generateChoiceFields cat fuel rest p.2 with
          | none => rw [hr] at h2; cases h2
          | some q => rfl
theorem generateComponentFields_isSome (cat : Catalog) (fuel : Nat) (body : ModuleBody)
    (hret : ∀ c name, c.lookupContext = body → (unwrapToLeafType c fuel name).isSome = true) :
    ∀ (components : List ComponentType) (ctx : moduleContext), ctx.lookupContext = body →
      (generateComponentFields cat fuel components ctx).isSome = true
  | [], _, _ => rfl
  | ComponentType.NamedComponentType f isOptional dflt :: rest, ctx, hctx => by
      have h1 := generateStructField_isSome cat fuel body hret f isOptional dflt ctx hctx
      unfold generateComponentFields
      cases hf : generateStructField cat fuel f isOptional dflt ctx with
      | none => rw [hf] at h1; cases h1
      | some p =>
          have hext := generateStructField_extends cat fuel f isOptional dflt ctx p.1 p.2 hf
          have h2 := generateComponentFields_isSome cat fuel body hret rest p.2
            (hext.1.trans hctx)
          simp only
          cases hr : generateComponentFields cat fuel rest p.2 with
          | none => rw [hr] at h2; cases h2
          | some q => rfl
  | ComponentType.ComponentsOfComponentType _ :: rest, ctx, hctx => by
      unfold generateComponentFields
      exact generateComponentFields_isSome cat fuel body hret rest ctx hctx
theorem generateStructField_isSome (cat : Catalog) (fuel : Nat) (body : ModuleBody)
    (hret : ∀ c name, c.lookupContext = body → (unwrapToLeafType c fuel name).isSome = true) :
    ∀ (f : NamedType) (isOptional : Bool) (dflt : Option Value) (ctx : moduleContext),
      ctx.lookupContext = body →
        (generateStructField cat fuel f isOptional dflt ctx).isSome = true
  | NamedType.mk identifier t, isOptional, dflt, ctx, hctx => by
      have h1 := generateTypeBody_isSome cat fuel body hret t false ctx hctx
      unfold generateStructField
      cases hf : generateTypeBody cat fuel t false ctx with
      | none => rw [hf] at h1; cases h1
      | some p =>
          have hext := generateTypeBody_extends cat fuel t false ctx p.1 p.2 hf
          have h2 := asn1TagFromType_isSome cat fuel p.2
            ⟨NamedType.mk identifier t, isOptional, dflt⟩
            (fun tt _ => hret p.2 tt (hext.1.trans hctx))
          simp only
          cases hr : asn1TagFromType cat fuel p.2
              ⟨NamedType.mk identifier t, isOptional, dflt⟩ with
          | none => rw [hr] at h2; cases h2
          | some q => rfl
end

theorem generateDecl_isSome (cat : Catalog) (fuel : Nat) (body : ModuleBody)
    (hret : ∀ c name, c.lookupContext = body → (unwrapToLeafType c fuel name).isSome = true)
    (ctx : moduleContext) (hctx : ctx.lookupContext = body) (assignment : Assignment) :
    (generateDecl cat fuel ctx assignment).isSome = true := by
  have hopt : ∀ typeDescr : Option Typ,
      (generateTypeBodyOpt cat fuel typeDescr true ctx).isSome = true := by
    intro typeDescr
    cases typeDescr with
    | none => rfl
    | some t => exact generateTypeBody_isSome cat fuel body hret t true ctx hctx
  cases assignment with
  | TypeAssignment a =>
      have h := hopt a.type
      simp only [generateDecl, generateTypeDecl]
      cases hb : generateTypeBodyOpt cat fuel a.type true ctx with
      | none => rw [hb] at h; cases h
      | some p => rfl
  | ValueAssignment reference type value =>
      have h := hopt type
      simp only [generateDecl, generateValueDecl]
      cases hb : generateTypeBodyOpt cat fuel type true ctx with
      | none => rw [hb] at h; cases h
      | some p => rfl

theorem generateDeclList_isSome (cat : Catalog) (fuel : Nat) (body : ModuleBody)
    (hret : ∀ c name, c.lookupContext = body → (unwrapToLeafType c fuel name).isSome = true) :
    ∀ (assignments : List Assignment) (ctx : moduleContext), ctx.lookupContext = body →
      (generateDeclList cat fuel assignments ctx).isSome = true
  | [], _, _ => rfl
  | assignment :: rest, ctx, hctx => by
      have h1 := generateDecl_isSome cat fuel body hret ctx hctx assignment
      unfold generateDeclList
      cases hd : generateDecl cat fuel ctx assignment with
      | none => rw [hd] at h1; cases h1
      | some p =>
          have hext := generateDecl_extends cat fuel ctx assignment p.1 p.2 hd
          have h2 := generateDeclList_isSome cat fuel body hret rest p.2 (hext.1.trans hctx)
          simp only
          cases hr : generateDeclList cat fuel rest p.2 with
          | none => rw [hr] at h2; cases h2
          | some q => rfl

theorem walk_returns (cat : Catalog) (n : Nat) (module : ModuleDefinition)
    (hfinite : ∀ name, chainEndsWithin (initialContext module) n name = true) :
    ∃ decls ctx,
      generateDeclarations cat (n + 1) (initialContext module) module = some (decls, ctx) := by
  have hret : ∀ c name, c.lookupContext = module.ModuleBody →
      (unwrapToLeafType c (n + 1) name).isSome = true := by
    intro c name hc
    rw [unwrapToLeafType_congr c (initialContext module) hc]
    exact (unwrapToLeafType_isSome_iff _ n name).mpr (hfinite name)
  have h := generateDeclList_isSome cat (n + 1) module.ModuleBody hret
    module.ModuleBody.AssignmentList (initialContext module) rfl
  unfold generateDeclarations
  cases hw : generateDeclList cat (n + 1) module.ModuleBody.AssignmentList
      (initialContext module) with
  | none => rw [hw] at h; cases h
  | some p => exact ⟨p.1, p.2, rfl⟩

/-! ## The aggregate error -/

theorem errorMessage_foldl (errors : List String) (init : String) :
    errors.foldl (fun msg err => msg ++ "  " ++ err ++ "\n") init
      = init ++ diagnosticLines errors := by
  induction errors generalizing init with
  | nil => simp [diagnosticLines]
  | cons e es ih =>
      rw [List.foldl_cons, ih, diagnosticLines]
      simp only [String.append_assoc]

theorem errorMessage_eq (errors : List String) :
    errorMessage errors
      = "Errors generating Go AST from module: \n" ++ diagnosticLines errors :=
  errorMessage_foldl errors _

theorem Generate_of_walk (gen : GenParams) (cat : Catalog) (fuel : Nat)
    (module : ModuleDefinition) (decls : List GoDecl) (ctx : moduleContext)
    (hwalk : generateDeclarations cat fuel (initialContext module) module = some (decls, ctx)) :
    Generate gen cat fuel module
      = if ctx.errors = [] then
          some (GenerateResult.printed ⟨packageName gen module,
            importDecls (requireImports ctx module.ModuleBody.Imports).requiredModules
              ++ decls⟩)
        else
          some (GenerateResult.error
            ("Errors generating Go AST from module: \n" ++ diagnosticLines ctx.errors)) := by
  simp only [Generate, hwalk, packageName, errorMessage_eq]
  by_cases h : ctx.errors = []
  · simp [h]
  · have hlen : ctx.errors.length ≠ 0 := fun h0 => h (List.length_eq_zero.mp h0)
    rw [if_pos hlen, if_neg h]

/-! # The claims -/

theorem unwrapToLeafType_two_cycle (ctx : moduleContext) (a b : String)
    (hab : nextReference ctx a = some b) (hba : nextReference ctx b = some a) (fuel : Nat) :
    unwrapToLeafType ctx fuel a = none ∧ unwrapToLeafType ctx fuel b = none := by
  induction fuel with
  | zero => exact ⟨rfl, rfl⟩
  | succ n ih =>
      constructor
      · rw [unwrapToLeafType_succ, hab]; exact ih.2
      · rw [unwrapToLeafType_succ, hba]; exact ih.1

theorem generateDecl_none_of_unwrap_none (cat : Catalog) (fuel : Nat) (ctx : moduleContext)
    (a u : String) (h : unwrapToLeafType ctx fuel u = none) :
    generateDecl cat fuel ctx (Assignment.TypeAssignment ⟨a, some (Typ.TypeReference u), ""⟩)
      = none := by
  simp [generateDecl, generateTypeDecl, generateTypeBodyOpt, generateTypeBody,
    generateReferenceBody, resolveTypeReference, h]

/-! ## C1: `Generate` fails exactly when a diagnostic was recorded -/

/-- C1 (as amended): for every module whose reference chains all end within
`n` links, the walk returns (with recursion depth `n + 1`), and `Generate`
fails if and only if the walk recorded at least one diagnostic.  With no
diagnostic it hands the file (package name, imports, declarations) to the
printer; with diagnostics it returns one error before the writer is used,
whose message is the header line followed by one line per diagnostic, in
recorded order. -/
theorem Generate_fails_iff_diagnostics (gen : GenParams) (cat : Catalog) (n : Nat)
    (module : ModuleDefinition)
    (hfinite : ∀ name, chainEndsWithin (initialContext module) n name = true) :
    ∃ decls ctx,
      generateDeclarations cat (n + 1) (initialContext module) module = some (decls, ctx)
      ∧ (ctx.errors = [] →
          Generate gen cat (n + 1) module
            = some (GenerateResult.printed ⟨packageName gen module,
                importDecls (requireImports ctx module.ModuleBody.Imports).requiredModules
                  ++ decls⟩))
      ∧ (ctx.errors ≠ [] →
          Generate gen cat (n + 1) module
            = some (GenerateResult.error
                ("Errors generating Go AST from module: \n" ++ diagnosticLines ctx.errors)))
      ∧ ((∃ msg, Generate gen cat (n + 1) module = some (GenerateResult.error msg))
          ↔ ctx.errors ≠ []) := by
  obtain ⟨decls, ctx, hwalk⟩ := walk_returns cat n module hfinite
  have hgen := Generate_of_walk gen cat (n + 1) module decls ctx hwalk
  refine ⟨decls, ctx, hwalk, ?_, ?_, ?_⟩
  · intro h
    rw [hgen, if_pos h]
  · intro h
    rw [hgen, if_neg h]
  · rw [hgen]
    by_cases h : ctx.errors = []
    · simp [h]
    · simp [h]

theorem timeModule_chains (name : String) :
    chainEndsWithin (initialContext timeModule) 1 name = true := by
  have hnext : nextReference (initialContext timeModule) "GeneralizedTime" = none := rfl
  by_cases h1 : name = "MyTimeType"
  · subst h1; rfl
  · by_cases h2 : name = "MySequence"
    · subst h2; rfl
    · have hg : GetType (initialContext timeModule).lookupContext.AssignmentList name
          = none := by
        simp [initialContext, timeModule, GetType, Ne.symm h1, Ne.symm h2]
      simp [chainEndsWithin, nextReference, hg]

/-- Witness of C1: the module of `TestTime` has finite chains; its walk
records no diagnostic and `Generate` returns no error. -/
theorem Generate_fails_iff_diagnostics_witness :
    (∀ name, chainEndsWithin (initialContext timeModule) 1 name = true)
    ∧ ∃ decls ctx,
      generateDeclarations sampleCatalog 2 (initialContext timeModule) timeModule
          = some (decls, ctx)
      ∧ (ctx.errors = [] →
          Generate noParams sampleCatalog 2 timeModule
            = some (GenerateResult.printed ⟨packageName noParams timeModule,
                importDecls
                    (requireImports ctx timeModule.ModuleBody.Imports).requiredModules
                  ++ decls⟩))
      ∧ (ctx.errors ≠ [] →
          Generate noParams sampleCatalog 2 timeModule
            = some (GenerateResult.error
                ("Errors generating Go AST from module: \n" ++ diagnosticLines ctx.errors)))
      ∧ ((∃ msg, Generate noParams sampleCatalog 2 timeModule
              = some (GenerateResult.error msg))
          ↔ ctx.errors ≠ []) :=
  ⟨timeModule_chains,
   Generate_fails_iff_diagnostics noParams sampleCatalog 1 timeModule timeModule_chains⟩

/-- Counterexample to C1 as stated: in the module `X ::= Missing`, `A ::= B`,
`B ::= A` the walk records a diagnostic for `X` (whenever it gets that far),
but `Generate` returns neither an error nor a file, whatever the recursion
depth allowed. -/
theorem Generate_does_not_return_on_cycle :
    (generateDecl sampleCatalog 1 (initialContext diagnosticThenCycle)
        (Assignment.TypeAssignment ⟨"X", some (Typ.TypeReference "Missing"), ""⟩)).map
          (fun r => r.2.errors)
      = some ["Can not resolve TypeReference Missing"]
    ∧ ¬ (∃ fuel : Nat,
          (Generate noParams sampleCatalog fuel diagnosticThenCycle).isSome = true) := by
  refine ⟨rfl, ?_⟩
  rintro ⟨fuel, h⟩
  have hnone : Generate noParams sampleCatalog fuel diagnosticThenCycle = none := by
    have hlist : diagnosticThenCycle.ModuleBody.AssignmentList
        = [Assignment.TypeAssignment ⟨"X", some (Typ.TypeReference "Missing"), ""⟩,
           Assignment.TypeAssignment ⟨"A", some (Typ.TypeReference "B"), ""⟩,
           Assignment.TypeAssignment ⟨"B", some (Typ.TypeReference "A"), ""⟩] := rfl
    have hwalk : generateDeclarations sampleCatalog fuel (initialContext diagnosticThenCycle)
        diagnosticThenCycle = none := by
      rw [generateDeclarations, hlist, generateDeclList]
      cases hx : generateDecl sampleCatalog fuel (initialContext diagnosticThenCycle)
          (Assignment.TypeAssignment ⟨"X", some (Typ.TypeReference "Missing"), ""⟩) with
      | none => rfl
      | some p =>
          have hext := generateDecl_extends _ _ _ _ p.1 p.2 hx
          have hcyc := (unwrapToLeafType_two_cycle (initialContext diagnosticThenCycle)
            "A" "B" rfl rfl fuel).2
          rw [← unwrapToLeafType_congr p.2 (initialContext diagnosticThenCycle) hext.1] at hcyc
          simp only
          rw [generateDeclList, generateDecl_none_of_unwrap_none _ _ _ _ _ hcyc]
    simp only [Generate, hwalk]
  rw [hnone] at h
  cases h

/-! ## C2: undefined references give one diagnostic each -/

theorem GetType_referenceAssignments_none (pairs : List (String × String)) (u : String)
    (h : u ∉ pairs.map Prod.fst) : GetType (referenceAssignments pairs) u = none := by
  induction pairs with
  | nil => rfl
  | cons p ps ih =>
      simp only [List.map_cons, List.mem_cons, not_or] at h
      simp only [referenceAssignments, List.map_cons, GetType]
      rw [if_neg (fun e => h.1 e.symm)]
      exact ih h.2

theorem generateDecl_unresolved (cat : Catalog) (fuel : Nat) (ctx : moduleContext)
    (a u : String) (hlocal : GetType ctx.lookupContext.AssignmentList u = none)
    (hcat : cat.USEFUL_TYPES u = none) :
    generateDecl cat (fuel + 1) ctx
        (Assignment.TypeAssignment ⟨a, some (Typ.TypeReference u), ""⟩)
      = some (GoDecl.typeDecl (goifyName a) (GoExpr.Ident (goifyName u)) none,
          ctx.appendError (cannotResolve u)) := by
  simp [generateDecl, generateTypeDecl, generateTypeBodyOpt, generateTypeBody,
    generateReferenceBody, resolveTypeReference, unwrapToLeafType, hlocal, hcat,
    lookupUsefulType, commentFromType, cannotResolve]

theorem generateDeclList_unresolved (cat : Catalog) (fuel : Nat)
    (pairs : List (String × String)) (ctx : moduleContext)
    (hlocal : ∀ p ∈ pairs, GetType ctx.lookupContext.AssignmentList p.2 = none)
    (hcat : ∀ p ∈ pairs, cat.USEFUL_TYPES p.2 = none) :
    generateDeclList cat (fuel + 1) (referenceAssignments pairs) ctx
      = some (pairs.map (fun p =>
            GoDecl.typeDecl (goifyName p.1) (GoExpr.Ident (goifyName p.2)) none),
          { ctx with errors := ctx.errors ++ pairs.map (fun p => cannotResolve p.2) }) := by
  induction pairs generalizing ctx with
  | nil => simp [referenceAssignments, generateDeclList]
  | cons p ps ih =>
      have h1 := generateDecl_unresolved cat fuel ctx p.1 p.2
        (hlocal p (List.mem_cons_self _ _)) (hcat p (List.mem_cons_self _ _))
      have h2 := ih (ctx.appendError (cannotResolve p.2))
        (fun q hq => hlocal q (List.mem_cons_of_mem _ hq))
        (fun q hq => hcat q (List.mem_cons_of_mem _ hq))
      have h3 : referenceAssignments (p :: ps)
          = Assignment.TypeAssignment ⟨p.1, some (Typ.TypeReference p.2), ""⟩
              :: referenceAssignments ps := rfl
      rw [h3, generateDeclList, h1]
      simp only [h2]
      simp [moduleContext.appendError]

/-- C2: for every module whose assignment list consists of the type assignments
`name_i ::= reference_i`, where no `reference_i` is assigned in the module or
listed in the useful-type catalog, the walk records exactly one diagnostic per
assignment, the i-th naming `reference_i`, in declaration order; and when there
is at least one assignment `Generate` returns the one aggregate error made of
these lines. -/
theorem Generate_unresolved_references (gen : GenParams) (cat : Catalog) (fuel : Nat)
    (module : ModuleDefinition) (pairs : List (String × String))
    (hmodule : module.ModuleBody.AssignmentList = referenceAssignments pairs)
    (hlocal : ∀ p ∈ pairs, p.2 ∉ pairs.map Prod.fst)
    (hcat : ∀ p ∈ pairs, cat.USEFUL_TYPES p.2 = none) :
    (∃ decls ctx,
        generateDeclarations cat (fuel + 1) (initialContext module) module = some (decls, ctx)
        ∧ ctx.errors = pairs.map (fun p => cannotResolve p.2)
        ∧ ctx.errors.length = pairs.length)
    ∧ (pairs ≠ [] →
        Generate gen cat (fuel + 1) module
          = some (GenerateResult.error
              ("Errors generating Go AST from module: \n"
                ++ diagnosticLines (pairs.map (fun p => cannotResolve p.2))))) := by
  have hwalk := generateDeclList_unresolved cat fuel pairs (initialContext module)
    (fun p hp => by
      show GetType module.ModuleBody.AssignmentList p.2 = none
      rw [hmodule]
      exact GetType_referenceAssignments_none pairs p.2 (hlocal p hp))
    hcat
  have hwalk2 : generateDeclarations cat (fuel + 1) (initialContext module) module
      = some (pairs.map (fun p =>
            GoDecl.typeDecl (goifyName p.1) (GoExpr.Ident (goifyName p.2)) none),
          { initialContext module with
            errors := pairs.map (fun p => cannotResolve p.2) }) := by
    rw [generateDeclarations, hmodule, hwalk]
    simp [initialContext]
  refine ⟨⟨_, _, hwalk2, rfl, by simp⟩, ?_⟩
  intro hne
  have hne2 : (pairs.map (fun p => cannotResolve p.2)).length ≠ 0 := by
    simpa using hne
  simp only [Generate, hwalk2, errorMessage_eq]
  rw [if_pos hne2]

/-- Witness of C2: two assignments referring to the undefined names `Missing1`
and `Missing2` give one error with two diagnostic lines, in that order. -/
theorem Generate_unresolved_references_witness :
    twoUndefined.ModuleBody.AssignmentList
        = referenceAssignments [("First", "Missing1"), ("Second", "Missing2")]
    ∧ Generate noParams sampleCatalog 1 twoUndefined
        = some (GenerateResult.error
            "Errors generating Go AST from module: \n  Can not resolve TypeReference Missing1\n  Can not resolve TypeReference Missing2\n") :=
  ⟨rfl,
   (Generate_unresolved_references noParams sampleCatalog 0 twoUndefined
      [("First", "Missing1"), ("Second", "Missing2")] rfl (by decide)
      (by
        intro p hp
        simp only [List.mem_cons, List.mem_singleton, List.not_mem_nil, or_false] at hp
        rcases hp with rfl | rfl <;> rfl)).2
      (by decide)⟩

/-! ## C3: when `resolveTypeReference` returns nil -/

theorem resolveTypeReference_of_leaf (cat : Catalog) (fuel : Nat) (ctx : moduleContext)
    (reference : String) (leaf : TypeAssignment)
    (hleaf : unwrapToLeafType ctx fuel reference = some leaf) :
    ∃ r ctx',
      resolveTypeReference cat fuel ctx reference = some (r, ctx')
      ∧ (r = none ↔ leaf.type = none ∧ cat.USEFUL_TYPES leaf.TypeReference = none)
      ∧ (r = none → ctx'.errors = ctx.errors ++ [cannotResolve reference]
                    ∧ ctx'.requiredModules = ctx.requiredModules)
      ∧ (r ≠ none → ctx' = ctx) := by
  unfold resolveTypeReference
  rw [hleaf]
  cases ht : leaf.type with
  | some t =>
      refine ⟨some leaf, ctx, ?_, by simp, by simp, fun _ => rfl⟩
      simp [ht]
  | none =>
      cases hc : cat.USEFUL_TYPES leaf.TypeReference with
      | some tt =>
          refine ⟨some ⟨leaf.TypeReference, some tt,
            lookupUsefulTypeModule cat leaf.TypeReference⟩, ctx, ?_, by simp, by simp,
            fun _ => rfl⟩
          simp [lookupUsefulType, hc, ht]
      | none =>
          refine ⟨none, ctx.appendError (cannotResolve reference), ?_, by simp, ?_, by simp⟩
          · simp [lookupUsefulType, hc, cannotResolve, ht]
          · intro _; exact ⟨rfl, rfl⟩

theorem leaf_type_none_iff (ctx : moduleContext) (fuel : Nat) (reference : String)
    (leaf : TypeAssignment) (hleaf : unwrapToLeafType ctx fuel reference = some leaf)
    (hall : ∀ name a, GetType ctx.lookupContext.AssignmentList name = some a →
      a.type ≠ none) :
    leaf.type = none ↔ GetType ctx.lookupContext.AssignmentList leaf.TypeReference = none := by
  rcases unwrapToLeafType_leaf ctx fuel reference leaf hleaf with h | h
  · exact ⟨fun _ => h.1, fun _ => h.2.1⟩
  · constructor
    · intro hnone; exact absurd hnone (hall _ _ h)
    · intro hnone; rw [hnone] at h; cases h

/-- C3 (as amended): for every context and every reference whose chain of local
definitions ends within `n` links, unwrapping returns a leaf and
`resolveTypeReference` returns; it returns nil if and only if the leaf carries
no type and its name is not in the useful-type catalog (when every local
assignment has a type, the leaf carries no type exactly when its name is not
assigned locally).  In that case exactly one diagnostic is appended, and it
carries the name of the reference that was passed in, the start of the chain;
when a result is returned the context is unchanged. -/
theorem resolveTypeReference_nil_iff (cat : Catalog) (n : Nat) (ctx : moduleContext)
    (reference : String) (hchain : chainEndsWithin ctx n reference = true) :
    ∃ leaf r ctx',
      unwrapToLeafType ctx (n + 1) reference = some leaf
      ∧ resolveTypeReference cat (n + 1) ctx reference = some (r, ctx')
      ∧ (r = none ↔ leaf.type = none ∧ cat.USEFUL_TYPES leaf.TypeReference = none)
      ∧ (r = none → ctx'.errors = ctx.errors ++ [cannotResolve reference]
                    ∧ ctx'.requiredModules = ctx.requiredModules)
      ∧ (r ≠ none → ctx' = ctx)
      ∧ ((∀ name a, GetType ctx.lookupContext.AssignmentList name = some a → a.type ≠ none) →
          (leaf.type = none
            ↔ GetType ctx.lookupContext.AssignmentList leaf.TypeReference = none)) := by
  have hsome := (unwrapToLeafType_isSome_iff ctx n reference).mpr hchain
  cases hleaf : unwrapToLeafType ctx (n + 1) reference with
  | none => rw [hleaf] at hsome; cases hsome
  | some leaf =>
      obtain ⟨r, ctx', h1, h2, h3, h4⟩ :=
        resolveTypeReference_of_leaf cat (n + 1) ctx reference leaf hleaf
      exact ⟨leaf, r, ctx', rfl, h1, h2, h3, h4,
        leaf_type_none_iff ctx (n + 1) reference leaf hleaf⟩

/-- Witness of C3: the chain `A -> B` of `chainModule` ends within one link. -/
theorem resolveTypeReference_nil_iff_witness :
    chainEndsWithin (initialContext chainModule) 1 "A" = true
    ∧ ∃ leaf r ctx',
      unwrapToLeafType (initialContext chainModule) 2 "A" = some leaf
      ∧ resolveTypeReference sampleCatalog 2 (initialContext chainModule) "A" = some (r, ctx')
      ∧ (r = none ↔ leaf.type = none ∧ sampleCatalog.USEFUL_TYPES leaf.TypeReference = none)
      ∧ (r = none →
          ctx'.errors = (initialContext chainModule).errors ++ [cannotResolve "A"]
          ∧ ctx'.requiredModules = (initialContext chainModule).requiredModules)
      ∧ (r ≠ none → ctx' = initialContext chainModule)
      ∧ ((∀ name a,
            GetType (initialContext chainModule).lookupContext.AssignmentList name = some a →
              a.type ≠ none) →
          (leaf.type = none
            ↔ GetType (initialContext chainModule).lookupContext.AssignmentList
                leaf.TypeReference = none)) :=
  ⟨rfl, resolveTypeReference_nil_iff sampleCatalog 1 (initialContext chainModule) "A" rfl⟩

/-- Counterexample to C3 as stated: in the chain `A -> B` with `B` undefined,
`B` is the name for which the local lookup and the catalog lookup fail, but the
one diagnostic that `resolveTypeReference` records for `A` names `A`. -/
theorem resolveTypeReference_names_use_site :
    GetType (initialContext chainModule).lookupContext.AssignmentList "A"
        = some ⟨"A", some (Typ.TypeReference "B"), ""⟩
    ∧ GetType (initialContext chainModule).lookupContext.AssignmentList "B" = none
    ∧ sampleCatalog.USEFUL_TYPES "B" = none
    ∧ (resolveTypeReference sampleCatalog 2 (initialContext chainModule) "A").map
          (fun r => (r.1.isNone, r.2.errors))
        = some (true, ["Can not resolve TypeReference A"])
    ∧ (resolveTypeReference sampleCatalog 2 (initialContext chainModule) "A").map
          (fun r => r.2.errors)
        ≠ some ["Can not resolve TypeReference B"] := by
  refine ⟨rfl, rfl, rfl, by decide, by decide⟩

/-! ## C4: termination of reference resolution -/

/-- C4 (as amended): `unwrapToLeafType` and `resolveTypeReference` return within
recursion depth `n + 1` if and only if the chain of local definitions that
starts at the reference ends within `n` links; so resolution returns for every
reference with a finite chain, and for no recursion depth on a chain that
never ends. -/
theorem resolution_returns_iff_chain_ends (cat : Catalog) (ctx : moduleContext) (n : Nat)
    (reference : String) :
    ((unwrapToLeafType ctx (n + 1) reference).isSome = true
        ↔ chainEndsWithin ctx n reference = true)
    ∧ ((resolveTypeReference cat (n + 1) ctx reference).isSome = true
        ↔ chainEndsWithin ctx n reference = true) := by
  refine ⟨unwrapToLeafType_isSome_iff ctx n reference, ?_⟩
  rw [resolveTypeReference_isSome]
  exact unwrapToLeafType_isSome_iff ctx n reference

/-- Counterexample to C4 as stated: for `A ::= B`, `B ::= A` neither
`unwrapToLeafType` nor `resolveTypeReference` returns for `A`, whatever the
recursion depth allowed; no diagnostic is reported. -/
theorem resolution_diverges_on_cycle :
    ¬ (∃ fuel : Nat,
        (unwrapToLeafType (initialContext cyclicModule) fuel "A").isSome = true
        ∨ (resolveTypeReference sampleCatalog fuel (initialContext cyclicModule) "A").isSome
            = true) := by
  have hcyc := unwrapToLeafType_two_cycle (initialContext cyclicModule) "A" "B" rfl rfl
  rintro ⟨fuel, h | h⟩
  · rw [(hcyc fuel).1] at h; cases h
  · rw [resolveTypeReference_isSome, (hcyc fuel).1] at h; cases h

/-! ## C5: references resolved through the useful-type catalog -/

/-- C5 (as amended): for every reference that is not assigned in the module's
own assignment list but is present in the useful-type catalog, resolution
returns a result that carries the catalog's type for that name together with
the catalog's owning pseudo-module name (empty when none is listed), and
records nothing. -/
theorem resolveTypeReference_useful_type (cat : Catalog) (fuel : Nat) (ctx : moduleContext)
    (reference : String) (tt : Typ)
    (hlocal : GetType ctx.lookupContext.AssignmentList reference = none)
    (hcat : cat.USEFUL_TYPES reference = some tt) :
    resolveTypeReference cat (fuel + 1) ctx reference
      = some (some ⟨reference, some tt, (cat.USEFUL_TYPES_MODULE reference).getD ""⟩, ctx) := by
  have hm : lookupUsefulTypeModule cat reference
      = (cat.USEFUL_TYPES_MODULE reference).getD "" := by
    unfold lookupUsefulTypeModule
    cases cat.USEFUL_TYPES_MODULE reference <;> rfl
  simp [resolveTypeReference, unwrapToLeafType, hlocal, lookupUsefulType, hcat, hm]

/-- Witness of C5: `GeneralizedTime` in a module that does not assign it. -/
theorem resolveTypeReference_useful_type_witness :
    GetType (initialContext twoUndefined).lookupContext.AssignmentList "GeneralizedTime" = none
    ∧ resolveTypeReference sampleCatalog 1 (initialContext twoUndefined) "GeneralizedTime"
        = some (some ⟨"GeneralizedTime",
            some (Typ.TaggedType ⟨TagClass.CLASS_UNIVERSAL, Value.Number 24⟩
              (Typ.RestrictedStringType LexType.VisibleString) TagType.TAGS_IMPLICIT),
            (sampleCatalog.USEFUL_TYPES_MODULE "GeneralizedTime").getD ""⟩,
          initialContext twoUndefined) :=
  ⟨rfl, resolveTypeReference_useful_type sampleCatalog 0 (initialContext twoUndefined)
    "GeneralizedTime" _ rfl rfl⟩

/-- Counterexample to C5 as stated: `GeneralizedTime` is not assigned locally
and is in the catalog, and the result of its resolution carries a type. -/
theorem resolveTypeReference_useful_type_carries_type :
    GetType (initialContext twoUndefined).lookupContext.AssignmentList "GeneralizedTime" = none
    ∧ (sampleCatalog.USEFUL_TYPES "GeneralizedTime").isSome = true
    ∧ (resolveTypeReference sampleCatalog 1 (initialContext twoUndefined)
          "GeneralizedTime").map (fun r => r.1.map (fun a => a.type.isSome))
        = some (some true) := by
  refine ⟨rfl, rfl, rfl⟩

/-! ## C6: composition of the metadata components -/

/-- C6: for every field that is optional, has the string default `s` and whose
type is one explicit application-class tag numbered `n` around a core type `t`
(a type at which the unwrap loop stops and to which the type switch adds no
component), the metadata components are exactly, in order, `optional`,
`default:s`, `application`, `explicit`, `tag:n`, and the literal carries them
comma-joined in its `asn1` block; and the field of type `t` that is not
optional and has no default gets a literal made of the name tag alone, with no
`asn1` block. -/
theorem asn1TagFromType_components (cat : Catalog) (fuel : Nat) (ctx : moduleContext)
    (id s : String) (n : Int) (t : Typ) (isReference isArray : Bool)
    (hcore : ∀ cs c, asn1Unwrap cat t cs c = (t, cs, c))
    (hhint : ∀ cs, asn1TypeTags cat fuel ctx t cs = some (cs, isReference, isArray)) :
    asn1TagFromType cat fuel ctx
        ⟨NamedType.mk id
            (Typ.TaggedType ⟨TagClass.CLASS_APPLICATION, Value.Number n⟩ t
              TagType.TAGS_EXPLICIT),
          true, some (Value.String s)⟩
      = some (tagLiteral (xmlTag id true)
          ["optional", "default:" ++ s, "application", "explicit", "tag:" ++ toString n], ctx)
    ∧ tagLiteral (xmlTag id true)
          ["optional", "default:" ++ s, "application", "explicit", "tag:" ++ toString n]
        = "`" ++ xmlTag id true ++ " asn1:\""
            ++ ",".intercalate
                ["optional", "default:" ++ s, "application", "explicit", "tag:" ++ toString n]
            ++ "\"`"
    ∧ asn1TagFromType cat fuel ctx ⟨NamedType.mk id t, false, none⟩
        = some ("`" ++ xmlTag id (isReference || isArray) ++ "`", ctx) := by
  refine ⟨?_, rfl, ?_⟩
  · simp [asn1TagFromType, asn1Unwrap, lookupValue, defaultComponents, hcore, hhint,
      NamedType.type, NamedType.Identifier]
  · simp [asn1TagFromType, defaultComponents, hcore, hhint, NamedType.type,
      NamedType.Identifier, tagLiteral]

/-- Witness of C6: `s = "abc"`, `n = 3`, core type `INTEGER`. -/
theorem asn1TagFromType_components_witness :
    (∀ cs c, asn1Unwrap sampleCatalog Typ.IntegerType cs c = (Typ.IntegerType, cs, c))
    ∧ (∀ cs, asn1TypeTags sampleCatalog 1 (initialContext twoUndefined) Typ.IntegerType cs
        = some (cs, false, false))
    ∧ asn1TagFromType sampleCatalog 1 (initialContext twoUndefined) taggedField
        = some ("`xml:\"label\" json:\"label,omitempty\" asn1:\"optional,default:abc,application,explicit,tag:3\"`",
            initialContext twoUndefined)
    ∧ asn1TagFromType sampleCatalog 1 (initialContext twoUndefined)
          ⟨NamedType.mk "label" Typ.IntegerType, false, none⟩
        = some ("`xml:\"label\" json:\"label\"`", initialContext twoUndefined) :=
  ⟨fun _ _ => rfl, fun _ => rfl,
   (asn1TagFromType_components sampleCatalog 1 (initialContext twoUndefined) "label" "abc" 3
      Typ.IntegerType false false (fun _ _ => rfl) (fun _ => rfl)).1.trans rfl,
   (asn1TagFromType_components sampleCatalog 1 (initialContext twoUndefined) "label" "abc" 3
      Typ.IntegerType false false (fun _ _ => rfl) (fun _ => rfl)).2.2.trans rfl⟩

/-! ## C7: when the name tag is marked omit-if-empty -/

/-- C7 (as amended): for every field whose core type, when it is a type
reference, starts a chain of local definitions that ends within `n` links,
`asn1TagFromType` returns, and the name tag of the literal is marked
`omitempty` if and only if the field is optional or its core type (after
unwrapping the tag and constraint layers) is a TypeReference, an OctetString, a
SequenceOf or a SetOf; a default value plays no part.  The marked and the
unmarked name tag differ. -/
theorem asn1TagFromType_omitempty (cat : Catalog) (n : Nat) (ctx : moduleContext)
    (nt : NamedComponentType)
    (hchain : ∀ tt, removeWrapperTypes nt.NamedType.type = Typ.TypeReference tt →
      chainEndsWithin ctx n tt = true) :
    (∃ lit ctx' components omitEmpty,
        asn1TagFromType cat (n + 1) ctx nt = some (lit, ctx')
        ∧ lit = tagLiteral (xmlTag nt.NamedType.Identifier omitEmpty) components
        ∧ (omitEmpty = true
            ↔ nt.IsOptional = true
              ∨ isReferenceOrArray (removeWrapperTypes nt.NamedType.type) = true))
    ∧ xmlTag nt.NamedType.Identifier true ≠ xmlTag nt.NamedType.Identifier false := by
  refine ⟨?_, xmlTag_omitempty_ne _⟩
  have hsome := asn1TagFromType_isSome cat (n + 1) ctx nt
    (fun tt htt => (unwrapToLeafType_isSome_iff ctx n tt).mpr (hchain tt htt))
  cases hres : asn1TagFromType cat (n + 1) ctx nt with
  | none => rw [hres] at hsome; cases hsome
  | some p =>
      obtain ⟨lit, ctx'⟩ := p
      have h := hres
      unfold asn1TagFromType at h
      simp only at h
      have hcore := asn1Unwrap_core cat nt.NamedType.type
        ((if nt.IsOptional = true then ["optional"] else []) ++ defaultComponents nt.Default)
        ctx
      cases hun : asn1Unwrap cat nt.NamedType.type
          ((if nt.IsOptional = true then ["optional"] else []) ++ defaultComponents nt.Default)
          ctx with
      | mk t rest =>
          obtain ⟨components, c1⟩ := rest
          rw [hun] at h hcore
          simp only at h hcore
          cases htt : asn1TypeTags cat (n + 1) c1 t components with
          | none => simp [htt] at h
          | some q =>
              obtain ⟨cs, isReference, isArray⟩ := q
              simp only [htt, Option.some.injEq, Prod.mk.injEq] at h
              have hflags :=
                asn1TypeTags_flags cat (n + 1) c1 t components cs isReference isArray htt
              refine ⟨lit, ctx', cs, nt.IsOptional || isReference || isArray, rfl,
                h.1.symm, ?_⟩
              rw [← hcore, ← hflags]
              cases nt.IsOptional <;> cases isReference <;> cases isArray <;> simp

/-- Witness of C7: the field `myOctetString OCTET STRING`; its core type is no
reference. -/
theorem asn1TagFromType_omitempty_witness :
    (∀ tt, removeWrapperTypes myOctetString.NamedType.type = Typ.TypeReference tt →
      chainEndsWithin (initialContext twoUndefined) 0 tt = true)
    ∧ asn1TagFromType sampleCatalog 1 (initialContext twoUndefined) myOctetString
        = some ("`xml:\"myOctetString\" json:\"myOctetString,omitempty\"`",
            initialContext twoUndefined)
    ∧ xmlTag "myOctetString" true ≠ xmlTag "myOctetString" false :=
  ⟨fun _ h => (by cases h), rfl,
   (asn1TagFromType_omitempty sampleCatalog 0 (initialContext twoUndefined) myOctetString
      (fun _ h => (by cases h))).2⟩

/-- Counterexample to C7 as stated: the field `count INTEGER DEFAULT 5` has a
default value, and its name tag is not marked `omitempty`. -/
theorem asn1TagFromType_default_not_omitempty :
    defaultedField.Default = some (Value.Number 5)
    ∧ asn1TagFromType sampleCatalog 1 (initialContext twoUndefined) defaultedField
        = some (tagLiteral (xmlTag "count" false) ["default:5"], initialContext twoUndefined)
    ∧ tagLiteral (xmlTag "count" false) ["default:5"]
        = "`xml:\"count\" json:\"count\" asn1:\"default:5\"`"
    ∧ xmlTag "count" false ≠ xmlTag "count" true :=
  ⟨rfl, rfl, rfl, by decide⟩

/-! ## C8: the rendered field tag -/

/-- C8 (the code at the inputs of the tests): the tag of the IA5 field
`myStringField` is the name tag followed by the `asn1` block, not the `asn1`
block alone, and the fields `myIntField` and `myOctetString`, whose component
lists are empty, carry a tag made of the name tag; `generateStructField` puts
this literal in the field. -/
theorem asn1TagFromType_renders_name_tag :
    asn1TagFromType sampleCatalog 1 (initialContext twoUndefined) myStringField
        = some ("`xml:\"myStringField\" json:\"myStringField\" asn1:\"ia5\"`",
            initialContext twoUndefined)
    ∧ "`xml:\"myStringField\" json:\"myStringField\" asn1:\"ia5\"`" ≠ "`asn1:\"ia5\"`"
    ∧ asn1TagFromType sampleCatalog 1 (initialContext twoUndefined) myIntField
        = some ("`xml:\"myIntField\" json:\"myIntField\"`", initialContext twoUndefined)
    ∧ asn1TagFromType sampleCatalog 1 (initialContext twoUndefined) myOctetString
        = some ("`xml:\"myOctetString\" json:\"myOctetString,omitempty\"`",
            initialContext twoUndefined)
    ∧ (generateStructField sampleCatalog 1 (NamedType.mk "myStringField"
          (Typ.RestrictedStringType LexType.IA5String)) false none
          (initialContext twoUndefined)).map Prod.fst
        = some (GoField.mk "MyStringField" (GoExpr.Ident "string")
            "`xml:\"myStringField\" json:\"myStringField\" asn1:\"ia5\"`" none) :=
  ⟨rfl, by decide, rfl, rfl, rfl⟩

/-! ## C9: required modules are kept in first-use order -/

theorem mem_firstOccurrences (ids : List String) (x : String) :
    x ∈ firstOccurrences ids ↔ x ∈ ids := by
  simp [firstOccurrences]

theorem firstOccurrences_append_singleton (ids : List String) (x : String) :
    firstOccurrences (ids ++ [x])
      = if x ∈ ids then firstOccurrences ids else firstOccurrences ids ++ [x] := by
  unfold firstOccurrences
  rw [List.reverse_append, List.reverse_singleton, List.singleton_append]
  by_cases h : x ∈ ids
  · rw [if_pos h, List.dedup_cons_of_mem (List.mem_reverse.mpr h)]
  · rw [if_neg h, List.dedup_cons_of_not_mem (fun e => h (List.mem_reverse.mp e))]
    simp

theorem requiredModules_foldl (ctx : moduleContext) (ids : List String) :
    (ids.foldl moduleContext.requireModule ctx).requiredModules
      = ctx.requiredModules
          ++ firstOccurrences (ids.filter (fun x => decide (x ∉ ctx.requiredModules))) := by
  induction ids using List.reverseRecOn with
  | nil => simp [firstOccurrences]
  | append_singleton xs x ih =>
      rw [List.foldl_append, List.foldl_cons, List.foldl_nil, requiredModules_requireModule, ih,
        List.filter_append]
      by_cases hx : x ∈ ctx.requiredModules
      · simp [hx]
      · have hf : List.filter (fun x => decide (x ∉ ctx.requiredModules)) [x] = [x] := by
          simp [hx]
        rw [hf, firstOccurrences_append_singleton]
        by_cases hxs : x ∈ xs
        · have hin : x ∈ List.filter (fun x => decide (x ∉ ctx.requiredModules)) xs := by
            simp [hxs, hx]
          rw [if_pos hin, if_pos (List.mem_append_right _ ((mem_firstOccurrences _ _).mpr hin))]
        · have hout : x ∉ List.filter (fun x => decide (x ∉ ctx.requiredModules)) xs := by
            simp [hxs]
          have hout2 : x ∉ ctx.requiredModules
              ++ firstOccurrences (List.filter (fun x => decide (x ∉ ctx.requiredModules)) xs) := by
            intro hmem
            rcases List.mem_append.mp hmem with h1 | h1
            · exact hx h1
            · exact hout ((mem_firstOccurrences _ _).mp h1)
          rw [if_neg hout, if_neg hout2, List.append_assoc]

/-- C9: applying `requireModule` to a sequence of ids, in order, from a context
with no required module yields that sequence with every occurrence after the
first of each id removed (`firstOccurrences`: going through the sequence from
the left, an id is kept exactly when it has not occurred before): no duplicate,
the same ids, each at the position of its first use.  `requireModule` is
idempotent and keeps a duplicate-free list duplicate-free. -/
theorem requireModule_first_use_order (ctx : moduleContext) (ids : List String)
    (hempty : ctx.requiredModules = []) :
    (ids.foldl moduleContext.requireModule ctx).requiredModules = firstOccurrences ids
    ∧ (firstOccurrences [] = []
        ∧ ∀ (xs : List String) (x : String),
            firstOccurrences (xs ++ [x])
              = if x ∈ xs then firstOccurrences xs else firstOccurrences xs ++ [x])
    ∧ (ids.foldl moduleContext.requireModule ctx).requiredModules.Nodup
    ∧ (∀ id, id ∈ (ids.foldl moduleContext.requireModule ctx).requiredModules ↔ id ∈ ids)
    ∧ (∀ (c : moduleContext) (id : String),
        (c.requireModule id).requireModule id = c.requireModule id)
    ∧ (∀ (c : moduleContext) (id : String),
        c.requiredModules.Nodup → (c.requireModule id).requiredModules.Nodup) := by
  have h := requiredModules_foldl ctx ids
  rw [hempty] at h
  simp only [List.not_mem_nil, not_false_eq_true, decide_True, List.filter_true,
    List.nil_append] at h
  refine ⟨h, ⟨rfl, firstOccurrences_append_singleton⟩, ?_, ?_, ?_, ?_⟩
  · rw [h]; unfold firstOccurrences
    exact List.nodup_reverse.mpr (List.nodup_dedup _)
  · intro id; rw [h]; exact mem_firstOccurrences ids id
  · intro c id
    unfold moduleContext.requireModule
    by_cases hf : requireModule.found id c.requiredModules = true
    · simp [hf]
    · have : requireModule.found id (c.requiredModules ++ [id]) = true :=
        (found_eq_true _ _).mpr (by simp)
      simp [hf, this]
  · intro c id hnd
    rw [requiredModules_requireModule]
    by_cases hm : id ∈ c.requiredModules
    · rw [if_pos hm]; exact hnd
    · rw [if_neg hm]
      exact List.Nodup.append hnd (List.nodup_singleton _) (by simpa using hm)

/-- Witness of C9: requiring `time`, `encoding/asn1`, `time`, `fmt`,
`encoding/asn1` leaves `time`, `encoding/asn1`, `fmt`. -/
theorem requireModule_first_use_order_witness :
    (initialContext twoUndefined).requiredModules = []
    ∧ (["time", "encoding/asn1", "time", "fmt", "encoding/asn1"].foldl
          moduleContext.requireModule (initialContext twoUndefined)).requiredModules
        = ["time", "encoding/asn1", "fmt"] := by
  refine ⟨rfl, ?_⟩
  rw [(requireModule_first_use_order (initialContext twoUndefined)
    ["time", "encoding/asn1", "time", "fmt", "encoding/asn1"] rfl).1]
  decide

/-! ## C10: layout of the generated file -/

theorem length_pos_iff_ne_empty (s : String) : s.length > 0 ↔ s ≠ "" := by
  cases s with
  | mk d =>
      cases d with
      | nil => simp [String.length]
      | cons c cs =>
          simp only [String.length, List.length_cons, gt_iff_lt, Nat.zero_lt_succ, ne_eq,
            true_iff]
          intro h
          have := congrArg String.data h
          simp at this

/-- C10: for every module for which `Generate` succeeds with the file `ast`,
the walk returned declarations `decls` without diagnostic, and the file is laid
out as: the package name, which is the `Package` parameter when non-empty and
`goifyName` of the module identifier otherwise; then one import declaration per
required module, first those required during the walk, in first-use order,
then the normalised names of the imported modules that are not yet present, in
import-list order, each once (no import declaration when there is neither);
then `decls`, exactly one declaration per assignment, the i-th generated from
the i-th assignment. -/
theorem Generate_layout (gen : GenParams) (cat : Catalog) (fuel : Nat)
    (module : ModuleDefinition) (ast : GoFile)
    (hgen : Generate gen cat fuel module = some (GenerateResult.printed ast)) :
    ∃ decls ctx,
      generateDeclarations cat fuel (initialContext module) module = some (decls, ctx)
      ∧ ctx.errors = []
      ∧ ast.Name
          = (if gen.Package ≠ "" then gen.Package
              else goifyName module.ModuleIdentifier.Reference)
      ∧ ast.Decls
          = importDecls
              (ctx.requiredModules
                ++ firstOccurrences
                    ((importNames module).filter
                      (fun name => decide (name ∉ ctx.requiredModules))))
            ++ decls
      ∧ (ctx.requiredModules
            ++ firstOccurrences
                ((importNames module).filter
                  (fun name => decide (name ∉ ctx.requiredModules)))).Nodup
      ∧ (ctx.requiredModules = [] → importNames module = [] → ast.Decls = decls)
      ∧ decls.length = module.ModuleBody.AssignmentList.length
      ∧ List.Forall₂
          (fun assignment decl =>
            ∃ c1 c2, c1.lookupContext = module.ModuleBody
              ∧ generateDecl cat fuel c1 assignment = some (decl, c2))
          module.ModuleBody.AssignmentList decls := by
  cases hwalk : generateDeclarations cat fuel (initialContext module) module with
  | none => simp [Generate, hwalk] at hgen
  | some p =>
      obtain ⟨decls, ctx⟩ := p
      have hof := Generate_of_walk gen cat fuel module decls ctx hwalk
      have hok : ctx.errors = [] := by
        by_contra hne
        rw [hof, if_neg hne] at hgen
        cases hgen
      have hspec := generateDeclList_spec cat fuel module.ModuleBody.AssignmentList
        (initialContext module) decls ctx hwalk
      have hreq : (requireImports ctx module.ModuleBody.Imports).requiredModules
          = ctx.requiredModules
              ++ firstOccurrences
                  ((importNames module).filter
                    (fun name => decide (name ∉ ctx.requiredModules))) := by
        rw [requireImports_eq, requiredModules_foldl]; rfl
      have hname : packageName gen module
          = if gen.Package ≠ "" then gen.Package
            else goifyName module.ModuleIdentifier.Reference := by
        unfold packageName
        by_cases h : gen.Package = ""
        · have h0 : ¬ gen.Package.length > 0 := fun h1 => (length_pos_iff_ne_empty _).mp h1 h
          rw [if_neg h0, if_neg (not_not.mpr h)]
        · rw [if_pos ((length_pos_iff_ne_empty _).mpr h), if_pos h]
      rw [hof, if_pos hok, hreq, hname] at hgen
      have hast := (GenerateResult.printed.inj (Option.some.inj hgen)).symm
      refine ⟨decls, ctx, rfl, hok, ?_, ?_, ?_, ?_, ?_, hspec.2⟩
      · rw [hast]
      · rw [hast]
      · rw [← hreq, requireImports_eq]
        have h1 : ctx.requiredModules.Nodup := hspec.1.2.2.2.2.2 List.nodup_nil
        exact (foldl_requireModule_extends _ ctx).2.2.2.2.2 h1
      · intro h1 h2
        rw [hast, h1, h2]
        rfl
      · exact (List.Forall₂.length_eq hspec.2).symm

/-- Witness of C10: the module of `TestTime` with one import. -/
theorem Generate_layout_witness :
    Generate noParams sampleCatalog 2 timeModule
        = some (GenerateResult.printed
            ⟨"MyASN1ModuleName",
             [GoDecl.importDecl "\"time\"", GoDecl.importDecl "\"OtherModule\""]
               ++ timeModuleDecls⟩)
    ∧ ∃ decls ctx,
        generateDeclarations sampleCatalog 2 (initialContext timeModule) timeModule
            = some (decls, ctx)
        ∧ decls.length = timeModule.ModuleBody.AssignmentList.length := by
  refine ⟨rfl, ?_⟩
  obtain ⟨decls, ctx, h1, -, -, -, -, -, h2, -⟩ :=
    Generate_layout noParams sampleCatalog 2 timeModule _ rfl
  exact ⟨decls, ctx, h1, h2⟩

/-! # Supporting lemmas: the name normaliser -/

theorem toNat_lt_of_isAlphanum (c : Char) (h : c.isAlphanum = true) : c.toNat < 128 := by
  simp only [Char.isAlphanum, Char.isAlpha, Char.isUpper, Char.isLower, Char.isDigit,
    Bool.or_eq_true, Bool.and_eq_true, decide_eq_true_eq] at h
  have e : ∀ (a b : UInt32), a ≤ b ↔ a.toNat ≤ b.toNat := fun a b => Iff.rfl
  simp only [ge_iff_le, e] at h
  change c.val.toNat < 128
  have h65 : (65 : UInt32).toNat = 65 := rfl
  have h90 : (90 : UInt32).toNat = 90 := rfl
  have h97 : (97 : UInt32).toNat = 97 := rfl
  have h122 : (122 : UInt32).toNat = 122 := rfl
  have h48 : (48 : UInt32).toNat = 48 := rfl
  have h57 : (57 : UInt32).toNat = 57 := rfl
  rw [h65, h90, h97, h122, h48, h57] at h
  omega

theorem ascii_cases (P : Char → Prop) (h : ∀ n : Fin 128, P (Char.ofNat n.val)) (c : Char)
    (hc : c.toNat < 128) : P c := by
  have h1 := h ⟨c.toNat, hc⟩
  rwa [Char.ofNat_toNat] at h1

theorem isAlphanum_of_isAlpha (c : Char) (h : c.isAlpha = true) : c.isAlphanum = true := by
  simp [Char.isAlphanum, h]

theorem toUpper_of_isUpper (c : Char) (ha : c.isAlpha = true) (h : c.isUpper = true) :
    c.toUpper = c :=
  ascii_cases (fun c => c.isUpper = true → c.toUpper = c) (by decide) c
    (toNat_lt_of_isAlphanum c (isAlphanum_of_isAlpha c ha)) h

theorem toUpper_isAlphanum (c : Char) (ha : c.isAlpha = true) :
    c.toUpper.isAlphanum = true :=
  ascii_cases (fun c => c.isAlpha = true → c.toUpper.isAlphanum = true) (by decide) c
    (toNat_lt_of_isAlphanum c (isAlphanum_of_isAlpha c ha)) ha

theorem not_separator_of_isAlphanum (c : Char) (h : c.isAlphanum = true) :
    c ≠ '-' ∧ c ≠ '_' :=
  ascii_cases (fun c => c.isAlphanum = true → c ≠ '-' ∧ c ≠ '_') (by decide) c
    (toNat_lt_of_isAlphanum c h) h

theorem wordBreak_of_isAlphanum (c : Char) (h : c.isAlphanum = true) :
    wordBreak c = WordBreak.letter := by
  simp [wordBreak, h]

/-- The title caser leaves a text unchanged when all its letters are
upper-case. -/
theorem titleAux_of_upper :
    ∀ (s : List Char) (isMidWord : Bool),
      (∀ c ∈ s, c.isAlpha = true → c.isUpper = true) → titleAux isMidWord s = s
  | [], _, _ => rfl
  | c :: cs, isMidWord, h => by
      have hc : (if (c.isAlpha && !isMidWord) = true then c.toUpper else c) = c := by
        by_cases ha : c.isAlpha = true
        · have := toUpper_of_isUpper c ha (h c (List.mem_cons_self _ _) ha)
          split <;> simp [this]
        · simp [ha]
      unfold titleAux
      simp only [hc]
      rw [titleAux_of_upper cs _ (fun d hd => h d (List.mem_cons_of_mem _ hd))]

/-- In the middle of a word the title caser copies letters and digits. -/
theorem titleAux_mid :
    ∀ (s : List Char), (∀ c ∈ s, c.isAlphanum = true) → titleAux true s = s
  | [], _ => rfl
  | c :: cs, h => by
      have hw := wordBreak_of_isAlphanum c (h c (List.mem_cons_self _ _))
      have ih := titleAux_mid cs (fun d hd => h d (List.mem_cons_of_mem _ hd))
      unfold titleAux
      cases cs with
      | nil => simp [hw, titleAux]
      | cons d ds =>
          have hm : (if c.isAlpha = true then true
              else if WordBreak.letter = WordBreak.brk then false else true) = true := by
            split <;> simp
          simp [hw, hm, ih]

/-- On a segment of letters and digits the title caser upper-cases the first
letter and copies the rest. -/
theorem titleAux_segment :
    ∀ (s : List Char), (∀ c ∈ s, c.isAlphanum = true) → titleAux false s = upperFirstLetter s
  | [], _ => rfl
  | c :: cs, h => by
      have hw := wordBreak_of_isAlphanum c (h c (List.mem_cons_self _ _))
      have hcs : ∀ d ∈ cs, d.isAlphanum = true := fun d hd => h d (List.mem_cons_of_mem _ hd)
      have ih := titleAux_segment cs hcs
      have hmid := titleAux_mid cs hcs
      unfold titleAux upperFirstLetter
      by_cases ha : c.isAlpha = true
      · cases cs with
        | nil => simp [hw, ha, titleAux]
        | cons d ds => simp [hw, ha, hmid]
      · cases cs with
        | nil => simp [hw, ha, titleAux, upperFirstLetter]
        | cons d ds => simp [hw, ha, ih]

theorem IsUpper_removeChar (s : List Char) :
    IsUpper (removeChar '-' s) = allLettersUpper s := by
  unfold IsUpper removeChar allLettersUpper
  induction s with
  | nil => rfl
  | cons c cs ih =>
      by_cases hc : c = '-'
      · subst hc
        simp only [List.all_cons, ← ih]
        rfl
      · have hne : (c != '-') = true := by simpa using hc
        have hf : List.filter (fun c => c != '-') (c :: cs)
            = c :: List.filter (fun c => c != '-') cs := by
          simp [List.filter_cons, hne]
        rw [hf]
        simp only [List.all_cons, ih]
        congr 1
        cases c.isAlpha <;> cases c.isUpper <;> rfl

theorem splitChar_replaceChar (s : List Char) :
    splitChar '_' (replaceChar '-' '_' s) = splitSegments s := by
  induction s with
  | nil => rfl
  | cons c cs ih =>
      unfold replaceChar at ih ⊢
      rw [List.map_cons]
      by_cases h1 : c = '-'
      · subst h1
        simp [splitChar, splitSegments, ih]
      · by_cases h2 : c = '_'
        · subst h2
          simp [splitChar, splitSegments, ih]
        · simp only [if_neg h1, splitChar, if_neg h2, splitSegments, ih, h1, h2, or_self,
            ↓reduceIte]

theorem mem_splitSegments :
    ∀ (s : List Char) (seg : List Char), seg ∈ splitSegments s →
      ∀ c ∈ seg, c ∈ s ∧ c ≠ '-' ∧ c ≠ '_'
  | [], seg, hseg, c, hc => by
      simp only [splitSegments, List.mem_singleton] at hseg
      subst hseg
      cases hc
  | d :: ds, seg, hseg, c, hc => by
      have ih := mem_splitSegments ds
      unfold splitSegments at hseg
      by_cases hd : d = '-' ∨ d = '_'
      · rw [if_pos hd] at hseg
        rcases List.mem_cons.mp hseg with h | h
        · subst h; cases hc
        · have := ih seg h c hc
          exact ⟨List.mem_cons_of_mem _ this.1, this.2⟩
      · rw [if_neg hd] at hseg
        cases hs : splitSegments ds with
        | nil =>
            rw [hs] at hseg
            simp only [List.mem_singleton] at hseg
            subst hseg
            simp only [List.mem_singleton] at hc
            subst hc
            exact ⟨List.mem_cons_self _ _, fun e => hd (Or.inl e), fun e => hd (Or.inr e)⟩
        | cons seg0 segs =>
            rw [hs] at hseg ih
            simp only at hseg
            rcases List.mem_cons.mp hseg with h | h
            · subst h
              rcases List.mem_cons.mp hc with h2 | h2
              · subst h2
                exact ⟨List.mem_cons_self _ _, fun e => hd (Or.inl e), fun e => hd (Or.inr e)⟩
              · have := ih seg0 (List.mem_cons_self _ _) c h2
                exact ⟨List.mem_cons_of_mem _ this.1, this.2⟩
            · have := ih seg (List.mem_cons_of_mem _ h) c hc
              exact ⟨List.mem_cons_of_mem _ this.1, this.2⟩

theorem joinSegments_eq (segs : List (List Char)) : joinSegments segs = segs.flatten := by
  induction segs with
  | nil => rfl
  | cons seg rest ih => simp [joinSegments, ih]

theorem mem_upperFirstLetter :
    ∀ (s : List Char), (∀ c ∈ s, c.isAlphanum = true) →
      ∀ c ∈ upperFirstLetter s, c.isAlphanum = true
  | [], _, c, hc => by cases hc
  | d :: ds, h, c, hc => by
      unfold upperFirstLetter at hc
      by_cases ha : d.isAlpha = true
      · rw [if_pos ha] at hc
        rcases List.mem_cons.mp hc with e | e
        · subst e; exact toUpper_isAlphanum d ha
        · exact h c (List.mem_cons_of_mem _ e)
      · rw [if_neg ha] at hc
        rcases List.mem_cons.mp hc with e | e
        · subst e; exact h _ (List.mem_cons_self _ _)
        · exact mem_upperFirstLetter ds (fun x hx => h x (List.mem_cons_of_mem _ hx)) c e

/-- Every character of a segment of a name is a letter or a digit. -/
theorem segment_isAlphanum (s : List Char) (hs : ∀ c ∈ s, isNameChar c = true)
    (seg : List Char) (hseg : seg ∈ splitSegments s) : ∀ c ∈ seg, c.isAlphanum = true := by
  intro c hc
  obtain ⟨h1, h2, h3⟩ := mem_splitSegments s seg hseg c hc
  have := hs c h1
  simp only [isNameChar, Bool.or_eq_true, decide_eq_true_eq] at this
  rcases this with (h | h) | h
  · exact h
  · exact absurd h h2
  · exact absurd h h3

/-! # The claims, continued -/

/-! ## C11: the name normaliser against its reference definition -/

/-- C11: for every name made of ASCII letters, digits, hyphens and underscores,
`goifyName` equals the reference definition `goifyNameSpec`: `BigInt` maps to
`int64` and `StringStore` to `string`; otherwise, if every letter of the name
is upper-case, the result is the name with each hyphen replaced by an
underscore and nothing else changed; otherwise the result is the
concatenation, with no separator, of the segments obtained by splitting at
hyphens and underscores, each with its first letter upper-cased and the rest
unchanged, and it contains neither hyphen nor underscore. -/
theorem goifyName_eq_goifyNameSpec (name : String)
    (hname : ∀ c ∈ name.data, isNameChar c = true) :
    goifyName name = goifyNameSpec name
    ∧ (name ≠ "BigInt" → name ≠ "StringStore" → allLettersUpper name.data = false →
        goifyName name = String.mk ((splitSegments name.data).map upperFirstLetter).flatten
        ∧ ∀ c ∈ (goifyName name).data, c ≠ '-' ∧ c ≠ '_') := by
  have hsplit : allLettersUpper name.data = false →
      String.mk (joinSegments ((splitChar '_' (replaceChar '-' '_' name.data)).map caserString))
        = String.mk ((splitSegments name.data).map upperFirstLetter).flatten := by
    intro _
    rw [splitChar_replaceChar, joinSegments_eq]
    congr 2
    apply List.map_congr_left
    intro seg hseg
    exact titleAux_segment seg (segment_isAlphanum name.data hname seg hseg)
  have hupper : allLettersUpper name.data = true →
      String.mk (caserString (replaceChar '-' '_' name.data))
        = String.mk (replaceChar '-' '_' name.data) := by
    intro hu
    congr 1
    apply titleAux_of_upper
    intro c hc ha
    unfold replaceChar at hc
    obtain ⟨d, hd, hdc⟩ := List.mem_map.mp hc
    by_cases e : d = '-'
    · rw [if_pos e] at hdc
      subst hdc
      exact absurd ha (by decide)
    · rw [if_neg e] at hdc
      subst hdc
      have := List.all_eq_true.mp hu d hd
      simpa [ha] using this
  have hmain : goifyName name = goifyNameSpec name := by
    unfold goifyName goifyNameSpec
    by_cases h1 : name = "BigInt"
    · rw [if_pos h1, if_pos h1]
    · rw [if_neg h1, if_neg h1]
      by_cases h2 : name = "StringStore"
      · rw [if_pos h2, if_pos h2]
      · rw [if_neg h2, if_neg h2]
        simp only [IsUpper_removeChar]
        by_cases h3 : allLettersUpper name.data = true
        · rw [if_pos h3, if_pos h3]
          exact hupper h3
        · rw [if_neg h3, if_neg h3]
          exact hsplit (by simpa using h3)
  refine ⟨hmain, ?_⟩
  intro h1 h2 h3
  have hval : goifyName name
      = String.mk ((splitSegments name.data).map upperFirstLetter).flatten := by
    rw [hmain]
    unfold goifyNameSpec
    rw [if_neg h1, if_neg h2, h3]
    rfl
  refine ⟨hval, ?_⟩
  rw [hval]
  intro c hc
  obtain ⟨seg1, hseg1, hc1⟩ := List.mem_flatten.mp hc
  obtain ⟨seg, hseg, rfl⟩ := List.mem_map.mp hseg1
  exact not_separator_of_isAlphanum c
    (mem_upperFirstLetter seg (segment_isAlphanum name.data hname seg hseg) c hc1)

/-- Witness of C11: `my-octet-string` gives `MyOctetString` and `ID-CT` gives
`ID_CT`. -/
theorem goifyName_eq_goifyNameSpec_witness :
    (∀ c ∈ "my-octet-string".data, isNameChar c = true)
    ∧ goifyName "my-octet-string" = "MyOctetString"
    ∧ (∀ c ∈ "ID-CT".data, isNameChar c = true)
    ∧ goifyName "ID-CT" = "ID_CT"
    ∧ goifyName "BigInt" = "int64"
    ∧ goifyName "StringStore" = "string" :=
  ⟨by decide,
   (goifyName_eq_goifyNameSpec "my-octet-string" (by decide)).1.trans (by decide),
   by decide,
   (goifyName_eq_goifyNameSpec "ID-CT" (by decide)).1.trans (by decide),
   by decide, by decide⟩

/-! ## C12: the module with no assignment -/

/-- C12 (the code at the input of `TestDeclMinSynax`): for every module with an
empty assignment list, no imports and no package override, `Generate` hands
the printer a file that holds the header name `goifyName` of the module
identifier and no declaration at all; for the identifier `My-ASN1-ModuleName`
that name is `MyASN1ModuleName`, not `My_ASN1_ModuleName`. -/
theorem Generate_minimal_module :
    (∀ (cat : Catalog) (fuel : Nat) (reference : String) (tagDefault : Int)
        (extensibilityImplied : Bool),
        Generate noParams cat fuel ⟨⟨reference⟩, tagDefault, extensibilityImplied, ⟨[], []⟩⟩
          = some (GenerateResult.printed ⟨goifyName reference, []⟩))
    ∧ Generate noParams sampleCatalog 0 (testModule [])
        = some (GenerateResult.printed ⟨"MyASN1ModuleName", []⟩)
    ∧ goifyName "My-ASN1-ModuleName" = "MyASN1ModuleName"
    ∧ goifyName "My-ASN1-ModuleName" ≠ "My_ASN1_ModuleName" :=
  ⟨fun _ _ _ _ _ => rfl, rfl, by decide, by decide⟩

/-! ## C13: the name normaliser is not idempotent -/

/-- C13: `goifyName` is not idempotent: there is a name for which applying it
twice differs from applying it once.  `BigInt` is one (`int64`, then `Int64`),
and so is `big-int` (`BigInt`, then `int64`). -/
theorem goifyName_not_idempotent :
    (∃ name, goifyName (goifyName name) ≠ goifyName name)
    ∧ goifyName "BigInt" = "int64" ∧ goifyName (goifyName "BigInt") = "Int64"
    ∧ goifyName "big-int" = "BigInt" ∧ goifyName (goifyName "big-int") = "int64" :=
  ⟨⟨"BigInt", by decide⟩, by decide, by decide, by decide, by decide⟩

/-! ## C14: declarations of primitive constructs -/

theorem generateTypeBody_primitive (cat : Catalog) (fuel : Nat) (t : Typ) (shape : GoExpr)
    (noStar : Bool) (ctx : moduleContext) (h : primitiveShape t = some shape) :
    generateTypeBody cat fuel t noStar ctx = some (shape, ctx) := by
  cases t <;> simp only [primitiveShape, Option.some.injEq] at h <;>
    first
    | (subst h; simp only [generateTypeBody])
    | cases h

theorem generateDecl_primitive (cat : Catalog) (fuel : Nat) (ctx : moduleContext)
    (a : TypeAssignment) (h : isPrimitiveAssignment a = true) :
    generateDecl cat fuel ctx (Assignment.TypeAssignment a) = some (primitiveDecl a, ctx) := by
  unfold isPrimitiveAssignment at h
  cases ht : a.type with
  | none => rw [ht] at h; cases h
  | some t =>
      rw [ht] at h
      cases hs : primitiveShape t with
      | none => simp [hs] at h
      | some shape =>
          simp only [generateDecl, generateTypeDecl, generateTypeBodyOpt, ht,
            generateTypeBody_primitive cat fuel t shape true ctx hs, primitiveDecl]
          simp [hs]

theorem generateDeclList_primitive (cat : Catalog) (fuel : Nat) (ctx : moduleContext) :
    ∀ (items : List TypeAssignment), (∀ a ∈ items, isPrimitiveAssignment a = true) →
      generateDeclList cat fuel (items.map Assignment.TypeAssignment) ctx
        = some (items.map primitiveDecl, ctx)
  | [], _ => rfl
  | a :: rest, h => by
      rw [List.map_cons, generateDeclList,
        generateDecl_primitive cat fuel ctx a (h a (List.mem_cons_self _ _))]
      simp only
      rw [generateDeclList_primitive cat fuel ctx rest
        (fun b hb => h b (List.mem_cons_of_mem _ hb))]
      rfl

/-- C14: for every module whose assignments are type assignments of primitive
constructs, the walk returns one declaration per assignment, in order, each
named `goifyName` of the assignment name with the body of the type-mapping
table (Boolean `bool`, Integer `int64`, CharacterString and RestrictedString
`string`, Real `float64`, OctetString `[]byte`, Enumerated `string`,
IntegerEnum `int`, Null `interface{}`, ObjectIdentifier `int`); it records no
diagnostic and requires no module, so `Generate` succeeds with these
declarations after the imports of the module.  Translating any type of the
table leaves the context as it is. -/
theorem primitive_declarations (gen : GenParams) (cat : Catalog) (fuel : Nat)
    (module : ModuleDefinition) (items : List TypeAssignment)
    (hmodule : module.ModuleBody.AssignmentList = items.map Assignment.TypeAssignment)
    (hprim : ∀ a ∈ items, isPrimitiveAssignment a = true) :
    (∃ ctx,
        generateDeclarations cat fuel (initialContext module) module
            = some (items.map primitiveDecl, ctx)
        ∧ ctx.errors = [] ∧ ctx.requiredModules = [])
    ∧ Generate gen cat fuel module
        = some (GenerateResult.printed ⟨packageName gen module,
            importDecls (firstOccurrences (importNames module)) ++ items.map primitiveDecl⟩)
    ∧ (∀ (t : Typ) (shape : GoExpr) (noStar : Bool) (ctx : moduleContext),
        primitiveShape t = some shape →
          generateTypeBody cat fuel t noStar ctx = some (shape, ctx)) := by
  have hwalk : generateDeclarations cat fuel (initialContext module) module
      = some (items.map primitiveDecl, initialContext module) := by
    rw [generateDeclarations, hmodule]
    exact generateDeclList_primitive cat fuel _ items hprim
  refine ⟨⟨_, hwalk, rfl, rfl⟩, ?_, fun t shape noStar ctx h =>
    generateTypeBody_primitive cat fuel t shape noStar ctx h⟩
  have herr : (initialContext module).errors = [] := rfl
  rw [Generate_of_walk gen cat fuel module _ _ hwalk, if_pos herr, requireImports_eq,
    requiredModules_foldl]
  simp [initialContext, importNames]

/-- Witness of C14: the five assignments `MyBool`, `MyInt`, `MyString`,
`MyOctetString`, `MyReal` give five declarations in that order. -/
theorem primitive_declarations_witness :
    (testModule (primitiveAssignments.map Assignment.TypeAssignment)).ModuleBody.AssignmentList
        = primitiveAssignments.map Assignment.TypeAssignment
    ∧ (∀ a ∈ primitiveAssignments, isPrimitiveAssignment a = true)
    ∧ Generate noParams sampleCatalog 0
          (testModule (primitiveAssignments.map Assignment.TypeAssignment))
        = some (GenerateResult.printed ⟨"MyASN1ModuleName",
            [GoDecl.typeDecl "MyBool" (GoExpr.Ident "bool") none,
             GoDecl.typeDecl "MyInt" (GoExpr.Ident "int64") none,
             GoDecl.typeDecl "MyString" (GoExpr.Ident "string") none,
             GoDecl.typeDecl "MyOctetString" (GoExpr.ArrayType (GoExpr.Ident "byte")) none,
             GoDecl.typeDecl "MyReal" (GoExpr.Ident "float64") none]⟩) :=
  ⟨rfl, by decide,
   (primitive_declarations noParams sampleCatalog 0
      (testModule (primitiveAssignments.map Assignment.TypeAssignment)) primitiveAssignments
      rfl (by decide)).2.1.trans rfl⟩

/-! # Supporting lemmas: every step of the walk is framed -/

theorem moduleContext.ext_fields (a b : moduleContext)
    (h1 : a.extensibilityImplied = b.extensibilityImplied) (h2 : a.tagDefault = b.tagDefault)
    (h3 : a.errors = b.errors) (h4 : a.lookupContext = b.lookupContext)
    (h5 : a.requiredModules = b.requiredModules) : a = b := by
  cases a; cases b
  simp only at h1 h2 h3 h4 h5
  subst h1 h2 h3 h4 h5
  rfl

theorem requireModule_errors (ctx : moduleContext) (module : String) :
    (ctx.requireModule module).errors = ctx.errors := by
  unfold moduleContext.requireModule
  split <;> rfl

theorem foldl_requireModule_errors (mods : List String) (ctx : moduleContext) :
    (mods.foldl moduleContext.requireModule ctx).errors = ctx.errors := by
  induction mods generalizing ctx with
  | nil => rfl
  | cons m ms ih => rw [List.foldl_cons, ih, requireModule_errors]

theorem record_lookupContext (ctx : moduleContext) (errs mods : List String) :
    (ctx.record errs mods).lookupContext = ctx.lookupContext :=
  (foldl_requireModule_extends mods ctx).1

theorem record_errors (ctx : moduleContext) (errs mods : List String) :
    (ctx.record errs mods).errors = ctx.errors ++ errs :=
  rfl

theorem record_requiredModules (ctx : moduleContext) (errs mods : List String) :
    (ctx.record errs mods).requiredModules
      = ctx.requiredModules
          ++ firstOccurrences (mods.filter (fun x => decide (x ∉ ctx.requiredModules))) :=
  requiredModules_foldl ctx mods

theorem record_nil (ctx : moduleContext) : ctx.record [] [] = ctx := by
  apply moduleContext.ext_fields <;> simp [moduleContext.record]

theorem appendError_eq_record (ctx : moduleContext) (err : String) :
    ctx.appendError err = ctx.record [err] [] :=
  rfl

theorem requireModule_eq_record (ctx : moduleContext) (module : String) :
    ctx.requireModule module = ctx.record [] [module] := by
  apply moduleContext.ext_fields <;> simp [moduleContext.record, requireModule_errors]

theorem record_record (ctx : moduleContext) (e1 m1 e2 m2 : List String) :
    (ctx.record e1 m1).record e2 m2 = ctx.record (e1 ++ e2) (m1 ++ m2) := by
  have hl : ∀ (c : moduleContext) (m : List String),
      (m.foldl moduleContext.requireModule c).lookupContext = c.lookupContext :=
    fun c m => (foldl_requireModule_extends m c).1
  have hx : ∀ (c : moduleContext) (m : List String),
      (m.foldl moduleContext.requireModule c).extensibilityImplied = c.extensibilityImplied :=
    fun c m => (foldl_requireModule_extends m c).2.1
  have ht : ∀ (c : moduleContext) (m : List String),
      (m.foldl moduleContext.requireModule c).tagDefault = c.tagDefault :=
    fun c m => (foldl_requireModule_extends m c).2.2.1
  apply moduleContext.ext_fields
  · simp only [moduleContext.record, hx]
  · simp only [moduleContext.record, ht]
  · simp only [moduleContext.record, List.append_assoc]
  · simp only [moduleContext.record, hl]
  · show (m2.foldl moduleContext.requireModule (ctx.record e1 m1)).requiredModules
      = ((m1 ++ m2).foldl moduleContext.requireModule ctx).requiredModules
    rw [List.foldl_append, requiredModules_foldl, requiredModules_foldl _ m2]
    rfl

/-- The unwrap loop in closed form: the core type, the components of the tag
layers appended in order, and one diagnostic per layer whose class number is
no literal. -/
theorem asn1Unwrap_eq (cat : Catalog) :
    ∀ (t : Typ) (components : List String) (ctx : moduleContext),
      asn1Unwrap cat t components ctx
        = (removeWrapperTypes t,
           components ++ ((tagLayers t).map tagLayerComponents).flatten,
           ctx.record (tagLayerDiagnostics cat t) [])
  | Typ.TaggedType tag t tagType, components, ctx => by
      obtain ⟨cls, cn⟩ := tag
      cases cn with
      | Number n =>
          simp only [asn1Unwrap, lookupValue, asn1Unwrap_eq cat t, removeWrapperTypes, tagLayers,
            tagLayerDiagnostics, tagLayerComponents, List.map_cons, List.flatten_cons,
            List.filter_cons, isLiteralNumber, Bool.not_true, Bool.false_eq_true, ↓reduceIte]
          by_cases h1 : cls = TagClass.CLASS_APPLICATION <;>
            by_cases h2 : tagType = TagType.TAGS_EXPLICIT <;>
              simp [h1, h2]
      | String s =>
          simp only [asn1Unwrap, lookupValue, asn1Unwrap_eq cat t, removeWrapperTypes, tagLayers,
            tagLayerDiagnostics, tagLayerComponents, List.map_cons, List.flatten_cons,
            List.filter_cons, isLiteralNumber, Bool.not_false, ↓reduceIte,
            appendError_eq_record, record_record, tagLayerDiagnostic]
          by_cases h1 : cls = TagClass.CLASS_APPLICATION <;>
            by_cases h2 : tagType = TagType.TAGS_EXPLICIT <;>
              simp [h1, h2]
      | ObjectIdentifierValue elems =>
          simp only [asn1Unwrap, lookupValue, asn1Unwrap_eq cat t, removeWrapperTypes, tagLayers,
            tagLayerDiagnostics, tagLayerComponents, List.map_cons, List.flatten_cons,
            List.filter_cons, isLiteralNumber, Bool.not_false, ↓reduceIte,
            appendError_eq_record, record_record, tagLayerDiagnostic]
          by_cases h1 : cls = TagClass.CLASS_APPLICATION <;>
            by_cases h2 : tagType = TagType.TAGS_EXPLICIT <;>
              simp [h1, h2]
      | Other s =>
          simp only [asn1Unwrap, lookupValue, asn1Unwrap_eq cat t, removeWrapperTypes, tagLayers,
            tagLayerDiagnostics, tagLayerComponents, List.map_cons, List.flatten_cons,
            List.filter_cons, isLiteralNumber, Bool.not_false, ↓reduceIte,
            appendError_eq_record, record_record, tagLayerDiagnostic]
          by_cases h1 : cls = TagClass.CLASS_APPLICATION <;>
            by_cases h2 : tagType = TagType.TAGS_EXPLICIT <;>
              simp [h1, h2]
  | Typ.ConstraintedType t _, components, ctx => by
      simp only [asn1Unwrap, asn1Unwrap_eq cat t, removeWrapperTypes, tagLayers,
        tagLayerDiagnostics]
  | Typ.BooleanType, _, ctx => by
      simp [asn1Unwrap, removeWrapperTypes, tagLayers, tagLayerDiagnostics, record_nil]
  | Typ.IntegerType, _, ctx => by
      simp [asn1Unwrap, removeWrapperTypes, tagLayers, tagLayerDiagnostics, record_nil]
  | Typ.CharacterStringType, _, ctx => by
      simp [asn1Unwrap, removeWrapperTypes, tagLayers, tagLayerDiagnostics, record_nil]
  | Typ.RealType, _, ctx => by
      simp [asn1Unwrap, removeWrapperTypes, tagLayers, tagLayerDiagnostics, record_nil]
  | Typ.OctetStringType, _, ctx => by
      simp [asn1Unwrap, removeWrapperTypes, tagLayers, tagLayerDiagnostics, record_nil]
  | Typ.ChoiceType _, _, ctx => by
      simp [asn1Unwrap, removeWrapperTypes, tagLayers, tagLayerDiagnostics, record_nil]
  | Typ.SequenceType _, _, ctx => by
      simp [asn1Unwrap, removeWrapperTypes, tagLayers, tagLayerDiagnostics, record_nil]
  | Typ.SetType _, _, ctx => by
      simp [asn1Unwrap, removeWrapperTypes, tagLayers, tagLayerDiagnostics, record_nil]
  | Typ.SetOfType _, _, ctx => by
      simp [asn1Unwrap, removeWrapperTypes, tagLayers, tagLayerDiagnostics, record_nil]
  | Typ.SequenceOfType _, _, ctx => by
      simp [asn1Unwrap, removeWrapperTypes, tagLayers, tagLayerDiagnostics, record_nil]
  | Typ.TypeReference _, _, ctx => by
      simp [asn1Unwrap, removeWrapperTypes, tagLayers, tagLayerDiagnostics, record_nil]
  | Typ.RestrictedStringType _, _, ctx => by
      simp [asn1Unwrap, removeWrapperTypes, tagLayers, tagLayerDiagnostics, record_nil]
  | Typ.BitStringType, _, ctx => by
      simp [asn1Unwrap, removeWrapperTypes, tagLayers, tagLayerDiagnostics, record_nil]
  | Typ.EnumeratedType _, _, ctx => by
      simp [asn1Unwrap, removeWrapperTypes, tagLayers, tagLayerDiagnostics, record_nil]
  | Typ.IntegerEnumType _, _, ctx => by
      simp [asn1Unwrap, removeWrapperTypes, tagLayers, tagLayerDiagnostics, record_nil]
  | Typ.StringType, _, ctx => by
      simp [asn1Unwrap, removeWrapperTypes, tagLayers, tagLayerDiagnostics, record_nil]
  | Typ.BigInt, _, ctx => by
      simp [asn1Unwrap, removeWrapperTypes, tagLayers, tagLayerDiagnostics, record_nil]
  | Typ.NullType, _, ctx => by
      simp [asn1Unwrap, removeWrapperTypes, tagLayers, tagLayerDiagnostics, record_nil]
  | Typ.ObjectIdentifierType, _, ctx => by
      simp [asn1Unwrap, removeWrapperTypes, tagLayers, tagLayerDiagnostics, record_nil]
  | Typ.Unsupported _, _, ctx => by
      simp [asn1Unwrap, removeWrapperTypes, tagLayers, tagLayerDiagnostics, record_nil]

theorem asn1TypeTags_congr (cat : Catalog) (fuel : Nat) (c1 c2 : moduleContext)
    (h : c1.lookupContext = c2.lookupContext) (t : Typ) (components : List String) :
    asn1TypeTags cat fuel c1 t components = asn1TypeTags cat fuel c2 t components := by
  cases t <;> simp only [asn1TypeTags, unwrapToLeafType_congr c1 c2 h]

/-- The tag synthesizer in closed form: the literal is built from the
components of the flags, of the tag layers and of the core type, and the
context only gains the diagnostics of the tag layers. -/
theorem asn1TagFromType_eq (cat : Catalog) (fuel : Nat) (ctx : moduleContext)
    (nt : NamedComponentType) :
    asn1TagFromType cat fuel ctx nt
      = match asn1TypeTags cat fuel ctx (removeWrapperTypes nt.NamedType.type)
            ((if nt.IsOptional then ["optional"] else []) ++ defaultComponents nt.Default
              ++ ((tagLayers nt.NamedType.type).map tagLayerComponents).flatten) with
        | none => none
        | some (components, isReference, isArray) =>
            some (tagLiteral
                (xmlTag nt.NamedType.Identifier (nt.IsOptional || isReference || isArray))
                components,
              ctx.record (tagLayerDiagnostics cat nt.NamedType.type) []) := by
  unfold asn1TagFromType
  simp only [asn1Unwrap_eq]
  rw [asn1TypeTags_congr cat fuel (ctx.record (tagLayerDiagnostics cat nt.NamedType.type) [])
    ctx (record_lookupContext _ _ _)]

theorem asn1TagFromType_framed (cat : Catalog) (fuel : Nat) (body : ModuleBody)
    (nt : NamedComponentType) :
    Framed body (fun ctx => asn1TagFromType cat fuel ctx nt) := by
  cases hv : asn1TypeTags cat fuel ⟨false, 0, [], body, []⟩
      (removeWrapperTypes nt.NamedType.type)
      ((if nt.IsOptional then ["optional"] else []) ++ defaultComponents nt.Default
        ++ ((tagLayers nt.NamedType.type).map tagLayerComponents).flatten) with
  | none =>
      refine Or.inl (fun ctx h => ?_)
      beta_reduce
      rw [asn1TagFromType_eq, asn1TypeTags_congr cat fuel ctx ⟨false, 0, [], body, []⟩ h, hv]
  | some p =>
      obtain ⟨components, isReference, isArray⟩ := p
      refine Or.inr ⟨tagLiteral
        (xmlTag nt.NamedType.Identifier (nt.IsOptional || isReference || isArray)) components,
        tagLayerDiagnostics cat nt.NamedType.type, [], fun ctx h => ?_⟩
      beta_reduce
      rw [asn1TagFromType_eq, asn1TypeTags_congr cat fuel ctx ⟨false, 0, [], body, []⟩ h, hv]

theorem resolveTypeReference_framed (cat : Catalog) (fuel : Nat) (body : ModuleBody)
    (reference : String) :
    Framed body (fun ctx => resolveTypeReference cat fuel ctx reference) := by
  have hu : ∀ ctx : moduleContext, ctx.lookupContext = body →
      unwrapToLeafType ctx fuel reference
        = unwrapToLeafType ⟨false, 0, [], body, []⟩ fuel reference :=
    fun ctx h => unwrapToLeafType_congr ctx ⟨false, 0, [], body, []⟩ h fuel reference
  cases hv : unwrapToLeafType ⟨false, 0, [], body, []⟩ fuel reference with
  | none =>
      refine Or.inl (fun ctx h => ?_)
      simp only [resolveTypeReference, hu ctx h, hv]
  | some leaf =>
      by_cases hty : leaf.type.isSome = true
      · refine Or.inr ⟨some leaf, [], [], fun ctx h => ?_⟩
        simp only [resolveTypeReference, hu ctx h, hv, hty, if_true, record_nil]
      · have hty2 : leaf.type.isSome = false := by simpa using hty
        cases hl : lookupUsefulType cat leaf.TypeReference with
        | some tt =>
            refine Or.inr ⟨some ⟨leaf.TypeReference, some tt,
              lookupUsefulTypeModule cat leaf.TypeReference⟩, [], [], fun ctx h => ?_⟩
            simp only [resolveTypeReference, hu ctx h, hv, hty2, Bool.false_eq_true, if_false,
              hl, record_nil]
        | none =>
            refine Or.inr ⟨none, ["Can not resolve TypeReference " ++ reference], [],
              fun ctx h => ?_⟩
            simp only [resolveTypeReference, hu ctx h, hv, hty2, Bool.false_eq_true, if_false,
              hl, appendError_eq_record]

theorem generateSpecialCase_framed (cat : Catalog) (resolved : TypeAssignment) :
    ∃ e mods, ∀ ctx, generateSpecialCase cat ctx resolved = (e, ctx.record [] mods) := by
  by_cases h : (resolved.TypeReference = cat.GeneralizedTimeName
      || resolved.TypeReference = cat.UTCTimeName) = true
  · refine ⟨some (GoExpr.Ident "time.Time"), ["time"], fun ctx => ?_⟩
    simp only [generateSpecialCase, h, if_true, requireModule_eq_record]
  · have h2 : (decide (resolved.TypeReference = cat.GeneralizedTimeName)
        || decide (resolved.TypeReference = cat.UTCTimeName)) = false := by simpa using h
    cases ht : resolved.type.map removeWrapperTypes with
    | none =>
        refine ⟨none, [], fun ctx => ?_⟩
        simp only [generateSpecialCase, h2, Bool.false_eq_true, if_false, ht, record_nil]
    | some t =>
        by_cases hb : t = Typ.BitStringType
        · subst hb
          refine ⟨some (GoExpr.Ident "asn1.BitString"), ["encoding/asn1"], fun ctx => ?_⟩
          simp only [generateSpecialCase, h2, Bool.false_eq_true, if_false, ht,
            requireModule_eq_record]
        · refine ⟨none, [], fun ctx => ?_⟩
          simp only [generateSpecialCase, h2, Bool.false_eq_true, if_false, ht, record_nil]
          cases t <;> first | rfl | exact absurd rfl hb

theorem generateReferenceBody_framed (cat : Catalog) (fuel : Nat) (body : ModuleBody)
    (name : String) (noStar : Bool) :
    Framed body (generateReferenceBody cat fuel name noStar) := by
  rcases resolveTypeReference_framed cat fuel body name with h | ⟨r, errs, mods, h⟩
  · refine Or.inl (fun ctx hc => ?_)
    have := h ctx hc
    simp only at this
    simp only [generateReferenceBody, this]
  · cases r with
    | none =>
        refine Or.inr ⟨GoExpr.Ident ((if noStar then "" else "*") ++ goifyName name),
          errs, mods, fun ctx hc => ?_⟩
        have := h ctx hc
        simp only at this
        simp only [generateReferenceBody, this]
    | some nameAndType =>
        obtain ⟨e, mods2, hs⟩ := generateSpecialCase_framed cat nameAndType
        cases e with
        | some specialCase =>
            refine Or.inr ⟨specialCase, errs ++ [], mods ++ mods2, fun ctx hc => ?_⟩
            have := h ctx hc
            simp only at this
            simp only [generateReferenceBody, this, hs, record_record]
        | none =>
            refine Or.inr ⟨if nameAndType.Module ≠ "" then
                GoExpr.Ident ((if noStar then "" else "*") ++ goifyName nameAndType.Module
                  ++ "." ++ goifyName name)
              else GoExpr.Ident ((if noStar then "" else "*") ++ goifyName name),
              errs ++ [], mods ++ mods2, fun ctx hc => ?_⟩
            have := h ctx hc
            simp only at this
            simp only [generateReferenceBody, this, hs, record_record]
            split <;> rfl

theorem Framed.pure {α : Type} (body : ModuleBody) (a : α) :
    Framed body (fun ctx => some (a, ctx)) :=
  Or.inr ⟨a, [], [], fun ctx _ => by rw [record_nil]⟩

theorem Framed.congr {α : Type} (body : ModuleBody)
    (f g : moduleContext → Option (α × moduleContext)) (h : ∀ ctx, f ctx = g ctx)
    (hg : Framed body g) : Framed body f := by
  have : f = g := funext h
  rw [this]; exact hg

theorem Framed.bind {α β : Type} (body : ModuleBody)
    (f : moduleContext → Option (α × moduleContext))
    (g : α → moduleContext → Option (β × moduleContext))
    (hf : Framed body f) (hg : ∀ a, Framed body (g a)) :
    Framed body (fun ctx => (f ctx).bind (fun p => g p.1 p.2)) := by
  rcases hf with hf | ⟨a, e1, m1, hf⟩
  · exact Or.inl (fun ctx h => by simp only [hf ctx h, Option.none_bind])
  · rcases hg a with hg | ⟨b, e2, m2, hg⟩
    · refine Or.inl (fun ctx h => ?_)
      simp only [hf ctx h, Option.some_bind]
      exact hg _ ((record_lookupContext ctx e1 m1).trans h)
    · refine Or.inr ⟨b, e1 ++ e2, m1 ++ m2, fun ctx h => ?_⟩
      simp only [hf ctx h, Option.some_bind]
      rw [hg _ ((record_lookupContext ctx e1 m1).trans h), record_record]

/-- The outcome of a framed step does not depend on the context it starts
from: it returns on one context with the lookup context if and only if it
returns on every such context, with the same result and the same recorded
diagnostics. -/
theorem Framed.transfer {α : Type} (body : ModuleBody)
    (f : moduleContext → Option (α × moduleContext)) (hf : Framed body f)
    (c1 c1' : moduleContext) (a : α) (h1 : c1.lookupContext = body)
    (hr : f c1 = some (a, c1')) (c2 : moduleContext) (h2 : c2.lookupContext = body) :
    ∃ errs mods, c1' = c1.record errs mods ∧ f c2 = some (a, c2.record errs mods) := by
  rcases hf with hf | ⟨b, errs, mods, hf⟩
  · rw [hf c1 h1] at hr; cases hr
  · have := hf c1 h1
    rw [hr] at this
    simp only [Option.some.injEq, Prod.mk.injEq] at this
    exact ⟨errs, mods, this.2, by rw [hf c2 h2, this.1]⟩

theorem diagnosticsSince_record (ctx : moduleContext) (errs mods : List String) :
    diagnosticsSince ctx (ctx.record errs mods) = errs := by
  simp [diagnosticsSince, record_errors]

mutual
theorem generateTypeBody_framed (cat : Catalog) (fuel : Nat) (body : ModuleBody) :
    ∀ (t : Typ) (noStar : Bool), Framed body (generateTypeBody cat fuel t noStar)
  | Typ.BooleanType, _ =>
      Framed.congr body _ _ (fun ctx => by rw [generateTypeBody]) (Framed.pure body _)
  | Typ.IntegerType, _ =>
      Framed.congr body _ _ (fun ctx => by rw [generateTypeBody]) (Framed.pure body _)
  | Typ.CharacterStringType, _ =>
      Framed.congr body _ _ (fun ctx => by rw [generateTypeBody]) (Framed.pure body _)
  | Typ.RealType, _ =>
      Framed.congr body _ _ (fun ctx => by rw [generateTypeBody]) (Framed.pure body _)
  | Typ.OctetStringType, _ =>
      Framed.congr body _ _ (fun ctx => by rw [generateTypeBody]) (Framed.pure body _)
  | Typ.RestrictedStringType _, _ =>
      Framed.congr body _ _ (fun ctx => by rw [generateTypeBody]) (Framed.pure body _)
  | Typ.EnumeratedType _, _ =>
      Framed.congr body _ _ (fun ctx => by rw [generateTypeBody]) (Framed.pure body _)
  | Typ.IntegerEnumType _, _ =>
      Framed.congr body _ _ (fun ctx => by rw [generateTypeBody]) (Framed.pure body _)
  | Typ.StringType, _ =>
      Framed.congr body _ _ (fun ctx => by rw [generateTypeBody]) (Framed.pure body _)
  | Typ.BigInt, _ =>
      Framed.congr body _ _ (fun ctx => by rw [generateTypeBody]) (Framed.pure body _)
  | Typ.NullType, _ =>
      Framed.congr body _ _ (fun ctx => by rw [generateTypeBody]) (Framed.pure body _)
  | Typ.ObjectIdentifierType, _ =>
      Framed.congr body _ _ (fun ctx => by rw [generateTypeBody]) (Framed.pure body _)
  | Typ.BitStringType, _ =>
      Or.inr ⟨GoExpr.Ident "asn1.BitString", [], ["encoding/asn1"], fun ctx _ => by
        rw [generateTypeBody, requireModule_eq_record]⟩
  | Typ.Unsupported goSyntax, _ =>
      Or.inr ⟨GoExpr.nil, ["Ignoring unsupported type " ++ goSyntax], [], fun ctx _ => by
        rw [generateTypeBody, appendError_eq_record]⟩
  | Typ.TypeReference name, noStar =>
      Framed.congr body _ _ (fun ctx => by rw [generateTypeBody])
        (generateReferenceBody_framed cat fuel body name noStar)
  | Typ.TaggedType _ t _, _ =>
      Framed.congr body _ _ (fun ctx => by rw [generateTypeBody])
        (generateTypeBody_framed cat fuel body t false)
  | Typ.ConstraintedType t _, _ =>
      Framed.congr body _ _ (fun ctx => by rw [generateTypeBody])
        (generateTypeBody_framed cat fuel body t false)
  | Typ.SetOfType t, _ =>
      Framed.congr body _ _
        (fun ctx => by
          rw [generateTypeBody]
          cases generateTypeBody cat fuel t true ctx with
          | none => rfl
          | some p => rfl)
        (Framed.bind body _ (fun elt ctx => some (GoExpr.ArrayType elt, ctx))
          (generateTypeBody_framed cat fuel body t true) (fun _ => Framed.pure body _))
  | Typ.SequenceOfType t, _ =>
      Framed.congr body _ _
        (fun ctx => by
          rw [generateTypeBody]
          cases generateTypeBody cat fuel t true ctx with
          | none => rfl
          | some p => rfl)
        (Framed.bind body _ (fun elt ctx => some (GoExpr.ArrayType elt, ctx))
          (generateTypeBody_framed cat fuel body t true) (fun _ => Framed.pure body _))
  | Typ.ChoiceType alternatives, _ =>
      Framed.congr body _ _
        (fun ctx => by
          rw [generateTypeBody]
          cases generateChoiceFields cat fuel alternatives ctx with
          | none => rfl
          | some p => rfl)
        (Framed.bind body _ (fun fields ctx => some (GoExpr.StructType fields, ctx))
          (generateChoiceFields_framed cat fuel body alternatives) (fun _ => Framed.pure body _))
  | Typ.SequenceType components, _ =>
      Framed.congr body _ _
        (fun ctx => by
          rw [generateTypeBody]
          cases generateComponentFields cat fuel components ctx with
          | none => rfl
          | some p => rfl)
        (Framed.bind body _ (fun fields ctx => some (GoExpr.StructType fields, ctx))
          (generateComponentFields_framed cat fuel body components)
          (fun _ => Framed.pure body _))
  | Typ.SetType components, _ =>
      Framed.congr body _ _
        (fun ctx => by
          rw [generateTypeBody]
          cases generateComponentFields cat fuel components ctx with
          | none => rfl
          | some p => rfl)
        (Framed.bind body _ (fun fields ctx => some (GoExpr.StructType fields, ctx))
          (generateComponentFields_framed cat fuel body components)
          (fun _ => Framed.pure body _))
theorem generateChoiceFields_framed (cat : Catalog) (fuel : Nat) (body : ModuleBody) :
    ∀ (alternatives : List NamedType), Framed body (generateChoiceFields cat fuel alternatives)
  | [] => Framed.congr body _ _ (fun ctx => by rw [generateChoiceFields]) (Framed.pure body _)
  | f :: rest =>
      Framed.congr body _ _
        (fun ctx => by
          rw [generateChoiceFields]
          cases generateStructField cat fuel f false none ctx with
          | none => rfl
          | some p =>
              simp only [Option.some_bind]
              cases generateChoiceFields cat fuel rest p.2 with
              | none => rfl
              | some q => rfl)
        (Framed.bind body _
          (fun field ctx =>
            (generateChoiceFields cat fuel rest ctx).bind
              (fun q => (fun fields ctx => some (field :: fields, ctx)) q.1 q.2))
          (generateStructField_framed cat fuel body f false none)
          (fun field => Framed.bind body _ (fun fields ctx => some (field :: fields, ctx))
            (generateChoiceFields_framed cat fuel body rest) (fun _ => Framed.pure body _)))
theorem generateComponentFields_framed (cat : Catalog) (fuel : Nat) (body : ModuleBody) :
    ∀ (components : List ComponentType),
      Framed body (generateComponentFields cat fuel components)
  | [] =>
      Framed.congr body _ _ (fun ctx => by rw [generateComponentFields]) (Framed.pure body _)
  | ComponentType.NamedComponentType f isOptional dflt :: rest =>
      Framed.congr body _ _
        (fun ctx => by
          rw [generateComponentFields]
          cases generateStructField cat fuel f isOptional dflt ctx with
          | none => rfl
          | some p =>
              simp only [Option.some_bind]
              cases generateComponentFields cat fuel rest p.2 with
              | none => rfl
              | some q => rfl)
        (Framed.bind body _
          (fun field ctx =>
            (generateComponentFields cat fuel rest ctx).bind
              (fun q => (fun fields ctx => some (field :: fields, ctx)) q.1 q.2))
          (generateStructField_framed cat fuel body f isOptional dflt)
          (fun field => Framed.bind body _ (fun fields ctx => some (field :: fields, ctx))
            (generateComponentFields_framed cat fuel body rest) (fun _ => Framed.pure body _)))
  | ComponentType.ComponentsOfComponentType _ :: rest =>
      Framed.congr body _ _ (fun ctx => by rw [generateComponentFields])
        (generateComponentFields_framed cat fuel body rest)
theorem generateStructField_framed (cat : Catalog) (fuel : Nat) (body : ModuleBody) :
    ∀ (f : NamedType) (isOptional : Bool) (dflt : Option Value),
      Framed body (generateStructField cat fuel f isOptional dflt)
  | NamedType.mk identifier t, isOptional, dflt =>
      Framed.congr body _ _
        (fun ctx => by
          rw [generateStructField]
          cases generateTypeBody cat fuel t false ctx with
          | none => rfl
          | some p =>
              simp only [Option.some_bind]
              cases asn1TagFromType cat fuel p.2
                  ⟨NamedType.mk identifier t, isOptional, dflt⟩ with
              | none => rfl
              | some q => rfl)
        (Framed.bind body _
          (fun type ctx =>
            (asn1TagFromType cat fuel ctx ⟨NamedType.mk identifier t, isOptional, dflt⟩).bind
              (fun q => (fun tag ctx =>
                some (GoField.mk (goifyName identifier) type tag
                  (commentFromComponentType ⟨NamedType.mk identifier t, isOptional, dflt⟩),
                  ctx)) q.1 q.2))
          (generateTypeBody_framed cat fuel body t false)
          (fun type => Framed.bind body _
            (fun tag ctx =>
              some (GoField.mk (goifyName identifier) type tag
                (commentFromComponentType ⟨NamedType.mk identifier t, isOptional, dflt⟩), ctx))
            (asn1TagFromType_framed cat fuel body ⟨NamedType.mk identifier t, isOptional, dflt⟩)
            (fun _ => Framed.pure body _)))
end

theorem generateTypeBodyOpt_framed (cat : Catalog) (fuel : Nat) (body : ModuleBody)
    (typeDescr : Option Typ) (noStar : Bool) :
    Framed body (generateTypeBodyOpt cat fuel typeDescr noStar) := by
  cases typeDescr with
  | some t =>
      exact Framed.congr body _ _ (fun ctx => by rw [generateTypeBodyOpt])
        (generateTypeBody_framed cat fuel body t noStar)
  | none =>
      exact Or.inr ⟨GoExpr.nil, ["Ignoring unsupported type <nil>"], [], fun ctx _ => by
        rw [generateTypeBodyOpt, appendError_eq_record]⟩

theorem generateDecl_framed (cat : Catalog) (fuel : Nat) (body : ModuleBody)
    (assignment : Assignment) :
    Framed body (fun ctx => generateDecl cat fuel ctx assignment) := by
  cases assignment with
  | TypeAssignment a =>
      exact Framed.congr body _ _
        (fun ctx => by
          simp only [generateDecl, generateTypeDecl]
          cases generateTypeBodyOpt cat fuel a.type true ctx with
          | none => rfl
          | some p => rfl)
        (Framed.bind body _
          (fun type ctx =>
            some (GoDecl.typeDecl (goifyName a.TypeReference) type
              (commentFromType a.type a.TypeReference), ctx))
          (generateTypeBodyOpt_framed cat fuel body a.type true) (fun _ => Framed.pure body _))
  | ValueAssignment reference type value =>
      exact Framed.congr body _ _
        (fun ctx => by
          simp only [generateDecl, generateValueDecl]
          cases generateTypeBodyOpt cat fuel type true ctx with
          | none => rfl
          | some p => rfl)
        (Framed.bind body _
          (fun t ctx =>
            some (GoDecl.constDecl (generateValueBody value).1 t
              (commentFromType type reference) (generateValueBody value).2, ctx))
          (generateTypeBodyOpt_framed cat fuel body type true) (fun _ => Framed.pure body _))

theorem generateDeclList_cons (cat : Catalog) (fuel : Nat) (assignment : Assignment)
    (rest : List Assignment) (ctx : moduleContext) :
    generateDeclList cat fuel (assignment :: rest) ctx
      = (generateDecl cat fuel ctx assignment).bind
          (fun p => (generateDeclList cat fuel rest p.2).bind
            (fun q => some (p.1 :: q.1, q.2))) := by
  rw [generateDeclList]
  cases generateDecl cat fuel ctx assignment with
  | none => rfl
  | some p =>
      simp only [Option.some_bind]
      cases generateDeclList cat fuel rest p.2 with
      | none => rfl
      | some q => rfl

theorem generateDeclList_framed (cat : Catalog) (fuel : Nat) (body : ModuleBody) :
    ∀ (assignments : List Assignment), Framed body (generateDeclList cat fuel assignments)
  | [] => Framed.congr body _ _ (fun ctx => by rw [generateDeclList]) (Framed.pure body _)
  | assignment :: rest =>
      Framed.congr body _ _ (fun ctx => generateDeclList_cons cat fuel assignment rest ctx)
        (Framed.bind body _
          (fun decl ctx =>
            (generateDeclList cat fuel rest ctx).bind
              (fun q => (fun decls ctx => some (decl :: decls, ctx)) q.1 q.2))
          (generateDecl_framed cat fuel body assignment)
          (fun decl => Framed.bind body _ (fun decls ctx => some (decl :: decls, ctx))
            (generateDeclList_framed cat fuel body rest) (fun _ => Framed.pure body _)))

/-- Walking a concatenation is walking the first list and then the second
from the context the first walk left. -/
theorem generateDeclList_append (cat : Catalog) (fuel : Nat) :
    ∀ (xs ys : List Assignment) (ctx : moduleContext),
      generateDeclList cat fuel (xs ++ ys) ctx
        = (generateDeclList cat fuel xs ctx).bind
            (fun p => (generateDeclList cat fuel ys p.2).bind
              (fun q => some (p.1 ++ q.1, q.2)))
  | [], ys, ctx => by
      rw [List.nil_append, generateDeclList]
      simp only [Option.some_bind, List.nil_append]
      cases generateDeclList cat fuel ys ctx with
      | none => rfl
      | some q => rfl
  | x :: xs, ys, ctx => by
      rw [List.cons_append, generateDeclList_cons, generateDeclList_cons]
      cases generateDecl cat fuel ctx x with
      | none => rfl
      | some p =>
          simp only [Option.some_bind]
          rw [generateDeclList_append cat fuel xs ys p.2]
          cases generateDeclList cat fuel xs p.2 with
          | none => rfl
          | some q =>
              simp only [Option.some_bind]
              cases generateDeclList cat fuel ys q.2 with
              | none => rfl
              | some r => rfl

/-! ## When the translation of a type returns -/

theorem referencesEndWithin_core (ctx : moduleContext) (n : Nat) :
    ∀ (t : Typ), referencesEndWithin ctx n t = true →
      ∀ tt, removeWrapperTypes t = Typ.TypeReference tt → chainEndsWithin ctx n tt = true
  | Typ.TaggedType _ t _, h, tt, ht => by
      rw [referencesEndWithin] at h
      rw [removeWrapperTypes] at ht
      exact referencesEndWithin_core ctx n t h tt ht
  | Typ.ConstraintedType t _, h, tt, ht => by
      rw [referencesEndWithin] at h
      rw [removeWrapperTypes] at ht
      exact referencesEndWithin_core ctx n t h tt ht
  | Typ.TypeReference name, h, tt, ht => by
      rw [referencesEndWithin] at h
      simp only [removeWrapperTypes, Typ.TypeReference.injEq] at ht
      rw [← ht]; exact h
  | Typ.BooleanType, _, _, ht => by simp [removeWrapperTypes] at ht
  | Typ.IntegerType, _, _, ht => by simp [removeWrapperTypes] at ht
  | Typ.CharacterStringType, _, _, ht => by simp [removeWrapperTypes] at ht
  | Typ.RealType, _, _, ht => by simp [removeWrapperTypes] at ht
  | Typ.OctetStringType, _, _, ht => by simp [removeWrapperTypes] at ht
  | Typ.ChoiceType _, _, _, ht => by simp [removeWrapperTypes] at ht
  | Typ.SequenceType _, _, _, ht => by simp [removeWrapperTypes] at ht
  | Typ.SetType _, _, _, ht => by simp [removeWrapperTypes] at ht
  | Typ.SetOfType _, _, _, ht => by simp [removeWrapperTypes] at ht
  | Typ.SequenceOfType _, _, _, ht => by simp [removeWrapperTypes] at ht
  | Typ.RestrictedStringType _, _, _, ht => by simp [removeWrapperTypes] at ht
  | Typ.BitStringType, _, _, ht => by simp [removeWrapperTypes] at ht
  | Typ.EnumeratedType _, _, _, ht => by simp [removeWrapperTypes] at ht
  | Typ.IntegerEnumType _, _, _, ht => by simp [removeWrapperTypes] at ht
  | Typ.StringType, _, _, ht => by simp [removeWrapperTypes] at ht
  | Typ.BigInt, _, _, ht => by simp [removeWrapperTypes] at ht
  | Typ.NullType, _, _, ht => by simp [removeWrapperTypes] at ht
  | Typ.ObjectIdentifierType, _, _, ht => by simp [removeWrapperTypes] at ht
  | Typ.Unsupported _, _, _, ht => by simp [removeWrapperTypes] at ht

theorem unwrapToLeafType_isSome_eq (ctx c : moduleContext) (n : Nat) (name : String)
    (hc : c.lookupContext = ctx.lookupContext) :
    (unwrapToLeafType c (n + 1) name).isSome = chainEndsWithin ctx n name := by
  rw [unwrapToLeafType_congr c ctx hc]
  have h := unwrapToLeafType_isSome_iff ctx n name
  cases h1 : (unwrapToLeafType ctx (n + 1) name).isSome <;>
    cases h2 : chainEndsWithin ctx n name <;> simp_all

theorem generateReferenceBody_isSome_eq (cat : Catalog) (fuel : Nat) (name : String)
    (noStar : Bool) (ctx : moduleContext) :
    (generateReferenceBody cat fuel name noStar ctx).isSome
      = (unwrapToLeafType ctx fuel name).isSome := by
  cases hu : (unwrapToLeafType ctx fuel name).isSome with
  | true => exact generateReferenceBody_isSome cat fuel name noStar ctx hu
  | false =>
      have hres : resolveTypeReference cat fuel ctx name = none := by
        have := resolveTypeReference_isSome cat fuel ctx name
        rw [hu] at this
        cases h : resolveTypeReference cat fuel ctx name with
        | none => rfl
        | some p => rw [h] at this; cases this
      simp [generateReferenceBody, hres]

theorem asn1TagFromType_isSome_of_references (cat : Catalog) (n : Nat) (ctx c : moduleContext)
    (hc : c.lookupContext = ctx.lookupContext) (nt : NamedComponentType)
    (h : referencesEndWithin ctx n nt.NamedType.type = true) :
    (asn1TagFromType cat (n + 1) c nt).isSome = true :=
  asn1TagFromType_isSome cat (n + 1) c nt (fun tt htt => by
    rw [unwrapToLeafType_isSome_eq ctx c n tt hc]
    exact referencesEndWithin_core ctx n _ h tt htt)

mutual
/-- The translation of a type returns at recursion depth `n + 1` exactly when
every type reference it visits has a chain that ends within `n` links. -/
theorem generateTypeBody_isSome_eq (cat : Catalog) (n : Nat) (ctx : moduleContext) :
    ∀ (t : Typ) (noStar : Bool) (c : moduleContext), c.lookupContext = ctx.lookupContext →
      (generateTypeBody cat (n + 1) t noStar c).isSome = referencesEndWithin ctx n t
  | Typ.BooleanType, _, _, _ => by rw [generateTypeBody, referencesEndWithin]; rfl
  | Typ.IntegerType, _, _, _ => by rw [generateTypeBody, referencesEndWithin]; rfl
  | Typ.CharacterStringType, _, _, _ => by rw [generateTypeBody, referencesEndWithin]; rfl
  | Typ.RealType, _, _, _ => by rw [generateTypeBody, referencesEndWithin]; rfl
  | Typ.OctetStringType, _, _, _ => by rw [generateTypeBody, referencesEndWithin]; rfl
  | Typ.RestrictedStringType _, _, _, _ => by rw [generateTypeBody, referencesEndWithin]; rfl
  | Typ.BitStringType, _, _, _ => by rw [generateTypeBody, referencesEndWithin]; rfl
  | Typ.EnumeratedType _, _, _, _ => by rw [generateTypeBody, referencesEndWithin]; rfl
  | Typ.IntegerEnumType _, _, _, _ => by rw [generateTypeBody, referencesEndWithin]; rfl
  | Typ.StringType, _, _, _ => by rw [generateTypeBody, referencesEndWithin]; rfl
  | Typ.BigInt, _, _, _ => by rw [generateTypeBody, referencesEndWithin]; rfl
  | Typ.NullType, _, _, _ => by rw [generateTypeBody, referencesEndWithin]; rfl
  | Typ.ObjectIdentifierType, _, _, _ => by rw [generateTypeBody, referencesEndWithin]; rfl
  | Typ.Unsupported _, _, _, _ => by rw [generateTypeBody, referencesEndWithin]; rfl
  | Typ.TypeReference name, noStar, c, hc => by
      rw [generateTypeBody, referencesEndWithin, generateReferenceBody_isSome_eq,
        unwrapToLeafType_isSome_eq ctx c n name hc]
  | Typ.TaggedType _ t _, _, c, hc => by
      rw [generateTypeBody, referencesEndWithin]
      exact generateTypeBody_isSome_eq cat n ctx t false c hc
  | Typ.ConstraintedType t _, _, c, hc => by
      rw [generateTypeBody, referencesEndWithin]
      exact generateTypeBody_isSome_eq cat n ctx t false c hc
  | Typ.SetOfType t, _, c, hc => by
      rw [generateTypeBody, referencesEndWithin, ← generateTypeBody_isSome_eq cat n ctx t true c hc]
      cases generateTypeBody cat (n + 1) t true c with
      | none => rfl
      | some p => rfl
  | Typ.SequenceOfType t, _, c, hc => by
      rw [generateTypeBody, referencesEndWithin, ← generateTypeBody_isSome_eq cat n ctx t true c hc]
      cases generateTypeBody cat (n + 1) t true c with
      | none => rfl
      | some p => rfl
  | Typ.ChoiceType alternatives, _, c, hc => by
      rw [generateTypeBody, referencesEndWithin,
        ← generateChoiceFields_isSome_eq cat n ctx alternatives c hc]
      cases generateChoiceFields cat (n + 1) alternatives c with
      | none => rfl
      | some p => rfl
  | Typ.SequenceType components, _, c, hc => by
      rw [generateTypeBody, referencesEndWithin,
        ← generateComponentFields_isSome_eq cat n ctx components c hc]
      cases generateComponentFields cat (n + 1) components c with
      | none => rfl
      | some p => rfl
  | Typ.SetType components, _, c, hc => by
      rw [generateTypeBody, referencesEndWithin,
        ← generateComponentFields_isSome_eq cat n ctx components c hc]
      cases generateComponentFields cat (n + 1) components c with
      | none => rfl
      | some p => rfl
theorem generateChoiceFields_isSome_eq (cat : Catalog) (n : Nat) (ctx : moduleContext) :
    ∀ (alternatives : List NamedType) (c : moduleContext),
      c.lookupContext = ctx.lookupContext →
        (generateChoiceFields cat (n + 1) alternatives c).isSome
          = alternativesEndWithin ctx n alternatives
  | [], _, _ => by rw [generateChoiceFields, alternativesEndWithin]; rfl
  | f :: rest, c, hc => by
      rw [generateChoiceFields, alternativesEndWithin]
      have h1 := generateStructField_isSome_eq cat n ctx f false none c hc
      cases hf : generateStructField cat (n + 1) f false none c with
      | none =>
          rw [hf] at h1
          rw [← h1]; rfl
      | some p =>
          rw [hf] at h1
          have hext := generateStructField_extends cat (n + 1) f false none c p.1 p.2 hf
          have h2 := generateChoiceFields_isSome_eq cat n ctx rest p.2 (hext.1.trans hc)
          rw [← h1, ← h2]
          simp only [Option.isSome_some, Bool.true_and]
          cases generateChoiceFields cat (n + 1) rest p.2 with
          | none => rfl
          | some q => rfl
theorem generateComponentFields_isSome_eq (cat : Catalog) (n : Nat) (ctx : moduleContext) :
    ∀ (components : List ComponentType) (c : moduleContext),
      c.lookupContext = ctx.lookupContext →
        (generateComponentFields cat (n + 1) components c).isSome
          = componentsEndWithin ctx n components
  | [], _, _ => by rw [generateComponentFields, componentsEndWithin]; rfl
  | ComponentType.NamedComponentType f isOptional dflt :: rest, c, hc => by
      rw [generateComponentFields, componentsEndWithin]
      have h1 := generateStructField_isSome_eq cat n ctx f isOptional dflt c hc
      cases hf : generateStructField cat (n + 1) f isOptional dflt c with
      | none =>
          rw [hf] at h1
          rw [← h1]; rfl
      | some p =>
          rw [hf] at h1
          have hext := generateStructField_extends cat (n + 1) f isOptional dflt c p.1 p.2 hf
          have h2 := generateComponentFields_isSome_eq cat n ctx rest p.2 (hext.1.trans hc)
          rw [← h1, ← h2]
          simp only [Option.isSome_some, Bool.true_and]
          cases generateComponentFields cat (n + 1) rest p.2 with
          | none => rfl
          | some q => rfl
  | ComponentType.ComponentsOfComponentType _ :: rest, c, hc => by
      rw [generateComponentFields, componentsEndWithin]
      exact generateComponentFields_isSome_eq cat n ctx rest c hc
theorem generateStructField_isSome_eq (cat : Catalog) (n : Nat) (ctx : moduleContext) :
    ∀ (f : NamedType) (isOptional : Bool) (dflt : Option Value) (c : moduleContext),
      c.lookupContext = ctx.lookupContext →
        (generateStructField cat (n + 1) f isOptional dflt c).isSome = fieldEndsWithin ctx n f
  | NamedType.mk identifier t, isOptional, dflt, c, hc => by
      rw [generateStructField, fieldEndsWithin]
      have h1 := generateTypeBody_isSome_eq cat n ctx t false c hc
      cases hb : generateTypeBody cat (n + 1) t false c with
      | none =>
          rw [hb] at h1
          rw [← h1]; rfl
      | some p =>
          rw [hb] at h1
          have hext := generateTypeBody_extends cat (n + 1) t false c p.1 p.2 hb
          have h2 := asn1TagFromType_isSome_of_references cat n ctx p.2 (hext.1.trans hc)
            ⟨NamedType.mk identifier t, isOptional, dflt⟩ h1.symm
          rw [← h1]
          simp only
          cases ht : asn1TagFromType cat (n + 1) p.2
              ⟨NamedType.mk identifier t, isOptional, dflt⟩ with
          | none => rw [ht] at h2; cases h2
          | some q => rfl
end

theorem generateTypeBodyOpt_isSome_eq (cat : Catalog) (n : Nat) (ctx c : moduleContext)
    (hc : c.lookupContext = ctx.lookupContext) (typeDescr : Option Typ) (noStar : Bool) :
    (generateTypeBodyOpt cat (n + 1) typeDescr noStar c).isSome
      = typeEndsWithin ctx n typeDescr := by
  cases typeDescr with
  | none => rfl
  | some t =>
      rw [generateTypeBodyOpt, typeEndsWithin]
      exact generateTypeBody_isSome_eq cat n ctx t noStar c hc

theorem generateDeclList_isSome_eq (cat : Catalog) (n : Nat) (ctx : moduleContext) :
    ∀ (assignments : List Assignment) (c : moduleContext),
      c.lookupContext = ctx.lookupContext →
        (generateDeclList cat (n + 1) assignments c).isSome
          = assignmentsEndWithin ctx n assignments
  | [], _, _ => rfl
  | Assignment.TypeAssignment a :: rest, c, hc => by
      rw [generateDeclList_cons, assignmentsEndWithin,
        ← generateTypeBodyOpt_isSome_eq cat n ctx c hc a.type true]
      cases hd : generateDecl cat (n + 1) c (Assignment.TypeAssignment a) with
      | none =>
          simp only [generateDecl, generateTypeDecl] at hd
          cases hb : generateTypeBodyOpt cat (n + 1) a.type true c with
          | none => rfl
          | some p => simp [hb] at hd
      | some p =>
          have hext := generateDecl_extends cat (n + 1) c _ p.1 p.2 hd
          have h2 := generateDeclList_isSome_eq cat n ctx rest p.2 (hext.1.trans hc)
          simp only [generateDecl, generateTypeDecl] at hd
          cases hb : generateTypeBodyOpt cat (n + 1) a.type true c with
          | none => simp [hb] at hd
          | some q =>
              simp only [Option.some_bind, Option.isSome_some, Bool.true_and]
              rw [← h2]
              cases generateDeclList cat (n + 1) rest p.2 with
              | none => rfl
              | some r => rfl
  | Assignment.ValueAssignment reference type value :: rest, c, hc => by
      rw [generateDeclList_cons, assignmentsEndWithin,
        ← generateTypeBodyOpt_isSome_eq cat n ctx c hc type true]
      cases hd : generateDecl cat (n + 1) c
          (Assignment.ValueAssignment reference type value) with
      | none =>
          simp only [generateDecl, generateValueDecl] at hd
          cases hb : generateTypeBodyOpt cat (n + 1) type true c with
          | none => rfl
          | some p => simp [hb] at hd
      | some p =>
          have hext := generateDecl_extends cat (n + 1) c _ p.1 p.2 hd
          have h2 := generateDeclList_isSome_eq cat n ctx rest p.2 (hext.1.trans hc)
          simp only [generateDecl, generateValueDecl] at hd
          cases hb : generateTypeBodyOpt cat (n + 1) type true c with
          | none => simp [hb] at hd
          | some q =>
              simp only [Option.some_bind, Option.isSome_some, Bool.true_and]
              rw [← h2]
              cases generateDeclList cat (n + 1) rest p.2 with
              | none => rfl
              | some r => rfl

theorem Generate_isSome (gen : GenParams) (cat : Catalog) (fuel : Nat)
    (module : ModuleDefinition) :
    (Generate gen cat fuel module).isSome
      = (generateDeclarations cat fuel (initialContext module) module).isSome := by
  cases hw : generateDeclarations cat fuel (initialContext module) module with
  | none => simp [Generate, hw]
  | some p =>
      obtain ⟨decls, ctx⟩ := p
      rw [Generate_of_walk gen cat fuel module decls ctx hw]
      split <;> rfl

theorem chainEndsWithin_two_cycle (ctx : moduleContext) (a b : String)
    (hab : nextReference ctx a = some b) (hba : nextReference ctx b = some a) (n : Nat) :
    chainEndsWithin ctx n a = false ∧ chainEndsWithin ctx n b = false := by
  have h := unwrapToLeafType_two_cycle ctx a b hab hba (n + 1)
  have ha := unwrapToLeafType_isSome_eq ctx ctx n a rfl
  have hb := unwrapToLeafType_isSome_eq ctx ctx n b rfl
  rw [h.1] at ha
  rw [h.2] at hb
  exact ⟨ha.symm, hb.symm⟩

/-! ## C15: records, choices and sequences-of -/

theorem generateStructField_isFieldOf (cat : Catalog) (fuel : Nat) (ctx : moduleContext)
    (f : NamedType) (isOptional : Bool) (dflt : Option Value) (field : GoField)
    (ctx' : moduleContext)
    (h : generateStructField cat fuel f isOptional dflt ctx = some (field, ctx')) :
    IsFieldOf cat fuel ctx ⟨f, isOptional, dflt⟩ field := by
  obtain ⟨identifier, t⟩ := f
  rw [generateStructField] at h
  cases hb : generateTypeBody cat fuel t false ctx with
  | none => simp [hb] at h
  | some p =>
      obtain ⟨shape, c1⟩ := p
      simp only [hb] at h
      cases ht : asn1TagFromType cat fuel c1 ⟨NamedType.mk identifier t, isOptional, dflt⟩ with
      | none => simp [ht] at h
      | some q =>
          obtain ⟨tag, c2⟩ := q
          simp only [ht, Option.some.injEq, Prod.mk.injEq] at h
          have hl : c1.lookupContext = ctx.lookupContext :=
            (generateTypeBody_extends cat fuel t false ctx shape c1 hb).1
          obtain ⟨errs, mods, -, htag⟩ := Framed.transfer ctx.lookupContext _
            (asn1TagFromType_framed cat fuel ctx.lookupContext
              ⟨NamedType.mk identifier t, isOptional, dflt⟩) c1 c2 tag hl ht ctx rfl
          exact ⟨shape, c1, tag, _, hb, htag, h.1.symm⟩

theorem IsFieldOf_congr (cat : Catalog) (fuel : Nat) (c1 c2 : moduleContext)
    (h : c1.lookupContext = c2.lookupContext) (nc : NamedComponentType) (field : GoField)
    (hf : IsFieldOf cat fuel c1 nc field) : IsFieldOf cat fuel c2 nc field := by
  obtain ⟨shape, d1, tag, d2, hb, ht, he⟩ := hf
  obtain ⟨_, _, -, hb2⟩ := Framed.transfer c2.lookupContext _
    (generateTypeBody_framed cat fuel c2.lookupContext nc.NamedType.type false)
    c1 d1 shape h hb c2 rfl
  obtain ⟨_, _, -, ht2⟩ := Framed.transfer c2.lookupContext _
    (asn1TagFromType_framed cat fuel c2.lookupContext nc) c1 d2 tag h ht c2 rfl
  exact ⟨shape, _, tag, _, hb2, ht2, he⟩

theorem generateComponentFields_fields (cat : Catalog) (fuel : Nat) (ctx0 : moduleContext) :
    ∀ (components : List ComponentType) (ctx : moduleContext) (fields : List GoField)
      (ctx' : moduleContext), ctx.lookupContext = ctx0.lookupContext →
      generateComponentFields cat fuel components ctx = some (fields, ctx') →
        List.Forall₂ (IsFieldOf cat fuel ctx0) (namedComponents components) fields
  | [], ctx, fields, ctx', _, h => by
      simp only [generateComponentFields, Option.some.injEq, Prod.mk.injEq] at h
      rw [← h.1]
      exact List.Forall₂.nil
  | ComponentType.NamedComponentType f isOptional dflt :: rest, ctx, fields, ctx', hl, h => by
      rw [generateComponentFields] at h
      cases hf : generateStructField cat fuel f isOptional dflt ctx with
      | none => simp [hf] at h
      | some p =>
          obtain ⟨field, c1⟩ := p
          simp only [hf] at h
          cases hr : generateComponentFields cat fuel rest c1 with
          | none => simp [hr] at h
          | some q =>
              obtain ⟨fs, c2⟩ := q
              simp only [hr, Option.some.injEq, Prod.mk.injEq] at h
              rw [← h.1]
              have hl1 : c1.lookupContext = ctx0.lookupContext :=
                (generateStructField_extends cat fuel f isOptional dflt ctx field c1 hf).1.trans
                  hl
              exact List.Forall₂.cons
                (IsFieldOf_congr cat fuel ctx ctx0 hl _ _
                  (generateStructField_isFieldOf cat fuel ctx f isOptional dflt field c1 hf))
                (generateComponentFields_fields cat fuel ctx0 rest c1 fs c2 hl1 hr)
  | ComponentType.ComponentsOfComponentType _ :: rest, ctx, fields, ctx', hl, h => by
      rw [generateComponentFields] at h
      exact generateComponentFields_fields cat fuel ctx0 rest ctx fields ctx' hl h

theorem generateChoiceFields_fields (cat : Catalog) (fuel : Nat) (ctx0 : moduleContext) :
    ∀ (alternatives : List NamedType) (ctx : moduleContext) (fields : List GoField)
      (ctx' : moduleContext), ctx.lookupContext = ctx0.lookupContext →
      generateChoiceFields cat fuel alternatives ctx = some (fields, ctx') →
        List.Forall₂ (IsFieldOf cat fuel ctx0) (alternativeComponents alternatives) fields
  | [], ctx, fields, ctx', _, h => by
      simp only [generateChoiceFields, Option.some.injEq, Prod.mk.injEq] at h
      rw [← h.1]
      exact List.Forall₂.nil
  | f :: rest, ctx, fields, ctx', hl, h => by
      rw [generateChoiceFields] at h
      cases hf : generateStructField cat fuel f false none ctx with
      | none => simp [hf] at h
      | some p =>
          obtain ⟨field, c1⟩ := p
          simp only [hf] at h
          cases hr : generateChoiceFields cat fuel rest c1 with
          | none => simp [hr] at h
          | some q =>
              obtain ⟨fs, c2⟩ := q
              simp only [hr, Option.some.injEq, Prod.mk.injEq] at h
              rw [← h.1]
              have hl1 : c1.lookupContext = ctx0.lookupContext :=
                (generateStructField_extends cat fuel f false none ctx field c1 hf).1.trans hl
              exact List.Forall₂.cons
                (IsFieldOf_congr cat fuel ctx ctx0 hl _ _
                  (generateStructField_isFieldOf cat fuel ctx f false none field c1 hf))
                (generateChoiceFields_fields cat fuel ctx0 rest c1 fs c2 hl1 hr)

theorem unwrap_returns_of_finite (ctx : moduleContext) (n : Nat)
    (hfinite : ∀ name, chainEndsWithin ctx n name = true) :
    ∀ c name, c.lookupContext = ctx.lookupContext →
      (unwrapToLeafType c (n + 1) name).isSome = true := by
  intro c name hc
  rw [unwrapToLeafType_congr c ctx hc]
  exact (unwrapToLeafType_isSome_iff ctx n name).mpr (hfinite name)

/-- C15 (as amended): `generateTypeBody` returns on a Sequence, Set, Choice,
SequenceOf or SetOf exactly when every type reference it visits has a chain of
local definitions that ends (within `n` links for the recursion depth
`n + 1`), and then: a Sequence or a Set gives a record with exactly one field
per named component, in component order; a Choice gives a record with one
field per alternative, in order; each field is named `goifyName` of its
identifier and is shaped as the translation of its component type (so a
nested Sequence is an inline nested record); SequenceOf and SetOf of `t` give
an array whose element shape is the translation of `t`. -/
theorem generateTypeBody_records (cat : Catalog) (n : Nat) (ctx : moduleContext) :
    (∀ (components : List ComponentType) (noStar : Bool),
        (generateTypeBody cat (n + 1) (Typ.SequenceType components) noStar ctx).isSome
            = componentsEndWithin ctx n components
        ∧ (generateTypeBody cat (n + 1) (Typ.SetType components) noStar ctx).isSome
            = componentsEndWithin ctx n components
        ∧ (componentsEndWithin ctx n components = true →
            ∃ fields ctx',
              generateTypeBody cat (n + 1) (Typ.SequenceType components) noStar ctx
                = some (GoExpr.StructType fields, ctx')
              ∧ generateTypeBody cat (n + 1) (Typ.SetType components) noStar ctx
                = some (GoExpr.StructType fields, ctx')
              ∧ List.Forall₂ (IsFieldOf cat (n + 1) ctx) (namedComponents components) fields
              ∧ fields.length = (namedComponents components).length))
    ∧ (∀ (alternatives : List NamedType) (noStar : Bool),
        (generateTypeBody cat (n + 1) (Typ.ChoiceType alternatives) noStar ctx).isSome
            = alternativesEndWithin ctx n alternatives
        ∧ (alternativesEndWithin ctx n alternatives = true →
            ∃ fields ctx',
              generateTypeBody cat (n + 1) (Typ.ChoiceType alternatives) noStar ctx
                = some (GoExpr.StructType fields, ctx')
              ∧ List.Forall₂ (IsFieldOf cat (n + 1) ctx)
                  (alternativeComponents alternatives) fields
              ∧ fields.length = alternatives.length))
    ∧ (∀ (t : Typ) (noStar : Bool),
        (generateTypeBody cat (n + 1) (Typ.SequenceOfType t) noStar ctx).isSome
            = referencesEndWithin ctx n t
        ∧ (generateTypeBody cat (n + 1) (Typ.SetOfType t) noStar ctx).isSome
            = referencesEndWithin ctx n t
        ∧ (referencesEndWithin ctx n t = true →
            ∃ elt ctx',
              generateTypeBody cat (n + 1) t true ctx = some (elt, ctx')
              ∧ generateTypeBody cat (n + 1) (Typ.SequenceOfType t) noStar ctx
                = some (GoExpr.ArrayType elt, ctx')
              ∧ generateTypeBody cat (n + 1) (Typ.SetOfType t) noStar ctx
                = some (GoExpr.ArrayType elt, ctx'))) := by
  refine ⟨?_, ?_, ?_⟩
  · intro components noStar
    have h1 := generateTypeBody_isSome_eq cat n ctx (Typ.SequenceType components) noStar ctx rfl
    have h2 := generateTypeBody_isSome_eq cat n ctx (Typ.SetType components) noStar ctx rfl
    simp only [referencesEndWithin] at h1 h2
    refine ⟨h1, h2, fun hrefs => ?_⟩
    have hs := generateComponentFields_isSome_eq cat n ctx components ctx rfl
    rw [hrefs] at hs
    cases hf : generateComponentFields cat (n + 1) components ctx with
    | none => rw [hf] at hs; cases hs
    | some p =>
        obtain ⟨fields, ctx'⟩ := p
        have hall := generateComponentFields_fields cat (n + 1) ctx components ctx fields ctx'
          rfl hf
        refine ⟨fields, ctx', ?_, ?_, hall, (List.Forall₂.length_eq hall).symm⟩
        · rw [generateTypeBody, hf]
        · rw [generateTypeBody, hf]
  · intro alternatives noStar
    have h1 := generateTypeBody_isSome_eq cat n ctx (Typ.ChoiceType alternatives) noStar ctx
      rfl
    simp only [referencesEndWithin] at h1
    refine ⟨h1, fun hrefs => ?_⟩
    have hs := generateChoiceFields_isSome_eq cat n ctx alternatives ctx rfl
    rw [hrefs] at hs
    cases hf : generateChoiceFields cat (n + 1) alternatives ctx with
    | none => rw [hf] at hs; cases hs
    | some p =>
        obtain ⟨fields, ctx'⟩ := p
        have hall := generateChoiceFields_fields cat (n + 1) ctx alternatives ctx fields ctx'
          rfl hf
        refine ⟨fields, ctx', ?_, hall, ?_⟩
        · rw [generateTypeBody, hf]
        · rw [← List.Forall₂.length_eq hall]
          simp [alternativeComponents]
  · intro t noStar
    have h1 := generateTypeBody_isSome_eq cat n ctx (Typ.SequenceOfType t) noStar ctx rfl
    have h2 := generateTypeBody_isSome_eq cat n ctx (Typ.SetOfType t) noStar ctx rfl
    simp only [referencesEndWithin] at h1 h2
    refine ⟨h1, h2, fun hrefs => ?_⟩
    have hs := generateTypeBody_isSome_eq cat n ctx t true ctx rfl
    rw [hrefs] at hs
    cases hf : generateTypeBody cat (n + 1) t true ctx with
    | none => rw [hf] at hs; cases hs
    | some p =>
        obtain ⟨elt, ctx'⟩ := p
        refine ⟨elt, ctx', rfl, ?_, ?_⟩
        · rw [generateTypeBody, hf]
        · rw [generateTypeBody, hf]

/-- Witness of C15: the sequence of `TestDeclSequenceTypeSyntax` visits no
reference and becomes a record of two fields, the second an inline nested
record with one field. -/
theorem generateTypeBody_records_witness :
    componentsEndWithin (initialContext (testModule [])) 0 nestedComponents = true
    ∧ (generateTypeBody sampleCatalog 1 nestedSequence true
          (initialContext (testModule []))).map Prod.fst
        = some (GoExpr.StructType
            [GoField.mk "MyIntField" (GoExpr.Ident "int64")
               "`xml:\"myIntField\" json:\"myIntField\"`" none,
             GoField.mk "MyStructField"
               (GoExpr.StructType
                 [GoField.mk "MyOctetString" (GoExpr.ArrayType (GoExpr.Ident "byte"))
                    "`xml:\"myOctetString\" json:\"myOctetString,omitempty\"`" none])
               "`xml:\"myStructField\" json:\"myStructField\"`" none])
    ∧ ∃ fields ctx',
        generateTypeBody sampleCatalog 1 nestedSequence true (initialContext (testModule []))
          = some (GoExpr.StructType fields, ctx')
        ∧ fields.length = 2 := by
  refine ⟨rfl, rfl, ?_⟩
  obtain ⟨fields, ctx', h1, -, -, h2⟩ :=
    ((generateTypeBody_records sampleCatalog 0 (initialContext (testModule []))).1
      nestedComponents true).2.2 rfl
  exact ⟨fields, ctx', h1, h2⟩

/-- Counterexample to C15 as stated: in the module `A ::= B`, `B ::= A` the
sequence `SEQUENCE { next A }` gets no record: `generateTypeBody` does not
return on it, whatever the recursion depth allowed. -/
theorem generateTypeBody_record_diverges_on_cycle :
    ¬ (∃ fuel : Nat,
        (generateTypeBody sampleCatalog fuel cyclicSequence true
          (initialContext cyclicModule)).isSome = true) := by
  rintro ⟨fuel, h⟩
  cases fuel with
  | zero =>
      have h0 : generateTypeBody sampleCatalog 0 cyclicSequence true
          (initialContext cyclicModule) = none := rfl
      rw [h0] at h; cases h
  | succ k =>
      rw [generateTypeBody_isSome_eq sampleCatalog k (initialContext cyclicModule)
        cyclicSequence true _ rfl] at h
      have hcyc := (chainEndsWithin_two_cycle (initialContext cyclicModule) "A" "B" rfl rfl k).1
      simp [cyclicSequence, referencesEndWithin, componentsEndWithin, fieldEndsWithin, hcyc] at h

/-! ## C16: tag and constraint wrappers in shape translation -/

theorem generateTypeBody_noStar (cat : Catalog) (fuel : Nat) (t : Typ) (ctx : moduleContext)
    (h : ∀ name, t ≠ Typ.TypeReference name) :
    generateTypeBody cat fuel t true ctx = generateTypeBody cat fuel t false ctx := by
  cases t <;> first
    | exact absurd rfl (h _)
    | simp only [generateTypeBody]

/-- C16 (as amended): for every type `t` and every context, translating
`TaggedType{t}` or `ConstraintedType{t}` in any position gives exactly what
translating `t` in field position gives: the same shape, the same diagnostics
and the same required modules.  As a declaration body the wrapped type
therefore translates as `t` itself does, unless `t` is a type reference. -/
theorem generateTypeBody_wrappers (cat : Catalog) (fuel : Nat) (tag : Tag) (tagType : TagType)
    (constraint : Constraint) (t : Typ) (noStar : Bool) (ctx : moduleContext) :
    generateTypeBody cat fuel (Typ.TaggedType tag t tagType) noStar ctx
        = generateTypeBody cat fuel t false ctx
    ∧ generateTypeBody cat fuel (Typ.ConstraintedType t constraint) noStar ctx
        = generateTypeBody cat fuel t false ctx
    ∧ ((∃ name, t = Typ.TypeReference name)
        ∨ (generateTypeBody cat fuel (Typ.TaggedType tag t tagType) true ctx
              = generateTypeBody cat fuel t true ctx
            ∧ generateTypeBody cat fuel (Typ.ConstraintedType t constraint) true ctx
              = generateTypeBody cat fuel t true ctx)) := by
  have h1 : generateTypeBody cat fuel (Typ.TaggedType tag t tagType) noStar ctx
      = generateTypeBody cat fuel t false ctx := by rw [generateTypeBody]
  have h2 : generateTypeBody cat fuel (Typ.ConstraintedType t constraint) noStar ctx
      = generateTypeBody cat fuel t false ctx := by rw [generateTypeBody]
  refine ⟨h1, h2, ?_⟩
  by_cases h : ∃ name, t = Typ.TypeReference name
  · exact Or.inl h
  · have hn : ∀ name, t ≠ Typ.TypeReference name := fun name e => h ⟨name, e⟩
    refine Or.inr ⟨?_, ?_⟩
    · rw [generateTypeBody, generateTypeBody_noStar cat fuel t ctx hn]
    · rw [generateTypeBody, generateTypeBody_noStar cat fuel t ctx hn]

/-- Counterexample to C16 as stated: in the module `Y ::= INTEGER`, the
declaration bodies `[0] IMPLICIT Y` and `Y (constraint)` translate to the
pointer `*Y`, while the declaration body `Y` translates to `Y`. -/
theorem generateTypeBody_wrapped_reference_differs :
    generateTypeBody sampleCatalog 1 taggedReference true (initialContext integerAlias)
        = some (GoExpr.Ident "*Y", initialContext integerAlias)
    ∧ generateTypeBody sampleCatalog 1 constrainedReference true (initialContext integerAlias)
        = some (GoExpr.Ident "*Y", initialContext integerAlias)
    ∧ generateTypeBody sampleCatalog 1 (Typ.TypeReference "Y") true
          (initialContext integerAlias)
        = some (GoExpr.Ident "Y", initialContext integerAlias)
    ∧ generateTypeBody sampleCatalog 1 taggedReference true (initialContext integerAlias)
        ≠ generateTypeBody sampleCatalog 1 (Typ.TypeReference "Y") true
            (initialContext integerAlias) := by
  have h1 : generateTypeBody sampleCatalog 1 taggedReference true (initialContext integerAlias)
      = some (GoExpr.Ident "*Y", initialContext integerAlias) := rfl
  have h3 : generateTypeBody sampleCatalog 1 (Typ.TypeReference "Y") true
      (initialContext integerAlias) = some (GoExpr.Ident "Y", initialContext integerAlias) := rfl
  refine ⟨h1, rfl, h3, ?_⟩
  rw [h1, h3]
  intro h
  have h4 : "*Y" = "Y" := by
    injection h with h
    injection h with h _
    injection h
  exact absurd h4 (by decide)

/-! # Supporting lemmas: where a reference chain ends -/

theorem chainEnd_mono (ctx : moduleContext) :
    ∀ (n : Nat) (name e : String), chainEnd ctx n name = some e →
      chainEnd ctx (n + 1) name = some e := by
  intro n
  induction n with
  | zero =>
      intro name e h
      unfold chainEnd at h ⊢
      cases hn : nextReference ctx name with
      | none => simpa [hn] using h
      | some tt => simp [hn] at h
  | succ k ih =>
      intro name e h
      rw [chainEnd] at h ⊢
      cases hn : nextReference ctx name with
      | none => simpa [hn] using h
      | some tt =>
          simp only [hn] at h ⊢
          exact ih tt e h

/-- Unwrapping follows the chain to its end: the leaf is the local definition
of the last name, or the bare name when it has none. -/
theorem unwrapToLeafType_of_chainEnd (ctx : moduleContext) :
    ∀ (n : Nat) (name e : String), chainEnd ctx n name = some e →
      ∃ leaf, unwrapToLeafType ctx (n + 1) name = some leaf
        ∧ leaf.TypeReference = e
        ∧ (GetType ctx.lookupContext.AssignmentList e = some leaf
            ∨ (GetType ctx.lookupContext.AssignmentList e = none
                ∧ leaf = ⟨e, none, ""⟩)) := by
  have hend : ∀ (k : Nat) (name : String), nextReference ctx name = none →
      ∃ leaf, unwrapToLeafType ctx (k + 1) name = some leaf
        ∧ leaf.TypeReference = name
        ∧ (GetType ctx.lookupContext.AssignmentList name = some leaf
            ∨ (GetType ctx.lookupContext.AssignmentList name = none
                ∧ leaf = ⟨name, none, ""⟩)) := by
    intro k name hn
    rw [unwrapToLeafType_succ, hn]
    cases hg : GetType ctx.lookupContext.AssignmentList name with
    | none => exact ⟨_, rfl, rfl, Or.inr ⟨rfl, rfl⟩⟩
    | some a => exact ⟨a, rfl, GetType_name _ _ _ hg, Or.inl rfl⟩
  intro n
  induction n with
  | zero =>
      intro name e h
      unfold chainEnd at h
      cases hn : nextReference ctx name with
      | some tt => simp [hn] at h
      | none =>
          simp only [hn, Option.isNone_none, if_true, Option.some.injEq] at h
          subst h
          exact hend 0 name hn
  | succ k ih =>
      intro name e h
      rw [chainEnd] at h
      cases hn : nextReference ctx name with
      | none =>
          simp only [hn, Option.some.injEq] at h
          subst h
          exact hend (k + 1) name hn
      | some tt =>
          simp only [hn] at h
          rw [unwrapToLeafType_succ, hn]
          exact ih tt e h

theorem GetType_mem (assignments : List Assignment) (name : String) (a : TypeAssignment)
    (h : GetType assignments name = some a) : Assignment.TypeAssignment a ∈ assignments := by
  induction assignments with
  | nil => simp [GetType] at h
  | cons x xs ih =>
      cases x with
      | TypeAssignment b =>
          simp only [GetType] at h
          split at h
          · cases h; exact List.mem_cons_self _ _
          · exact List.mem_cons_of_mem _ (ih h)
      | ValueAssignment r t v =>
          simp only [GetType] at h
          exact List.mem_cons_of_mem _ (ih h)

/-- A type whose core is a type reference translates as that reference does,
in field position when it is wrapped. -/
theorem generateTypeBody_core_reference (cat : Catalog) (fuel : Nat) (reference : String) :
    ∀ (t : Typ) (noStar : Bool) (ctx : moduleContext),
      removeWrapperTypes t = Typ.TypeReference reference →
        ∃ flag, generateTypeBody cat fuel t noStar ctx
          = generateReferenceBody cat fuel reference flag ctx
  | Typ.TaggedType _ t _, _, ctx, h => by
      rw [removeWrapperTypes] at h
      rw [generateTypeBody]
      exact generateTypeBody_core_reference cat fuel reference t false ctx h
  | Typ.ConstraintedType t _, _, ctx, h => by
      rw [removeWrapperTypes] at h
      rw [generateTypeBody]
      exact generateTypeBody_core_reference cat fuel reference t false ctx h
  | Typ.TypeReference name, noStar, ctx, h => by
      simp only [removeWrapperTypes, Typ.TypeReference.injEq] at h
      subst h
      exact ⟨noStar, by rw [generateTypeBody]⟩
  | Typ.BooleanType, _, _, h => by simp [removeWrapperTypes] at h
  | Typ.IntegerType, _, _, h => by simp [removeWrapperTypes] at h
  | Typ.CharacterStringType, _, _, h => by simp [removeWrapperTypes] at h
  | Typ.RealType, _, _, h => by simp [removeWrapperTypes] at h
  | Typ.OctetStringType, _, _, h => by simp [removeWrapperTypes] at h
  | Typ.ChoiceType _, _, _, h => by simp [removeWrapperTypes] at h
  | Typ.SequenceType _, _, _, h => by simp [removeWrapperTypes] at h
  | Typ.SetType _, _, _, h => by simp [removeWrapperTypes] at h
  | Typ.SetOfType _, _, _, h => by simp [removeWrapperTypes] at h
  | Typ.SequenceOfType _, _, _, h => by simp [removeWrapperTypes] at h
  | Typ.RestrictedStringType _, _, _, h => by simp [removeWrapperTypes] at h
  | Typ.BitStringType, _, _, h => by simp [removeWrapperTypes] at h
  | Typ.EnumeratedType _, _, _, h => by simp [removeWrapperTypes] at h
  | Typ.IntegerEnumType _, _, _, h => by simp [removeWrapperTypes] at h
  | Typ.StringType, _, _, h => by simp [removeWrapperTypes] at h
  | Typ.BigInt, _, _, h => by simp [removeWrapperTypes] at h
  | Typ.NullType, _, _, h => by simp [removeWrapperTypes] at h
  | Typ.ObjectIdentifierType, _, _, h => by simp [removeWrapperTypes] at h
  | Typ.Unsupported _, _, _, h => by simp [removeWrapperTypes] at h

theorem commentFromType_core_reference (reference : String) :
    ∀ (t : Typ) (typeName : String), removeWrapperTypes t = Typ.TypeReference reference →
      commentFromType (some t) typeName = none := by
  intro t typeName h
  cases t <;> first
    | rfl
    | simp [removeWrapperTypes] at h

/-- Every assignment of a walked list is translated in a context that the
walk reached, and the final context extends the one its translation left. -/
theorem generateDeclList_mem (cat : Catalog) (fuel : Nat) :
    ∀ (assignments : List Assignment) (ctx : moduleContext) (decls : List GoDecl)
      (ctx' : moduleContext),
      generateDeclList cat fuel assignments ctx = some (decls, ctx') →
        ∀ a ∈ assignments, ∃ decl c1 c2, decl ∈ decls ∧ ctx.Extends c1
          ∧ generateDecl cat fuel c1 a = some (decl, c2) ∧ c2.Extends ctx'
  | [], _, _, _, _, a, ha => by cases ha
  | x :: xs, ctx, decls, ctx', h, a, ha => by
      rw [generateDeclList] at h
      cases hd : generateDecl cat fuel ctx x with
      | none => simp [hd] at h
      | some p =>
          obtain ⟨d, c1⟩ := p
          simp only [hd] at h
          cases hr : generateDeclList cat fuel xs c1 with
          | none => simp [hr] at h
          | some q =>
              obtain ⟨ds, c2⟩ := q
              simp only [hr, Option.some.injEq, Prod.mk.injEq] at h
              obtain ⟨h1, h2⟩ := h
              subst h1 h2
              have hext1 := generateDecl_extends cat fuel ctx x d c1 hd
              have hext2 := (generateDeclList_spec cat fuel xs c1 ds c2 hr).1
              rcases List.mem_cons.mp ha with e | e
              · subst e
                exact ⟨d, ctx, c1, List.mem_cons_self _ _, Extends.refl _, hd, hext2⟩
              · obtain ⟨decl, k1, k2, hm, he1, hg, he2⟩ :=
                  generateDeclList_mem cat fuel xs c1 ds c2 hr a e
                exact ⟨decl, k1, k2, List.mem_cons_of_mem _ hm, Extends.trans hext1 he1, hg, he2⟩

/-! ## C17: references that end at a time type -/

theorem generateReferenceBody_time (cat : Catalog) (fuel : Nat) (ctx : moduleContext)
    (reference : String) (noStar : Bool) (leaf : TypeAssignment)
    (hleaf : unwrapToLeafType ctx fuel reference = some leaf)
    (htime : leaf.TypeReference = cat.GeneralizedTimeName
      ∨ leaf.TypeReference = cat.UTCTimeName)
    (hcat : (cat.USEFUL_TYPES leaf.TypeReference).isSome = true) :
    generateReferenceBody cat fuel reference noStar ctx
      = some (GoExpr.Ident "time.Time", ctx.requireModule "time") := by
  have hname : (decide (leaf.TypeReference = cat.GeneralizedTimeName)
      || decide (leaf.TypeReference = cat.UTCTimeName)) = true := by
    rcases htime with h | h <;> simp [h]
  by_cases hty : leaf.type.isSome = true
  · have hres : resolveTypeReference cat fuel ctx reference = some (some leaf, ctx) := by
      simp only [resolveTypeReference, hleaf, hty, if_true]
    simp only [generateReferenceBody, hres, generateSpecialCase, hname, if_true]
  · have hty2 : leaf.type.isSome = false := by simpa using hty
    cases hl : cat.USEFUL_TYPES leaf.TypeReference with
    | none => rw [hl] at hcat; cases hcat
    | some tt =>
        have hres : resolveTypeReference cat fuel ctx reference
            = some (some ⟨leaf.TypeReference, some tt,
                lookupUsefulTypeModule cat leaf.TypeReference⟩, ctx) := by
          simp only [resolveTypeReference, hleaf, hty2, Bool.false_eq_true, if_false,
            lookupUsefulType, hl]
        simp only [generateReferenceBody, hres, generateSpecialCase, hname, if_true]

theorem requireModule_count (ctx ctx' : moduleContext) (module : String)
    (hnodup : ctx.requiredModules.Nodup) (hext : (ctx.requireModule module).Extends ctx') :
    ctx'.requiredModules.count module = 1 := by
  have h1 : module ∈ (ctx.requireModule module).requiredModules := by
    rw [requiredModules_requireModule]
    split
    · assumption
    · simp
  have h2 : (ctx.requireModule module).requiredModules.Nodup :=
    (requireModule_extends ctx module).2.2.2.2.2 hnodup
  obtain ⟨-, -, -, -, ⟨mods, hm⟩, hnd⟩ := hext
  exact List.count_eq_one_of_mem (hnd h2) (by rw [hm]; exact List.mem_append_left _ h1)

theorem asn1TypeTags_time (cat : Catalog) (fuel : Nat) (ctx : moduleContext) (X : String)
    (leaf : TypeAssignment) (timeName hint : String) (components : List String)
    (hleaf : unwrapToLeafType ctx fuel X = some leaf) (hname : leaf.TypeReference = timeName)
    (htime : (timeName = cat.GeneralizedTimeName ∧ hint = "generalized")
      ∨ (timeName = cat.UTCTimeName ∧ cat.UTCTimeName ≠ cat.GeneralizedTimeName
          ∧ hint = "utc")) :
    asn1TypeTags cat fuel ctx (Typ.TypeReference X) components
      = some (components ++ [hint], true, false) := by
  simp only [asn1TypeTags, hleaf, hname]
  rcases htime with ⟨h1, h2⟩ | ⟨h1, h2, h3⟩
  · rw [if_pos h1, h2]
  · have hne : ¬ timeName = cat.GeneralizedTimeName := fun e => h2 (h1.symm.trans e)
    rw [if_neg hne, if_pos h1, h3]

/-- C17 (as amended): for every module in which the type name `X` is defined
through a chain of references (possibly wrapped in tags and constraints) that
ends at the time type `GeneralizedTime` (respectively `UTCTime`) of the
catalog: the declaration of `X` has the shape `time.Time` and requires `time`;
every field of type `X` has the shape `time.Time`, carries the hint
`generalized` (respectively `utc`) as the last component of its tag and
requires `time`; the walk of the module returns exactly when every type
reference it visits has a chain that ends; and whenever it returns, the
declaration of `X` is among its declarations and the module `time` is among
the emitted dependencies exactly once. -/
theorem time_references (cat : Catalog) (n : Nat) (module : ModuleDefinition) (X : String)
    (a : TypeAssignment) (timeName hint : String)
    (htime : (timeName = cat.GeneralizedTimeName ∧ hint = "generalized")
      ∨ (timeName = cat.UTCTimeName ∧ cat.UTCTimeName ≠ cat.GeneralizedTimeName
          ∧ hint = "utc"))
    (hcat : (cat.USEFUL_TYPES timeName).isSome = true)
    (hX : GetType module.ModuleBody.AssignmentList X = some a)
    (hchain : chainEnd (initialContext module) n X = some timeName)
    (hne : X ≠ timeName) :
    (∀ c : moduleContext, c.lookupContext = module.ModuleBody →
        generateDecl cat (n + 1) c (Assignment.TypeAssignment a)
          = some (GoDecl.typeDecl (goifyName X) (GoExpr.Ident "time.Time") none,
              c.requireModule "time"))
    ∧ (∀ (c : moduleContext) (id : String) (isOptional : Bool) (dflt : Option Value),
        c.lookupContext = module.ModuleBody →
          generateStructField cat (n + 1) (NamedType.mk id (Typ.TypeReference X)) isOptional
              dflt c
            = some (GoField.mk (goifyName id) (GoExpr.Ident "time.Time")
                (tagLiteral (xmlTag id true)
                  ((if isOptional then ["optional"] else []) ++ defaultComponents dflt
                    ++ [hint]))
                none, c.requireModule "time"))
    ∧ (generateDeclarations cat (n + 1) (initialContext module) module).isSome
        = assignmentsEndWithin (initialContext module) n module.ModuleBody.AssignmentList
    ∧ (∀ decls ctx,
        generateDeclarations cat (n + 1) (initialContext module) module = some (decls, ctx) →
          GoDecl.typeDecl (goifyName X) (GoExpr.Ident "time.Time") none ∈ decls
          ∧ ctx.requiredModules.count "time" = 1
          ∧ (requireImports ctx module.ModuleBody.Imports).requiredModules.count "time"
              = 1) := by
  have htn : timeName = cat.GeneralizedTimeName ∨ timeName = cat.UTCTimeName := by
    rcases htime with h | h
    · exact Or.inl h.1
    · exact Or.inr h.1
  -- the body of `X` is a reference `R` whose chain ends at the time type
  obtain ⟨R, hnext, hR⟩ : ∃ R, nextReference (initialContext module) X = some R
      ∧ chainEnd (initialContext module) n R = some timeName := by
    cases hn : nextReference (initialContext module) X with
    | none =>
        cases n with
        | zero =>
            simp only [chainEnd, hn, Option.isNone_none, if_true, Option.some.injEq] at hchain
            exact absurd hchain hne
        | succ k =>
            simp only [chainEnd, hn, Option.some.injEq] at hchain
            exact absurd hchain hne
    | some R =>
        cases n with
        | zero => simp [chainEnd, hn] at hchain
        | succ k =>
            simp only [chainEnd, hn] at hchain
            exact ⟨R, rfl, chainEnd_mono _ k R timeName hchain⟩
  obtain ⟨T, hT, hcore⟩ : ∃ T, a.type = some T
      ∧ removeWrapperTypes T = Typ.TypeReference R := by
    have hX2 : GetType (initialContext module).lookupContext.AssignmentList X = some a := hX
    unfold nextReference at hnext
    rw [hX2] at hnext
    cases ht : a.type with
    | none => simp [ht] at hnext
    | some T =>
        refine ⟨T, rfl, ?_⟩
        simp only [ht, Option.map_some'] at hnext
        cases hc : removeWrapperTypes T <;> simp only [hc] at hnext <;>
          first
          | (cases hnext; rfl)
          | cases hnext
  -- unwrapping `R` and `X` reaches a leaf named as the time type
  have hleafOf : ∀ (c : moduleContext) (name : String), c.lookupContext = module.ModuleBody →
      chainEnd (initialContext module) n name = some timeName →
        ∃ leaf, unwrapToLeafType c (n + 1) name = some leaf
          ∧ leaf.TypeReference = timeName := by
    intro c name hc hch
    obtain ⟨leaf, h1, h2, -⟩ := unwrapToLeafType_of_chainEnd _ n name timeName hch
    exact ⟨leaf, by rw [unwrapToLeafType_congr c (initialContext module) hc]; exact h1, h2⟩
  have hbody : ∀ (c : moduleContext) (name : String) (noStar : Bool),
      c.lookupContext = module.ModuleBody →
        chainEnd (initialContext module) n name = some timeName →
          generateReferenceBody cat (n + 1) name noStar c
            = some (GoExpr.Ident "time.Time", c.requireModule "time") := by
    intro c name noStar hc hch
    obtain ⟨leaf, h1, h2⟩ := hleafOf c name hc hch
    exact generateReferenceBody_time cat (n + 1) c name noStar leaf h1
      (by rw [h2]; exact htn) (by rw [h2]; exact hcat)
  have hname : a.TypeReference = X := GetType_name _ _ _ hX
  have hdecl : ∀ c : moduleContext, c.lookupContext = module.ModuleBody →
      generateDecl cat (n + 1) c (Assignment.TypeAssignment a)
        = some (GoDecl.typeDecl (goifyName X) (GoExpr.Ident "time.Time") none,
            c.requireModule "time") := by
    intro c hc
    obtain ⟨flag, hflag⟩ := generateTypeBody_core_reference cat (n + 1) R T true c hcore
    simp only [generateDecl, generateTypeDecl, hT, generateTypeBodyOpt, hflag,
      hbody c R flag hc hR, hname, commentFromType_core_reference R T X hcore]
  refine ⟨hdecl, ?_, generateDeclList_isSome_eq cat n (initialContext module) _ _ rfl, ?_⟩
  · intro c id isOptional dflt hc
    obtain ⟨leaf, h1, h2⟩ := hleafOf (c.requireModule "time") X
      ((requireModule_extends c "time").1.trans hc) hchain
    rw [generateStructField, generateTypeBody, hbody c X false hc hchain]
    simp only
    rw [asn1TagFromType_eq]
    simp only [NamedType.type, removeWrapperTypes, tagLayers, List.map_nil, List.flatten_nil,
      List.append_nil, asn1TypeTags_time cat (n + 1) _ X leaf timeName hint _ h1 h2 htime,
      NamedType.Identifier, Bool.or_true, Bool.or_false, tagLayerDiagnostics, List.filter_nil,
      record_nil, commentFromComponentType, commentFromType]
  · intro decls ctx hwalk
    have hwalk2 : generateDeclList cat (n + 1) module.ModuleBody.AssignmentList
        (initialContext module) = some (decls, ctx) := hwalk
    obtain ⟨decl, c1, c2, hmem, hext1, hgen, hext2⟩ :=
      generateDeclList_mem cat (n + 1) _ _ decls ctx hwalk2 _ (GetType_mem _ _ _ hX)
    have hc1 : c1.lookupContext = module.ModuleBody := hext1.1
    rw [hdecl c1 hc1] at hgen
    simp only [Option.some.injEq, Prod.mk.injEq] at hgen
    obtain ⟨hd, hc2⟩ := hgen
    have hnd1 : c1.requiredModules.Nodup := hext1.2.2.2.2.2 List.nodup_nil
    have hext3 : (c1.requireModule "time").Extends ctx := by rw [hc2]; exact hext2
    exact ⟨by rw [hd]; exact hmem,
      requireModule_count c1 ctx "time" hnd1 hext3,
      requireModule_count c1 _ "time" hnd1
        (Extends.trans hext3
          (by rw [requireImports_eq]; exact foldl_requireModule_extends _ _))⟩

/-- Witness of C17: the module of `TestTime`, `MyTimeType ::= GeneralizedTime`
with a field `myTimeField` of type `MyTimeType`. -/
theorem time_references_witness :
    GetType timeModule.ModuleBody.AssignmentList "MyTimeType"
        = some ⟨"MyTimeType", some (Typ.TypeReference "GeneralizedTime"), ""⟩
    ∧ chainEnd (initialContext timeModule) 1 "MyTimeType" = some "GeneralizedTime"
    ∧ generateDeclarations sampleCatalog 2 (initialContext timeModule) timeModule
        = some (timeModuleDecls, timeModuleContext)
    ∧ GoDecl.typeDecl (goifyName "MyTimeType") (GoExpr.Ident "time.Time") none
        ∈ timeModuleDecls
    ∧ timeModuleContext.requiredModules.count "time" = 1 := by
  have h := (time_references sampleCatalog 1 timeModule "MyTimeType"
    ⟨"MyTimeType", some (Typ.TypeReference "GeneralizedTime"), ""⟩ "GeneralizedTime"
    "generalized" (Or.inl ⟨rfl, rfl⟩) rfl rfl rfl (by decide)).2.2.2
    timeModuleDecls timeModuleContext rfl
  exact ⟨rfl, rfl, rfl, h.1, h.2.1⟩

/-- Counterexample to C17 as stated: in the module
`MyTimeType ::= GeneralizedTime`, `A ::= B`, `B ::= A` the name `MyTimeType` is
defined through a chain that ends at `GeneralizedTime`, but `Generate` returns
nothing, whatever the recursion depth allowed: no declaration and no dependency
is emitted. -/
theorem Generate_time_alias_diverges_on_cycle :
    GetType timeThenCycle.ModuleBody.AssignmentList "MyTimeType"
        = some ⟨"MyTimeType", some (Typ.TypeReference "GeneralizedTime"), ""⟩
    ∧ chainEnd (initialContext timeThenCycle) 1 "MyTimeType" = some "GeneralizedTime"
    ∧ ¬ (∃ fuel : Nat,
          (Generate noParams sampleCatalog fuel timeThenCycle).isSome = true) := by
  refine ⟨rfl, rfl, ?_⟩
  rintro ⟨fuel, h⟩
  cases fuel with
  | zero =>
      have h0 : Generate noParams sampleCatalog 0 timeThenCycle = none := rfl
      rw [h0] at h; cases h
  | succ k =>
      rw [Generate_isSome] at h
      have heq := generateDeclList_isSome_eq sampleCatalog k (initialContext timeThenCycle)
        timeThenCycle.ModuleBody.AssignmentList (initialContext timeThenCycle) rfl
      have hcyc := chainEndsWithin_two_cycle (initialContext timeThenCycle) "A" "B" rfl rfl k
      have hfalse : assignmentsEndWithin (initialContext timeThenCycle) k
          timeThenCycle.ModuleBody.AssignmentList = false := by
        have hl : timeThenCycle.ModuleBody.AssignmentList
            = [Assignment.TypeAssignment
                ⟨"MyTimeType", some (Typ.TypeReference "GeneralizedTime"), ""⟩,
               Assignment.TypeAssignment ⟨"A", some (Typ.TypeReference "B"), ""⟩,
               Assignment.TypeAssignment ⟨"B", some (Typ.TypeReference "A"), ""⟩] := rfl
        rw [hl]
        simp only [assignmentsEndWithin, typeEndsWithin, referencesEndWithin, hcyc.1, hcyc.2,
          Bool.and_false, Bool.false_and]
      rw [hfalse] at heq
      have h2 : (generateDeclarations sampleCatalog (k + 1) (initialContext timeThenCycle)
          timeThenCycle).isSome = false := heq
      rw [h2] at h; cases h

/-! ## C18: bit strings -/

/-- Translating a type is translating its core, in field position when the
type is wrapped. -/
theorem generateTypeBody_core (cat : Catalog) (fuel : Nat) :
    ∀ (t : Typ) (noStar : Bool) (ctx : moduleContext),
      ∃ flag, generateTypeBody cat fuel t noStar ctx
        = generateTypeBody cat fuel (removeWrapperTypes t) flag ctx
  | Typ.TaggedType _ t _, _, ctx => by
      rw [removeWrapperTypes, generateTypeBody]
      exact generateTypeBody_core cat fuel t false ctx
  | Typ.ConstraintedType t _, _, ctx => by
      rw [removeWrapperTypes, generateTypeBody]
      exact generateTypeBody_core cat fuel t false ctx
  | Typ.TypeReference _, noStar, _ => ⟨noStar, rfl⟩
  | Typ.BooleanType, noStar, _ => ⟨noStar, rfl⟩
  | Typ.IntegerType, noStar, _ => ⟨noStar, rfl⟩
  | Typ.CharacterStringType, noStar, _ => ⟨noStar, rfl⟩
  | Typ.RealType, noStar, _ => ⟨noStar, rfl⟩
  | Typ.OctetStringType, noStar, _ => ⟨noStar, rfl⟩
  | Typ.ChoiceType _, noStar, _ => ⟨noStar, rfl⟩
  | Typ.SequenceType _, noStar, _ => ⟨noStar, rfl⟩
  | Typ.SetType _, noStar, _ => ⟨noStar, rfl⟩
  | Typ.SetOfType _, noStar, _ => ⟨noStar, rfl⟩
  | Typ.SequenceOfType _, noStar, _ => ⟨noStar, rfl⟩
  | Typ.RestrictedStringType _, noStar, _ => ⟨noStar, rfl⟩
  | Typ.BitStringType, noStar, _ => ⟨noStar, rfl⟩
  | Typ.EnumeratedType _, noStar, _ => ⟨noStar, rfl⟩
  | Typ.IntegerEnumType _, noStar, _ => ⟨noStar, rfl⟩
  | Typ.StringType, noStar, _ => ⟨noStar, rfl⟩
  | Typ.BigInt, noStar, _ => ⟨noStar, rfl⟩
  | Typ.NullType, noStar, _ => ⟨noStar, rfl⟩
  | Typ.ObjectIdentifierType, noStar, _ => ⟨noStar, rfl⟩
  | Typ.Unsupported _, noStar, _ => ⟨noStar, rfl⟩

theorem generateReferenceBody_bitString (cat : Catalog) (fuel : Nat) (ctx : moduleContext)
    (reference : String) (noStar : Bool) (leaf : TypeAssignment)
    (hleaf : unwrapToLeafType ctx fuel reference = some leaf)
    (hbits : leaf.type.map removeWrapperTypes = some Typ.BitStringType)
    (hG : leaf.TypeReference ≠ cat.GeneralizedTimeName)
    (hU : leaf.TypeReference ≠ cat.UTCTimeName) :
    generateReferenceBody cat fuel reference noStar ctx
      = some (GoExpr.Ident "asn1.BitString", ctx.requireModule "encoding/asn1") := by
  have hty : leaf.type.isSome = true := by
    cases ht : leaf.type with
    | none => rw [ht] at hbits; cases hbits
    | some t => rfl
  have hname : (decide (leaf.TypeReference = cat.GeneralizedTimeName)
      || decide (leaf.TypeReference = cat.UTCTimeName)) = false := by
    simp [hG, hU]
  have hres : resolveTypeReference cat fuel ctx reference = some (some leaf, ctx) := by
    simp only [resolveTypeReference, hleaf, hty, if_true]
  simp only [generateReferenceBody, hres, generateSpecialCase, hname, Bool.false_eq_true,
    if_false, hbits]

theorem commentFromType_bitString (ctx : moduleContext) (n : Nat) (t : Typ)
    (typeName : String) (h : endsAtBitString ctx n t = true) :
    commentFromType (some t) typeName = none := by
  cases t <;> first
    | rfl
    | simp [endsAtBitString, removeWrapperTypes] at h

theorem generateTypeBody_bitString (cat : Catalog) (n : Nat) (ctx0 : moduleContext)
    (t : Typ) (noStar : Bool) (c : moduleContext)
    (hc : c.lookupContext = ctx0.lookupContext) (h : endsAtBitString ctx0 n t = true)
    (ht : endsAtTimeName cat ctx0 n t = false) :
    generateTypeBody cat (n + 1) t noStar c
      = some (GoExpr.Ident "asn1.BitString", c.requireModule "encoding/asn1") := by
  obtain ⟨flag, hflag⟩ := generateTypeBody_core cat (n + 1) t noStar c
  rw [hflag]
  unfold endsAtBitString at h
  unfold endsAtTimeName at ht
  cases hcore : removeWrapperTypes t <;> simp only [hcore] at h <;>
    first
    | cases h
    | skip
  · rename_i reference
    cases hch : chainEnd ctx0 n reference with
    | none => simp [hch] at h
    | some last =>
        simp only [hch] at h
        simp only [hcore, hch, Bool.or_eq_false_iff, decide_eq_false_iff_not] at ht
        cases hg : GetType ctx0.lookupContext.AssignmentList last with
        | none => simp [hg] at h
        | some definition =>
            simp only [hg] at h
            have hbits : definition.type.map removeWrapperTypes = some Typ.BitStringType := by
              cases hd : definition.type.map removeWrapperTypes with
              | none => simp [hd] at h
              | some core => cases core <;> first | rfl | simp [hd] at h
            obtain ⟨leaf, h1, h2, h3⟩ := unwrapToLeafType_of_chainEnd ctx0 n reference last hch
            have hleaf : leaf = definition := by
              rcases h3 with h3 | ⟨h3, -⟩
              · rw [hg] at h3; exact (Option.some.inj h3).symm
              · rw [hg] at h3; cases h3
            subst hleaf
            rw [generateTypeBody]
            refine generateReferenceBody_bitString cat (n + 1) c reference flag leaf
              (by rw [unwrapToLeafType_congr c ctx0 hc]; exact h1) hbits ?_ ?_
            · intro e; exact ht.1 (h2.symm.trans e)
            · intro e; exact ht.2 (h2.symm.trans e)
  · rw [generateTypeBody]

theorem bitStringModule_chains (name : String) :
    chainEndsWithin (initialContext bitStringModule) 1 name = true := by
  by_cases h1 : name = "MyBitStringType"
  · subst h1; rfl
  · by_cases h2 : name = "MyNestedBitStringType"
    · subst h2; rfl
    · by_cases h3 : name = "MySequence"
      · subst h3; rfl
      · have hg : GetType (initialContext bitStringModule).lookupContext.AssignmentList name
            = none := by
          simp [initialContext, bitStringModule, testModule, GetType, Ne.symm h1, Ne.symm h2,
            Ne.symm h3]
        simp [chainEndsWithin, nextReference, hg]

/-- C18 (as amended): every type that, stripped of its tag and constraint
wrappers, is a BitString or a reference whose chain of local definitions ends
at a BitString definition whose name is neither of the two time names of the
catalog translates, in every position, to the shape `asn1.BitString` (no
pointer, no named alias) and requires `encoding/asn1`; so does the declaration
of such a type; the walk of the module returns exactly when every type
reference it visits has a chain that ends; and whenever it returns, the
declaration is among its declarations and `encoding/asn1` is among the emitted
dependencies exactly once. -/
theorem bitString_shapes (cat : Catalog) (n : Nat) (module : ModuleDefinition)
    (name : String) (t : Typ) (owner : String)
    (hmem : Assignment.TypeAssignment ⟨name, some t, owner⟩ ∈ module.ModuleBody.AssignmentList)
    (hbits : endsAtBitString (initialContext module) n t = true)
    (hnotime : endsAtTimeName cat (initialContext module) n t = false) :
    (∀ (u : Typ) (noStar : Bool) (c : moduleContext),
        c.lookupContext = module.ModuleBody →
          endsAtBitString (initialContext module) n u = true →
            endsAtTimeName cat (initialContext module) n u = false →
              generateTypeBody cat (n + 1) u noStar c
                = some (GoExpr.Ident "asn1.BitString", c.requireModule "encoding/asn1"))
    ∧ (∀ (noStar : Bool) (c : moduleContext),
        generateTypeBody cat (n + 1) Typ.BitStringType noStar c
          = some (GoExpr.Ident "asn1.BitString", c.requireModule "encoding/asn1"))
    ∧ (∀ c : moduleContext, c.lookupContext = module.ModuleBody →
        generateDecl cat (n + 1) c (Assignment.TypeAssignment ⟨name, some t, owner⟩)
          = some (GoDecl.typeDecl (goifyName name) (GoExpr.Ident "asn1.BitString") none,
              c.requireModule "encoding/asn1"))
    ∧ (generateDeclarations cat (n + 1) (initialContext module) module).isSome
        = assignmentsEndWithin (initialContext module) n module.ModuleBody.AssignmentList
    ∧ (∀ decls ctx,
        generateDeclarations cat (n + 1) (initialContext module) module = some (decls, ctx) →
          GoDecl.typeDecl (goifyName name) (GoExpr.Ident "asn1.BitString") none ∈ decls
          ∧ ctx.requiredModules.count "encoding/asn1" = 1
          ∧ (requireImports ctx module.ModuleBody.Imports).requiredModules.count
              "encoding/asn1" = 1) := by
  have hshape : ∀ (u : Typ) (noStar : Bool) (c : moduleContext),
      c.lookupContext = module.ModuleBody →
        endsAtBitString (initialContext module) n u = true →
          endsAtTimeName cat (initialContext module) n u = false →
            generateTypeBody cat (n + 1) u noStar c
              = some (GoExpr.Ident "asn1.BitString", c.requireModule "encoding/asn1") :=
    fun u noStar c hc hu hv =>
      generateTypeBody_bitString cat n (initialContext module) u noStar c hc hu hv
  have hdecl : ∀ c : moduleContext, c.lookupContext = module.ModuleBody →
      generateDecl cat (n + 1) c (Assignment.TypeAssignment ⟨name, some t, owner⟩)
        = some (GoDecl.typeDecl (goifyName name) (GoExpr.Ident "asn1.BitString") none,
            c.requireModule "encoding/asn1") := by
    intro c hc
    simp only [generateDecl, generateTypeDecl, generateTypeBodyOpt,
      hshape t true c hc hbits hnotime,
      commentFromType_bitString (initialContext module) n t name hbits]
  refine ⟨hshape, fun noStar c => by rw [generateTypeBody], hdecl,
    generateDeclList_isSome_eq cat n (initialContext module) _ _ rfl, ?_⟩
  intro decls ctx hwalk
  have hwalk2 : generateDeclList cat (n + 1) module.ModuleBody.AssignmentList
      (initialContext module) = some (decls, ctx) := hwalk
  obtain ⟨decl, c1, c2, hm, hext1, hgen, hext2⟩ :=
    generateDeclList_mem cat (n + 1) _ _ decls ctx hwalk2 _ hmem
  have hc1 : c1.lookupContext = module.ModuleBody := hext1.1
  rw [hdecl c1 hc1] at hgen
  simp only [Option.some.injEq, Prod.mk.injEq] at hgen
  obtain ⟨hd, hc2⟩ := hgen
  have hnd1 : c1.requiredModules.Nodup := hext1.2.2.2.2.2 List.nodup_nil
  have hext3 : (c1.requireModule "encoding/asn1").Extends ctx := by rw [hc2]; exact hext2
  exact ⟨by rw [hd]; exact hm,
    requireModule_count c1 ctx "encoding/asn1" hnd1 hext3,
    requireModule_count c1 _ "encoding/asn1" hnd1
      (Extends.trans hext3 (by rw [requireImports_eq]; exact foldl_requireModule_extends _ _))⟩

/-- Witness of C18: the module of `TestBitString`: a constrained bit string,
a reference to it, and a sequence with three fields of these types; the file
has one import and every shape is `asn1.BitString`. -/
theorem bitString_shapes_witness :
    endsAtBitString (initialContext bitStringModule) 1
        (Typ.TypeReference "MyBitStringType") = true
    ∧ Generate noParams sampleCatalog 2 bitStringModule
        = some (GenerateResult.printed ⟨"MyASN1ModuleName",
            [GoDecl.importDecl "\"encoding/asn1\"",
             GoDecl.typeDecl "MyBitStringType" (GoExpr.Ident "asn1.BitString") none,
             GoDecl.typeDecl "MyNestedBitStringType" (GoExpr.Ident "asn1.BitString") none,
             GoDecl.typeDecl "MySequence"
               (GoExpr.StructType
                 [GoField.mk "MyNestedBitStringField" (GoExpr.Ident "asn1.BitString")
                    "`xml:\"myNestedBitStringField\" json:\"myNestedBitStringField,omitempty\"`"
                    none,
                  GoField.mk "MyBitStringField" (GoExpr.Ident "asn1.BitString")
                    "`xml:\"myBitStringField\" json:\"myBitStringField,omitempty\"`" none,
                  GoField.mk "BitStringField" (GoExpr.Ident "asn1.BitString")
                    "`xml:\"bitStringField\" json:\"bitStringField\"`" none])
               none]⟩)
    ∧ ∃ decls ctx,
        generateDeclarations sampleCatalog 2 (initialContext bitStringModule) bitStringModule
            = some (decls, ctx)
        ∧ GoDecl.typeDecl (goifyName "MyNestedBitStringType") (GoExpr.Ident "asn1.BitString")
            none ∈ decls
        ∧ ctx.requiredModules.count "encoding/asn1" = 1 := by
  refine ⟨rfl, rfl, ?_⟩
  obtain ⟨decls, ctx, hwalk⟩ := walk_returns sampleCatalog 1 bitStringModule
    bitStringModule_chains
  have h := (bitString_shapes sampleCatalog 1 bitStringModule "MyNestedBitStringType"
    (Typ.TypeReference "MyBitStringType") ""
    (by simp [bitStringModule, testModule]) rfl rfl).2.2.2.2 decls ctx hwalk
  exact ⟨decls, ctx, hwalk, h.1, h.2.1⟩

/-- Counterexample to C18 as stated: in the module
`GeneralizedTime ::= BIT STRING`, `MyBits ::= GeneralizedTime` the reference
`GeneralizedTime` ends at a BitString definition, yet it translates to
`time.Time` and requires `time`, because the test of the time names comes
first; and on the module `MyBits ::= BIT STRING`, `A ::= B`, `B ::= A`
`Generate` returns nothing, whatever the recursion depth allowed, so no
dependency is emitted. -/
theorem bitString_named_time_or_beside_cycle :
    endsAtBitString (initialContext timeNamedBitString) 1
        (Typ.TypeReference "GeneralizedTime") = true
    ∧ generateTypeBody sampleCatalog 2 (Typ.TypeReference "GeneralizedTime") true
          (initialContext timeNamedBitString)
        = some (GoExpr.Ident "time.Time",
            (initialContext timeNamedBitString).requireModule "time")
    ∧ Generate noParams sampleCatalog 2 timeNamedBitString
        = some (GenerateResult.printed ⟨"MyASN1ModuleName",
            [GoDecl.importDecl "\"encoding/asn1\"",
             GoDecl.importDecl "\"time\"",
             GoDecl.typeDecl "GeneralizedTime" (GoExpr.Ident "asn1.BitString") none,
             GoDecl.typeDecl "MyBits" (GoExpr.Ident "time.Time") none]⟩)
    ∧ endsAtBitString (initialContext bitStringThenCycle) 1 Typ.BitStringType = true
    ∧ ¬ (∃ fuel : Nat,
          (Generate noParams sampleCatalog fuel bitStringThenCycle).isSome = true) := by
  refine ⟨rfl, rfl, rfl, rfl, ?_⟩
  rintro ⟨fuel, h⟩
  cases fuel with
  | zero =>
      have h0 : Generate noParams sampleCatalog 0 bitStringThenCycle = none := rfl
      rw [h0] at h; cases h
  | succ k =>
      rw [Generate_isSome] at h
      have heq := generateDeclList_isSome_eq sampleCatalog k
        (initialContext bitStringThenCycle)
        bitStringThenCycle.ModuleBody.AssignmentList (initialContext bitStringThenCycle) rfl
      have hcyc := chainEndsWithin_two_cycle (initialContext bitStringThenCycle) "A" "B"
        rfl rfl k
      have hfalse : assignmentsEndWithin (initialContext bitStringThenCycle) k
          bitStringThenCycle.ModuleBody.AssignmentList = false := by
        have hl : bitStringThenCycle.ModuleBody.AssignmentList
            = [Assignment.TypeAssignment ⟨"MyBits", some Typ.BitStringType, ""⟩,
               Assignment.TypeAssignment ⟨"A", some (Typ.TypeReference "B"), ""⟩,
               Assignment.TypeAssignment ⟨"B", some (Typ.TypeReference "A"), ""⟩] := rfl
        rw [hl]
        simp only [assignmentsEndWithin, typeEndsWithin, referencesEndWithin, hcyc.1, hcyc.2,
          Bool.and_false, Bool.false_and]
      rw [hfalse] at heq
      have h2 : (generateDeclarations sampleCatalog (k + 1)
          (initialContext bitStringThenCycle) bitStringThenCycle).isSome = false := heq
      rw [h2] at h; cases h

/-! ## C19: diagnostics of a walk are those of its parts -/

/-- C19: for all assignment lists `xs` and `ys` walked against the same lookup
context, the loop of `generateDeclarations` returns on `xs ++ ys` exactly when
it returns on `xs` and on `ys`, and then its declarations are those of `xs`
followed by those of `ys` and the diagnostics it records are those recorded
for `xs` followed by those recorded for `ys`.  An assignment of an
unrecognized type construct records one diagnostic, gets a declaration with an
absent body, and the rest of the list is walked after it. -/
theorem walk_diagnostics_append (cat : Catalog) (fuel : Nat) (xs ys : List Assignment)
    (ctx ctx2 : moduleContext) (hsame : ctx2.lookupContext = ctx.lookupContext) :
    ((generateDeclList cat fuel (xs ++ ys) ctx).isSome
        = ((generateDeclList cat fuel xs ctx).isSome
            && (generateDeclList cat fuel ys ctx2).isSome))
    ∧ (∀ dxs cx dys cy,
        generateDeclList cat fuel xs ctx = some (dxs, cx) →
        generateDeclList cat fuel ys ctx2 = some (dys, cy) →
          ∃ c, generateDeclList cat fuel (xs ++ ys) ctx = some (dxs ++ dys, c)
            ∧ diagnosticsSince ctx c = diagnosticsSince ctx cx ++ diagnosticsSince ctx2 cy)
    ∧ (∀ (name goSyntax owner : String) (rest : List Assignment),
        generateDeclList cat fuel
            (Assignment.TypeAssignment ⟨name, some (Typ.Unsupported goSyntax), owner⟩ :: rest)
            ctx
          = (generateDeclList cat fuel rest
              (ctx.appendError ("Ignoring unsupported type " ++ goSyntax))).map
              (fun r => (GoDecl.typeDecl (goifyName name) GoExpr.nil none :: r.1, r.2))) := by
  have happ := generateDeclList_append cat fuel xs ys ctx
  have hx := generateDeclList_framed cat fuel ctx.lookupContext xs
  have hy := generateDeclList_framed cat fuel ctx.lookupContext ys
  refine ⟨?_, ?_, ?_⟩
  · rcases hx with hx | ⟨dx, e1, m1, hx⟩
    · rw [happ, hx ctx rfl]; rfl
    · rcases hy with hy | ⟨dy, e2, m2, hy⟩
      · rw [happ, hx ctx rfl, hy ctx2 hsame]
        simp only [Option.some_bind]
        rw [hy _ (record_lookupContext ctx e1 m1)]
        rfl
      · rw [happ, hx ctx rfl, hy ctx2 hsame]
        simp only [Option.some_bind]
        rw [hy _ (record_lookupContext ctx e1 m1)]
        rfl
  · intro dxs cx dys cy h1 h2
    rcases hx with hx | ⟨dx, e1, m1, hx⟩
    · rw [hx ctx rfl] at h1; cases h1
    · rcases hy with hy | ⟨dy, e2, m2, hy⟩
      · rw [hy ctx2 hsame] at h2; cases h2
      · rw [hx ctx rfl] at h1
        rw [hy ctx2 hsame] at h2
        simp only [Option.some.injEq, Prod.mk.injEq] at h1 h2
        obtain ⟨rfl, rfl⟩ := h1
        obtain ⟨rfl, rfl⟩ := h2
        refine ⟨ctx.record (e1 ++ e2) (m1 ++ m2), ?_, ?_⟩
        · rw [happ, hx ctx rfl]
          simp only [Option.some_bind]
          rw [hy _ (record_lookupContext ctx e1 m1), record_record]
          rfl
        · rw [diagnosticsSince_record, diagnosticsSince_record, diagnosticsSince_record]
  · intro name goSyntax owner rest
    rw [generateDeclList]
    simp only [generateDecl, generateTypeDecl, generateTypeBodyOpt, generateTypeBody,
      commentFromType]
    cases generateDeclList cat fuel rest
        (ctx.appendError ("Ignoring unsupported type " ++ goSyntax)) with
    | none => rfl
    | some r => rfl

/-- Witness of C19: one undefined reference, then an unrecognized construct
followed by another undefined reference: three diagnostics, in order. -/
theorem walk_diagnostics_append_witness :
    (initialContext twoUndefined).lookupContext = (initialContext twoUndefined).lookupContext
    ∧ (generateDeclList sampleCatalog 1
          (referenceAssignments [("First", "Missing1")] ++ unsupportedThenUndefined)
          (initialContext twoUndefined)).map (fun r => r.2.errors)
        = some ["Can not resolve TypeReference Missing1",
            "Ignoring unsupported type asn1go.AnyType\x7b\x7d",
            "Can not resolve TypeReference Missing2"]
    ∧ (generateDeclList sampleCatalog 1
          (referenceAssignments [("First", "Missing1")] ++ unsupportedThenUndefined)
          (initialContext twoUndefined)).isSome
        = ((generateDeclList sampleCatalog 1 (referenceAssignments [("First", "Missing1")])
              (initialContext twoUndefined)).isSome
            && (generateDeclList sampleCatalog 1 unsupportedThenUndefined
              (initialContext twoUndefined)).isSome) :=
  ⟨rfl, rfl,
   (walk_diagnostics_append sampleCatalog 1 (referenceAssignments [("First", "Missing1")])
      unsupportedThenUndefined (initialContext twoUndefined) (initialContext twoUndefined)
      rfl).1⟩

/-! ## C20: tag layers whose class number is no literal -/

theorem asn1TypeTags_append (cat : Catalog) (fuel : Nat) (ctx : moduleContext) (t : Typ)
    (components : List String) :
    asn1TypeTags cat fuel ctx t components
      = (asn1TypeTags cat fuel ctx t []).map (fun r => (components ++ r.1, r.2)) := by
  cases t with
  | RestrictedStringType lexType => cases lexType <;> simp [asn1TypeTags]
  | TypeReference tt =>
      simp only [asn1TypeTags]
      cases unwrapToLeafType ctx fuel tt with
      | none => rfl
      | some leaf =>
          simp only
          split
          · simp
          · split <;> simp
  | _ => simp [asn1TypeTags]

theorem tagLayerComponents_of_not_literal (layer : Tag × TagType)
    (h : isLiteralNumber layer.1.ClassNumber = false) :
    ∀ x ∈ tagLayerComponents layer, x = "application" ∨ x = "explicit" := by
  intro x hx
  unfold tagLayerComponents at hx
  cases hc : layer.1.ClassNumber with
  | Number cn => rw [hc] at h; cases h
  | String s =>
      simp only [hc, List.append_nil, List.mem_append] at hx
      rcases hx with hx | hx
      · split at hx <;> simp_all
      · split at hx <;> simp_all
  | ObjectIdentifierValue elems =>
      simp only [hc, List.append_nil, List.mem_append] at hx
      rcases hx with hx | hx
      · split at hx <;> simp_all
      · split at hx <;> simp_all
  | Other s =>
      simp only [hc, List.append_nil, List.mem_append] at hx
      rcases hx with hx | hx
      · split at hx <;> simp_all
      · split at hx <;> simp_all

/-- C20 (as amended): for every field whose core type, when a type reference,
starts a chain that ends within `n` links, `asn1TagFromType` returns a
descriptor; the
diagnostics it records are exactly one per tag layer whose class number is not
a literal `Number`, outermost first, and it requires no module; such a layer
contributes at most the components `application` and `explicit`, no `tag:`
component; the components of the descriptor are those of the flags, of the
tag layers and of the core type, in that order; and when every class number
is a literal `Number` the context is left as it was. -/
theorem asn1TagFromType_tag_layers (cat : Catalog) (n : Nat) (ctx : moduleContext)
    (nt : NamedComponentType)
    (hchain : ∀ tt, removeWrapperTypes nt.NamedType.type = Typ.TypeReference tt →
      chainEndsWithin ctx n tt = true) :
    ∃ lit ctx' core isReference isArray,
      asn1TagFromType cat (n + 1) ctx nt = some (lit, ctx')
      ∧ asn1TypeTags cat (n + 1) ctx (removeWrapperTypes nt.NamedType.type) []
          = some (core, isReference, isArray)
      ∧ lit = tagLiteral
          (xmlTag nt.NamedType.Identifier (nt.IsOptional || isReference || isArray))
          ((if nt.IsOptional then ["optional"] else []) ++ defaultComponents nt.Default
            ++ ((tagLayers nt.NamedType.type).map tagLayerComponents).flatten ++ core)
      ∧ ctx'.errors
          = ctx.errors
            ++ ((tagLayers nt.NamedType.type).filter
                  (fun layer => !isLiteralNumber layer.1.ClassNumber)).map
                (tagLayerDiagnostic cat)
      ∧ ctx'.requiredModules = ctx.requiredModules
      ∧ (∀ layer ∈ tagLayers nt.NamedType.type, isLiteralNumber layer.1.ClassNumber = false →
          tagLayerDiagnostic cat layer ∈ ctx'.errors
          ∧ ∀ x ∈ tagLayerComponents layer, x = "application" ∨ x = "explicit")
      ∧ ((∀ layer ∈ tagLayers nt.NamedType.type, isLiteralNumber layer.1.ClassNumber = true) →
          ctx' = ctx) := by
  have hsome := asn1TypeTags_isSome cat (n + 1) ctx (removeWrapperTypes nt.NamedType.type) []
    (fun tt htt => (unwrapToLeafType_isSome_iff ctx n tt).mpr (hchain tt htt))
  cases hcore : asn1TypeTags cat (n + 1) ctx (removeWrapperTypes nt.NamedType.type) [] with
  | none => rw [hcore] at hsome; cases hsome
  | some p =>
      obtain ⟨core, isReference, isArray⟩ := p
      have heq := asn1TagFromType_eq cat (n + 1) ctx nt
      rw [asn1TypeTags_append, hcore] at heq
      simp only [Option.map_some'] at heq
      refine ⟨_, _, core, isReference, isArray, heq, rfl, rfl, rfl, ?_, ?_, ?_⟩
      · rw [record_requiredModules]
        simp [firstOccurrences]
      · intro layer hl hnot
        refine ⟨?_, tagLayerComponents_of_not_literal layer hnot⟩
        rw [record_errors]
        apply List.mem_append_right
        unfold tagLayerDiagnostics
        exact List.mem_map_of_mem _ (List.mem_filter.mpr ⟨hl, by simp [hnot]⟩)
      · intro hall
        have hnil : tagLayerDiagnostics cat nt.NamedType.type = [] := by
          unfold tagLayerDiagnostics
          rw [List.map_eq_nil_iff, List.filter_eq_nil_iff]
          intro layer hl
          simp [hall layer hl]
        rw [hnil, record_nil]

/-- Witness of C20: the field `version [maxVersion] EXPLICIT INTEGER` gets a
descriptor with the component `explicit` alone and one diagnostic. -/
theorem asn1TagFromType_tag_layers_witness :
    (∀ tt, removeWrapperTypes symbolicTagField.NamedType.type = Typ.TypeReference tt →
      chainEndsWithin (initialContext twoUndefined) 0 tt = true)
    ∧ asn1TagFromType sampleCatalog 1 (initialContext twoUndefined) symbolicTagField
        = some ("`xml:\"version\" json:\"version\" asn1:\"explicit\"`",
            (initialContext twoUndefined).appendError "Tag value should be Number, got <value>")
    ∧ ∃ lit ctx',
        asn1TagFromType sampleCatalog 1 (initialContext twoUndefined) symbolicTagField
          = some (lit, ctx')
        ∧ ctx'.errors = ["Tag value should be Number, got <value>"] := by
  refine ⟨fun _ h => (by cases h), rfl, ?_⟩
  obtain ⟨lit, ctx', -, -, -, h1, -, -, h2, -⟩ :=
    asn1TagFromType_tag_layers sampleCatalog 0 (initialContext twoUndefined) symbolicTagField
      (fun _ h => (by cases h))
  exact ⟨lit, ctx', h1, h2.trans rfl⟩

/-- Counterexample to C20 as stated: for the field
`version [maxVersion] EXPLICIT A` in the module `A ::= B`, `B ::= A` the tag
layer is no literal `Number` and the unwrap loop records its diagnostic, but
`asn1TagFromType` returns no descriptor, whatever the recursion depth
allowed. -/
theorem asn1TagFromType_diverges_on_cycle :
    (tagLayers symbolicTagCyclicField.NamedType.type).map
        (fun layer => isLiteralNumber layer.1.ClassNumber) = [false]
    ∧ (asn1Unwrap sampleCatalog symbolicTagCyclicField.NamedType.type []
          (initialContext cyclicModule)).2.2.errors
        = ["Tag value should be Number, got <value>"]
    ∧ ¬ (∃ fuel : Nat,
          (asn1TagFromType sampleCatalog fuel (initialContext cyclicModule)
            symbolicTagCyclicField).isSome = true) := by
  refine ⟨rfl, rfl, ?_⟩
  rintro ⟨fuel, h⟩
  have hu := (unwrapToLeafType_two_cycle (initialContext cyclicModule) "A" "B" rfl rfl fuel).1
  have hcore : removeWrapperTypes symbolicTagCyclicField.NamedType.type
      = Typ.TypeReference "A" := rfl
  rw [asn1TagFromType_eq, hcore] at h
  simp only [asn1TypeTags, hu] at h
  cases h

/-! ## C21: constants of an object-identifier value -/

theorem generateValueBody_arcs (arcs : List (String × Int)) (hn : arcs ≠ []) :
    generateValueBody (arcValue arcs)
      = (arcs.map (fun arc => goifyName arc.1), arcs.map (fun arc => toString arc.2)) := by
  have hpairs : List.filterMap
      (fun v =>
        match v with
        | ObjectIdElementValue.ObjectIdElement name id => some (goifyName name, toString id)
        | ObjectIdElementValue.Other => none)
      (arcs.map (fun arc => ObjectIdElementValue.ObjectIdElement arc.1 arc.2))
      = arcs.map (fun arc => (goifyName arc.1, toString arc.2)) := by
    induction arcs with
    | nil => rfl
    | cons a rest ih =>
        cases rest with
        | nil => rfl
        | cons b more =>
            rw [List.map_cons, List.filterMap_cons]
            simp only
            rw [ih (List.cons_ne_nil _ _)]
            rfl
  have hlen : 0 < arcs.length := List.length_pos.mpr hn
  unfold generateValueBody arcValue
  simp only [hpairs, List.map_map, List.length_map]
  rw [if_pos hlen]
  rfl

theorem generateValueDecl_eq (cat : Catalog) (fuel : Nat) (ctx : moduleContext)
    (reference : String) (typeDescr : Option Typ) (value : Value) :
    generateValueDecl cat fuel ctx reference typeDescr value
      = (generateTypeBodyOpt cat fuel typeDescr true ctx).map
          (fun r => (GoDecl.constDecl (generateValueBody value).1 r.1
            (commentFromType typeDescr reference) (generateValueBody value).2, r.2)) := by
  unfold generateValueDecl
  cases generateTypeBodyOpt cat fuel typeDescr true ctx with
  | none => rfl
  | some r => rfl

/-- C21: for every value assignment whose value is an object-identifier list
of `n ≥ 1` arc elements, the emitter produces one constant declaration with
exactly `n` names and `n` values, in declared order: the i-th name is
`goifyName` of the i-th arc's symbolic name and the i-th value the decimal
rendering of its numeric id; the type of the group is the translation of the
assignment's type, `int` for OBJECT IDENTIFIER. -/
theorem generateValueDecl_arcs (cat : Catalog) (fuel : Nat) (ctx : moduleContext)
    (reference : String) (typeDescr : Option Typ) (arcs : List (String × Int))
    (hn : arcs ≠ []) :
    generateDecl cat fuel ctx (Assignment.ValueAssignment reference typeDescr (arcValue arcs))
        = (generateTypeBodyOpt cat fuel typeDescr true ctx).map
            (fun r => (GoDecl.constDecl (arcs.map (fun arc => goifyName arc.1)) r.1
              (commentFromType typeDescr reference) (arcs.map (fun arc => toString arc.2)),
              r.2))
    ∧ generateDecl cat fuel ctx
          (Assignment.ValueAssignment reference (some Typ.ObjectIdentifierType) (arcValue arcs))
        = some (GoDecl.constDecl (arcs.map (fun arc => goifyName arc.1)) (GoExpr.Ident "int")
            (some ("/*" ++ goifyName reference ++ ",OID*/"))
            (arcs.map (fun arc => toString arc.2)), ctx)
    ∧ (arcs.map (fun arc => goifyName arc.1)).length = arcs.length
    ∧ (arcs.map (fun arc => toString arc.2)).length = arcs.length := by
  have h1 : ∀ t : Option Typ,
      generateDecl cat fuel ctx (Assignment.ValueAssignment reference t (arcValue arcs))
        = (generateTypeBodyOpt cat fuel t true ctx).map
            (fun r => (GoDecl.constDecl (arcs.map (fun arc => goifyName arc.1)) r.1
              (commentFromType t reference) (arcs.map (fun arc => toString arc.2)), r.2)) := by
    intro t
    rw [generateDecl, generateValueDecl_eq, generateValueBody_arcs arcs hn]
  refine ⟨h1 typeDescr, ?_, List.length_map _ _, List.length_map _ _⟩
  rw [h1]
  rfl

/-- Witness of C21: the arcs `iso(1) member-body(2) us(840)` give the constants
`Iso`, `MemberBody`, `Us` bound to `1`, `2`, `840`. -/
theorem generateValueDecl_arcs_witness :
    [("iso", (1 : Int)), ("member-body", 2), ("us", 840)] ≠ []
    ∧ generateDecl sampleCatalog 0 (initialContext twoUndefined)
          (Assignment.ValueAssignment "id-us" (some Typ.ObjectIdentifierType)
            (arcValue [("iso", 1), ("member-body", 2), ("us", 840)]))
        = some (GoDecl.constDecl ["Iso", "MemberBody", "Us"] (GoExpr.Ident "int")
            (some "/*IdUs,OID*/") ["1", "2", "840"], initialContext twoUndefined) :=
  ⟨by decide,
   (generateValueDecl_arcs sampleCatalog 0 (initialContext twoUndefined) "id-us"
      (some Typ.ObjectIdentifierType) [("iso", 1), ("member-body", 2), ("us", 840)]
      (by decide)).2.1.trans rfl⟩

/-! ## C22: value assignments of other kinds -/

/-- C22 (as amended): for every value assignment whose value is a `Number`, a
`String` or another value that is no object-identifier list, the emitter still
contributes one constant declaration, with no name and no value, whose type is
the translation of the assignment's type; the value itself records nothing:
the diagnostics and required modules are exactly those of translating the
type. -/
theorem generateDecl_other_values (cat : Catalog) (fuel : Nat) (ctx : moduleContext)
    (reference : String) (typeDescr : Option Typ) :
    (∀ number : Int,
        generateDecl cat fuel ctx
            (Assignment.ValueAssignment reference typeDescr (Value.Number number))
          = (generateTypeBodyOpt cat fuel typeDescr true ctx).map
              (fun r => (GoDecl.constDecl [] r.1 (commentFromType typeDescr reference) [],
                r.2)))
    ∧ (∀ text : String,
        generateDecl cat fuel ctx
            (Assignment.ValueAssignment reference typeDescr (Value.String text))
          = (generateTypeBodyOpt cat fuel typeDescr true ctx).map
              (fun r => (GoDecl.constDecl [] r.1 (commentFromType typeDescr reference) [],
                r.2)))
    ∧ (∀ goSyntax : String,
        generateDecl cat fuel ctx
            (Assignment.ValueAssignment reference typeDescr (Value.Other goSyntax))
          = (generateTypeBodyOpt cat fuel typeDescr true ctx).map
              (fun r => (GoDecl.constDecl [] r.1 (commentFromType typeDescr reference) [],
                r.2)))
    ∧ (∀ (value : Value) (rest : List Assignment),
        generateDeclList cat fuel
            (Assignment.ValueAssignment reference typeDescr value :: rest) ctx
          = (generateDecl cat fuel ctx
              (Assignment.ValueAssignment reference typeDescr value)).bind
              (fun p => (generateDeclList cat fuel rest p.2).bind
                (fun q => some (p.1 :: q.1, q.2)))) :=
  ⟨fun _ => by rw [generateDecl, generateValueDecl_eq]; rfl,
   fun _ => by rw [generateDecl, generateValueDecl_eq]; rfl,
   fun _ => by rw [generateDecl, generateValueDecl_eq]; rfl,
   fun _ rest => generateDeclList_cons cat fuel _ rest ctx⟩

/-- Counterexample to C22 as stated: the module with the one assignment
`maxValue INTEGER ::= 5` is emitted with one declaration, a constant group with
no name; and the module with the one assignment `limit Missing ::= 5` records a
diagnostic and fails. -/
theorem Generate_keeps_value_declaration :
    Generate noParams sampleCatalog 0 numberValueModule
        = some (GenerateResult.printed ⟨"MyASN1ModuleName",
            [GoDecl.constDecl [] (GoExpr.Ident "int64") none []]⟩)
    ∧ [GoDecl.constDecl [] (GoExpr.Ident "int64") none []].length = 1
    ∧ Generate noParams sampleCatalog 1 undefinedValueTypeModule
        = some (GenerateResult.error
            "Errors generating Go AST from module: \n  Can not resolve TypeReference Missing\n") :=
  ⟨rfl, rfl, rfl⟩

/-! ## C23: documentation strings -/

/-- C23: for every Enumerated or IntegerEnum type the documentation string is
`//`, the normalised type name, the kind marker (`EnumList:` for Enumerated,
`IntegerEnum:` for IntegerEnum) and the entries `name(index)` of the items,
comma-separated, one per item in declared order; it is the comment of the
declaration of the type; and a type gets a documentation string exactly when
it is an ObjectIdentifier, a Null, a Choice or one of the two enumeration
kinds. -/
theorem commentFromType_enums :
    (∀ (enums : List EnumItem) (typeName : String),
        commentFromType (some (Typ.EnumeratedType enums)) typeName
          = some ("//" ++ goifyName typeName ++ ",EnumList:"
              ++ ",".intercalate (enums.map enumEntry) ++ "\n"))
    ∧ (∀ (enums : List EnumItem) (typeName : String),
        commentFromType (some (Typ.IntegerEnumType enums)) typeName
          = some ("//" ++ goifyName typeName ++ ",IntegerEnum:"
              ++ ",".intercalate (enums.map enumEntry) ++ "\n"))
    ∧ (∀ (enums : List EnumItem), (enums.map enumEntry).length = enums.length)
    ∧ (∀ (t : Typ) (typeName : String),
        (commentFromType (some t) typeName).isSome = isDocumentedKind t)
    ∧ (∀ typeName : String, commentFromType none typeName = none)
    ∧ (∀ (cat : Catalog) (fuel : Nat) (ctx : moduleContext) (enums : List EnumItem)
        (reference : String),
        generateTypeDecl cat fuel ctx reference (some (Typ.EnumeratedType enums))
            = some (GoDecl.typeDecl (goifyName reference) (GoExpr.Ident "string")
                (some ("//" ++ goifyName reference ++ ",EnumList:"
                  ++ ",".intercalate (enums.map enumEntry) ++ "\n")), ctx)
        ∧ generateTypeDecl cat fuel ctx reference (some (Typ.IntegerEnumType enums))
            = some (GoDecl.typeDecl (goifyName reference) (GoExpr.Ident "int")
                (some ("//" ++ goifyName reference ++ ",IntegerEnum:"
                  ++ ",".intercalate (enums.map enumEntry) ++ "\n")), ctx))
    ∧ commentFromType (some (Typ.EnumeratedType [⟨"red", 0⟩, ⟨"green", 1⟩, ⟨"blue", 2⟩]))
          "colour-kind"
        = some "//ColourKind,EnumList:red(0),green(1),blue(2)\n" := by
  refine ⟨fun _ _ => rfl, fun _ _ => rfl, fun _ => List.length_map _ _, ?_, fun _ => rfl,
    fun _ _ _ _ _ => ⟨rfl, rfl⟩, rfl⟩
  intro t typeName
  cases t <;> rfl

/-! ## C24: order of the metadata components -/

theorem defaultComponents_sublist (dflt : Option Value) :
    ∃ d, List.Sublist (defaultComponents dflt) ["default:" ++ d] := by
  cases dflt with
  | none => exact ⟨"", List.nil_sublist _⟩
  | some v =>
      cases v with
      | Number k => exact ⟨toString k, List.Sublist.refl _⟩
      | String s => exact ⟨s, List.Sublist.refl _⟩
      | ObjectIdentifierValue elems => exact ⟨"", List.nil_sublist _⟩
      | Other s => exact ⟨"", List.nil_sublist _⟩

theorem tagLayerComponents_sublist (layer : Tag × TagType) :
    ∃ k, List.Sublist (tagLayerComponents layer) ["application", "explicit", "tag:" ++ k] := by
  have hA : List.Sublist
      (if layer.1.Class = TagClass.CLASS_APPLICATION then ["application"] else [])
      ["application"] := by
    split
    · exact List.Sublist.refl _
    · exact List.nil_sublist _
  have hB : List.Sublist (if layer.2 = TagType.TAGS_EXPLICIT then ["explicit"] else [])
      ["explicit"] := by
    split
    · exact List.Sublist.refl _
    · exact List.nil_sublist _
  unfold tagLayerComponents
  cases layer.1.ClassNumber with
  | Number cn =>
      exact ⟨toString cn, (hA.append hB).append (List.Sublist.refl _)⟩
  | String s => exact ⟨"", (hA.append hB).append (List.nil_sublist _)⟩
  | ObjectIdentifierValue elems => exact ⟨"", (hA.append hB).append (List.nil_sublist _)⟩
  | Other s => exact ⟨"", (hA.append hB).append (List.nil_sublist _)⟩

theorem asn1TypeTags_sublist (cat : Catalog) (fuel : Nat) (ctx : moduleContext) (t : Typ)
    (core : List String) (isReference isArray : Bool)
    (h : asn1TypeTags cat fuel ctx t [] = some (core, isReference, isArray)) :
    ∃ hint, List.Sublist core [hint] := by
  cases t with
  | RestrictedStringType lexType =>
      cases lexType <;>
        (simp only [asn1TypeTags, List.nil_append, Option.some.injEq, Prod.mk.injEq] at h
         obtain ⟨rfl, -⟩ := h
         first
           | exact ⟨_, List.Sublist.refl _⟩
           | exact ⟨"", List.nil_sublist _⟩)
  | TypeReference tt =>
      simp only [asn1TypeTags] at h
      cases hu : unwrapToLeafType ctx fuel tt with
      | none => simp [hu] at h
      | some leaf =>
          simp only [hu, List.nil_append] at h
          split at h
          · simp only [Option.some.injEq, Prod.mk.injEq] at h
            obtain ⟨rfl, -⟩ := h
            exact ⟨_, List.Sublist.refl _⟩
          · split at h
            · simp only [Option.some.injEq, Prod.mk.injEq] at h
              obtain ⟨rfl, -⟩ := h
              exact ⟨_, List.Sublist.refl _⟩
            · simp only [Option.some.injEq, Prod.mk.injEq] at h
              obtain ⟨rfl, -⟩ := h
              exact ⟨"", List.nil_sublist _⟩
  | _ =>
      simp only [asn1TypeTags, Option.some.injEq, Prod.mk.injEq] at h
      obtain ⟨rfl, -⟩ := h
      exact ⟨"", List.nil_sublist _⟩

/-- C24 (as amended): for every field (whose core type, when a type reference,
starts a chain that ends within `n` links) the metadata components of the
descriptor are, in this order: `optional` (at most once), the default (at most
once), then for each tag layer of the type, from the outermost to the
innermost, that layer's `application`, `explicit` and tag-number components
(each at most once for the layer), then the subtype hint (at most once).  When
the type has at most one tag layer the whole list is in the fixed order
optional, default, application, explicit, tag-number, subtype hint, with each
kind at most once. -/
theorem asn1TagFromType_component_order (cat : Catalog) (n : Nat) (ctx : moduleContext)
    (nt : NamedComponentType)
    (hchain : ∀ tt, removeWrapperTypes nt.NamedType.type = Typ.TypeReference tt →
      chainEndsWithin ctx n tt = true) :
    ∃ lit ctx' core isReference isArray,
      asn1TagFromType cat (n + 1) ctx nt = some (lit, ctx')
      ∧ asn1TypeTags cat (n + 1) ctx (removeWrapperTypes nt.NamedType.type) []
          = some (core, isReference, isArray)
      ∧ lit = tagLiteral
          (xmlTag nt.NamedType.Identifier (nt.IsOptional || isReference || isArray))
          ((if nt.IsOptional then ["optional"] else []) ++ defaultComponents nt.Default
            ++ ((tagLayers nt.NamedType.type).map tagLayerComponents).flatten ++ core)
      ∧ List.Sublist (if nt.IsOptional then ["optional"] else []) ["optional"]
      ∧ (∃ d, List.Sublist (defaultComponents nt.Default) ["default:" ++ d])
      ∧ (∀ layer ∈ tagLayers nt.NamedType.type,
          ∃ k, List.Sublist (tagLayerComponents layer)
            ["application", "explicit", "tag:" ++ k])
      ∧ (∃ hint, List.Sublist core [hint])
      ∧ ((tagLayers nt.NamedType.type).length ≤ 1 →
          ∃ d k hint,
            List.Sublist
              ((if nt.IsOptional then ["optional"] else []) ++ defaultComponents nt.Default
                ++ ((tagLayers nt.NamedType.type).map tagLayerComponents).flatten ++ core)
              ["optional", "default:" ++ d, "application", "explicit", "tag:" ++ k,
                hint]) := by
  have hsome := asn1TypeTags_isSome cat (n + 1) ctx (removeWrapperTypes nt.NamedType.type) []
    (fun tt htt => (unwrapToLeafType_isSome_iff ctx n tt).mpr (hchain tt htt))
  cases hcore : asn1TypeTags cat (n + 1) ctx (removeWrapperTypes nt.NamedType.type) [] with
  | none => rw [hcore] at hsome; cases hsome
  | some p =>
      obtain ⟨core, isReference, isArray⟩ := p
      have heq := asn1TagFromType_eq cat (n + 1) ctx nt
      rw [asn1TypeTags_append, hcore] at heq
      simp only [Option.map_some'] at heq
      have hflag : List.Sublist (if nt.IsOptional = true then ["optional"] else [])
          ["optional"] := by
        split
        · exact List.Sublist.refl _
        · exact List.nil_sublist _
      obtain ⟨d, hd⟩ := defaultComponents_sublist nt.Default
      obtain ⟨hint, hh⟩ := asn1TypeTags_sublist cat (n + 1) ctx _ core isReference isArray hcore
      refine ⟨_, _, core, isReference, isArray, heq, rfl, rfl, hflag, ⟨d, hd⟩,
        fun layer _ => tagLayerComponents_sublist layer, ⟨hint, hh⟩, ?_⟩
      intro hlen
      cases hl : tagLayers nt.NamedType.type with
      | nil =>
          refine ⟨d, "", hint, ?_⟩
          have hnil : List.Sublist ([] : List String) ["application", "explicit", "tag:" ++ ""] :=
            List.nil_sublist _
          exact ((hflag.append hd).append hnil).append hh
      | cons layer rest =>
          cases rest with
          | cons l2 more => rw [hl] at hlen; simp at hlen
          | nil =>
              obtain ⟨k, hk⟩ := tagLayerComponents_sublist layer
              refine ⟨d, k, hint, ?_⟩
              simp only [List.map_cons, List.map_nil, List.flatten_cons, List.flatten_nil,
                List.append_nil]
              exact ((hflag.append hd).append hk).append hh

/-- Witness of C24: the field `label [APPLICATION 3] EXPLICIT INTEGER OPTIONAL`
with the default `abc` has one tag layer and the components `optional`,
`default:abc`, `application`, `explicit`, `tag:3`. -/
theorem asn1TagFromType_component_order_witness :
    (∀ tt, removeWrapperTypes taggedField.NamedType.type = Typ.TypeReference tt →
      chainEndsWithin (initialContext twoUndefined) 0 tt = true)
    ∧ asn1TagFromType sampleCatalog 1 (initialContext twoUndefined) taggedField
        = some ("`xml:\"label\" json:\"label,omitempty\" asn1:\"optional,default:abc,application,explicit,tag:3\"`",
            initialContext twoUndefined)
    ∧ ∃ lit ctx',
        asn1TagFromType sampleCatalog 1 (initialContext twoUndefined) taggedField
          = some (lit, ctx') := by
  refine ⟨fun _ h => (by cases h), rfl, ?_⟩
  obtain ⟨lit, ctx', -, -, -, h1, -⟩ :=
    asn1TagFromType_component_order sampleCatalog 0 (initialContext twoUndefined) taggedField
      (fun _ h => (by cases h))
  exact ⟨lit, ctx', h1⟩

/-- Counterexample to C24 as stated: the type of the field
`value [APPLICATION 1] EXPLICIT [2] EXPLICIT INTEGER` has two nested tag
layers, and its components are `application`, `explicit`, `tag:1`, `explicit`,
`tag:2`: `explicit` appears twice, and a tag number comes before it. -/
theorem asn1TagFromType_repeats_layer_components :
    asn1TagFromType sampleCatalog 1 (initialContext twoUndefined) doublyTaggedField
        = some (tagLiteral (xmlTag "value" false)
            ["application", "explicit", "tag:1", "explicit", "tag:2"],
            initialContext twoUndefined)
    ∧ tagLiteral (xmlTag "value" false)
          ["application", "explicit", "tag:1", "explicit", "tag:2"]
        = "`xml:\"value\" json:\"value\" asn1:\"application,explicit,tag:1,explicit,tag:2\"`"
    ∧ ["application", "explicit", "tag:1", "explicit", "tag:2"].count "explicit" = 2
    ∧ ["application", "explicit", "tag:1", "explicit", "tag:2"].count "application" = 1 :=
  ⟨rfl, rfl, by decide, by decide⟩

/-! ## C25: components-of entries -/

theorem generateComponentFields_filter (cat : Catalog) (fuel : Nat) :
    ∀ (components : List ComponentType) (ctx : moduleContext),
      generateComponentFields cat fuel components ctx
        = generateComponentFields cat fuel (components.filter isNamedEntry) ctx
  | [], _ => rfl
  | ComponentType.NamedComponentType f isOptional dflt :: rest, ctx => by
      have hf : List.filter isNamedEntry
          (ComponentType.NamedComponentType f isOptional dflt :: rest)
          = ComponentType.NamedComponentType f isOptional dflt
              :: List.filter isNamedEntry rest := by
        simp [List.filter_cons, isNamedEntry]
      rw [hf, generateComponentFields, generateComponentFields]
      cases generateStructField cat fuel f isOptional dflt ctx with
      | none => rfl
      | some p =>
          simp only
          rw [generateComponentFields_filter cat fuel rest p.2]
  | ComponentType.ComponentsOfComponentType t :: rest, ctx => by
      have hf : List.filter isNamedEntry (ComponentType.ComponentsOfComponentType t :: rest)
          = List.filter isNamedEntry rest := by
        simp [List.filter_cons, isNamedEntry]
      rw [hf, generateComponentFields]
      exact generateComponentFields_filter cat fuel rest ctx

/-- C25 (as amended): for every Sequence or Set that contains a components-of
entry, translation gives that entry no field and records nothing for it: the
result, shape and context alike, is that of the same Sequence or Set with its
components-of entries removed, so the record silently omits the included
fields. -/
theorem generateTypeBody_ignores_componentsOf (cat : Catalog) (fuel : Nat)
    (components : List ComponentType) (noStar : Bool) (ctx : moduleContext) :
    generateTypeBody cat fuel (Typ.SequenceType components) noStar ctx
        = generateTypeBody cat fuel (Typ.SequenceType (components.filter isNamedEntry)) noStar
            ctx
    ∧ generateTypeBody cat fuel (Typ.SetType components) noStar ctx
        = generateTypeBody cat fuel (Typ.SetType (components.filter isNamedEntry)) noStar ctx
    ∧ (∀ (t : Typ) (rest : List ComponentType),
        generateComponentFields cat fuel (ComponentType.ComponentsOfComponentType t :: rest) ctx
          = generateComponentFields cat fuel rest ctx) := by
  refine ⟨?_, ?_, fun t rest => by rw [generateComponentFields]⟩
  · rw [generateTypeBody, generateTypeBody, generateComponentFields_filter]
  · rw [generateTypeBody, generateTypeBody, generateComponentFields_filter]

/-- Counterexample to C25 as stated: the module with
`Extended ::= SEQUENCE { COMPONENTS OF Base, ownField BOOLEAN }` is emitted
without any diagnostic, and the record of `Extended` has the field `OwnField`
alone. -/
theorem Generate_omits_componentsOf :
    Generate noParams sampleCatalog 1 componentsOfModule
        = some (GenerateResult.printed ⟨"MyASN1ModuleName",
            [GoDecl.typeDecl "Base"
               (GoExpr.StructType
                 [GoField.mk "BaseField" (GoExpr.Ident "int64")
                    "`xml:\"baseField\" json:\"baseField\"`" none])
               none,
             GoDecl.typeDecl "Extended"
               (GoExpr.StructType
                 [GoField.mk "OwnField" (GoExpr.Ident "bool")
                    "`xml:\"ownField\" json:\"ownField\"`" none])
               none]⟩)
    ∧ (generateDeclarations sampleCatalog 1 (initialContext componentsOfModule)
          componentsOfModule).map (fun r => r.2.errors)
        = some [] :=
  ⟨rfl, rfl⟩

/-! ## C26: what unwrapping returns on a finite chain -/

theorem chainEnd_isSome_of_chainEndsWithin (ctx : moduleContext) :
    ∀ (n : Nat) (name : String), chainEndsWithin ctx n name = true →
      ∃ last, chainEnd ctx n name = some last ∧ nextReference ctx last = none := by
  intro n
  induction n with
  | zero =>
      intro name h
      unfold chainEndsWithin at h
      cases hn : nextReference ctx name with
      | some tt => simp [hn] at h
      | none => exact ⟨name, by simp [chainEnd, hn], hn⟩
  | succ k ih =>
      intro name h
      rw [chainEndsWithin] at h
      cases hn : nextReference ctx name with
      | none => exact ⟨name, by simp [chainEnd, hn], hn⟩
      | some tt =>
          simp only [hn] at h
          obtain ⟨last, h1, h2⟩ := ih tt h
          exact ⟨last, by rw [chainEnd]; simp only [hn]; exact h1, h2⟩

theorem unwrapToLeafType_mono (ctx : moduleContext) :
    ∀ (fuel : Nat) (reference : String) (leaf : TypeAssignment),
      unwrapToLeafType ctx fuel reference = some leaf →
        unwrapToLeafType ctx (fuel + 1) reference = some leaf := by
  intro fuel
  induction fuel with
  | zero => intro reference leaf h; simp [unwrapToLeafType] at h
  | succ k ih =>
      intro reference leaf h
      rw [unwrapToLeafType_succ] at h ⊢
      cases hn : nextReference ctx reference with
      | none => simpa [hn] using h
      | some tt =>
          simp only [hn] at h ⊢
          exact ih tt leaf h

theorem unwrapToLeafType_mono_le (ctx : moduleContext) (fuel : Nat) (reference : String)
    (leaf : TypeAssignment) (h : unwrapToLeafType ctx fuel reference = some leaf) :
    ∀ more : Nat, unwrapToLeafType ctx (fuel + more) reference = some leaf := by
  intro more
  induction more with
  | zero => exact h
  | succ k ih => exact unwrapToLeafType_mono ctx (fuel + k) reference leaf ih

theorem not_reference_of_nextReference_none (ctx : moduleContext) (name : String)
    (leaf : TypeAssignment) (hn : nextReference ctx name = none)
    (hg : GetType ctx.lookupContext.AssignmentList name = some leaf) :
    ∀ tt, leaf.type.map removeWrapperTypes ≠ some (Typ.TypeReference tt) := by
  intro tt h
  unfold nextReference at hn
  rw [hg] at hn
  simp only [h] at hn
  cases hn

/-- C26: for every context and every reference whose chain of local
definitions ends within `n` links, `unwrapToLeafType` returns at recursion
depth `n + 1` and at every greater depth, and what it returns is either the
local assignment of the last name of the chain, whose type stripped of its tag
and constraint wrappers is no type reference, or, when the last name has no
local assignment, that name with an absent type and an empty module.  It reads
the lookup context only: the diagnostics and required modules of the context
play no part and it returns no new context. -/
theorem unwrapToLeafType_finite_chain (ctx : moduleContext) (n : Nat) (reference : String)
    (hchain : chainEndsWithin ctx n reference = true) :
    ∃ last leaf,
      chainEnd ctx n reference = some last
      ∧ unwrapToLeafType ctx (n + 1) reference = some leaf
      ∧ (∀ more : Nat, unwrapToLeafType ctx (n + 1 + more) reference = some leaf)
      ∧ leaf.TypeReference = last
      ∧ ((GetType ctx.lookupContext.AssignmentList last = some leaf
            ∧ ∀ tt, leaf.type.map removeWrapperTypes ≠ some (Typ.TypeReference tt))
          ∨ (GetType ctx.lookupContext.AssignmentList last = none
              ∧ leaf = ⟨last, none, ""⟩))
      ∧ (∀ c : moduleContext, c.lookupContext = ctx.lookupContext →
          unwrapToLeafType c (n + 1) reference = some leaf) := by
  obtain ⟨last, hend, hnext⟩ := chainEnd_isSome_of_chainEndsWithin ctx n reference hchain
  obtain ⟨leaf, h1, h2, h3⟩ := unwrapToLeafType_of_chainEnd ctx n reference last hend
  refine ⟨last, leaf, hend, h1, unwrapToLeafType_mono_le ctx (n + 1) reference leaf h1, h2, ?_,
    fun c hc => by rw [unwrapToLeafType_congr c ctx hc]; exact h1⟩
  rcases h3 with h3 | h3
  · exact Or.inl ⟨h3, not_reference_of_nextReference_none ctx last leaf hnext h3⟩
  · exact Or.inr h3

/-- Witness of C26: in the module of `TestBitString` the chain of
`MyNestedBitStringType` ends at `MyBitStringType`, whose assignment is
returned. -/
theorem unwrapToLeafType_finite_chain_witness :
    chainEndsWithin (initialContext bitStringModule) 1 "MyNestedBitStringType" = true
    ∧ unwrapToLeafType (initialContext bitStringModule) 2 "MyNestedBitStringType"
        = some ⟨"MyBitStringType",
            some (Typ.ConstraintedType Typ.BitStringType ⟨"SIZE (32..MAX)"⟩), ""⟩
    ∧ unwrapToLeafType (initialContext chainModule) 2 "A" = some ⟨"B", none, ""⟩
    ∧ ∃ last leaf,
        chainEnd (initialContext bitStringModule) 1 "MyNestedBitStringType" = some last
        ∧ unwrapToLeafType (initialContext bitStringModule) 2 "MyNestedBitStringType"
            = some leaf
        ∧ leaf.TypeReference = last := by
  refine ⟨rfl, rfl, rfl, ?_⟩
  obtain ⟨last, leaf, h1, h2, -, h3, -⟩ :=
    unwrapToLeafType_finite_chain (initialContext bitStringModule) 1 "MyNestedBitStringType"
      rfl
  exact ⟨last, leaf, h1, h2, h3⟩

/-! ## C27: the identifier of a type reference -/

theorem generateSpecialCase_none (cat : Catalog) (ctx : moduleContext) (leaf : TypeAssignment)
    (h : isSpecialCase cat leaf = false) :
    generateSpecialCase cat ctx leaf = (none, ctx) := by
  unfold isSpecialCase at h
  simp only [Bool.or_eq_false_iff] at h
  obtain ⟨⟨h1, h2⟩, h3⟩ := h
  have hname : (decide (leaf.TypeReference = cat.GeneralizedTimeName)
      || decide (leaf.TypeReference = cat.UTCTimeName)) = false := by
    rw [h1, h2]; rfl
  unfold generateSpecialCase
  simp only [hname, Bool.false_eq_true, if_false]
  cases ht : leaf.type.map removeWrapperTypes with
  | none => rfl
  | some t =>
      rw [ht] at h3
      cases t <;> first | rfl | simp at h3

theorem generateReferenceBody_identifier (cat : Catalog) (fuel : Nat) (ctx : moduleContext)
    (name : String) (noStar : Bool) (res : Option TypeAssignment) (ctx1 : moduleContext)
    (hres : resolveTypeReference cat fuel ctx name = some (res, ctx1))
    (hplain : ∀ leaf, res = some leaf → isSpecialCase cat leaf = false) :
    generateReferenceBody cat fuel name noStar ctx
      = some (GoExpr.Ident (pointerPrefix noStar ++ ownerQualifier res ++ goifyName name),
          ctx1) := by
  cases res with
  | none =>
      simp only [generateReferenceBody, hres, pointerPrefix, ownerQualifier,
        String.append_empty]
  | some leaf =>
      have hs := generateSpecialCase_none cat ctx1 leaf (hplain leaf rfl)
      simp only [generateReferenceBody, hres, hs, pointerPrefix, ownerQualifier]
      by_cases hm : leaf.Module = ""
      · simp [hm]
      · simp [hm, String.append_assoc]

/-- C27 (as amended): for every type reference whose chain of local definitions
ends within `n` links, resolution returns, and when the reference is not a special case
(time or bit string) `generateTypeBody` returns the identifier
`p ++ q ++ goifyName name`, where `name` is the reference as written at the
use site, `p` is empty when `noStar` holds and `*` otherwise, and `q` is
`goifyName M ++ "."` when the reference resolves to a leaf with non-empty
owning module `M` and empty otherwise, also when it does not resolve; the name
of the leaf does not occur in it.  `noStar` holds for a declaration body and
for the element of a SequenceOf or SetOf; it does not hold for a record field
nor underneath a TaggedType or ConstraintedType wrapper. -/
theorem generateTypeBody_reference_identifier (cat : Catalog) (n : Nat) (ctx : moduleContext)
    (name : String) (hchain : chainEndsWithin ctx n name = true) :
    (∃ res ctx1,
        resolveTypeReference cat (n + 1) ctx name = some (res, ctx1)
        ∧ ((∀ leaf, res = some leaf → isSpecialCase cat leaf = false) →
            ∀ noStar : Bool,
              generateTypeBody cat (n + 1) (Typ.TypeReference name) noStar ctx
                = some (GoExpr.Ident
                    (pointerPrefix noStar ++ ownerQualifier res ++ goifyName name), ctx1)))
    ∧ pointerPrefix true = "" ∧ pointerPrefix false = "*"
    ∧ (∀ (fuel : Nat) (reference : String),
        generateTypeDecl cat fuel ctx reference (some (Typ.TypeReference name))
          = (generateTypeBody cat fuel (Typ.TypeReference name) true ctx).map
              (fun r => (GoDecl.typeDecl (goifyName reference) r.1 none, r.2)))
    ∧ (∀ (fuel : Nat) (noStar : Bool),
        generateTypeBody cat fuel (Typ.SequenceOfType (Typ.TypeReference name)) noStar ctx
            = (generateTypeBody cat fuel (Typ.TypeReference name) true ctx).map
                (fun r => (GoExpr.ArrayType r.1, r.2))
        ∧ generateTypeBody cat fuel (Typ.SetOfType (Typ.TypeReference name)) noStar ctx
            = (generateTypeBody cat fuel (Typ.TypeReference name) true ctx).map
                (fun r => (GoExpr.ArrayType r.1, r.2)))
    ∧ (∀ (fuel : Nat) (noStar : Bool) (tag : Tag) (tagType : TagType)
        (constraint : Constraint),
        generateTypeBody cat fuel (Typ.TaggedType tag (Typ.TypeReference name) tagType) noStar
              ctx
            = generateTypeBody cat fuel (Typ.TypeReference name) false ctx
        ∧ generateTypeBody cat fuel (Typ.ConstraintedType (Typ.TypeReference name) constraint)
              noStar ctx
            = generateTypeBody cat fuel (Typ.TypeReference name) false ctx)
    ∧ (∀ (fuel : Nat) (identifier : String) (isOptional : Bool) (dflt : Option Value),
        generateStructField cat fuel (NamedType.mk identifier (Typ.TypeReference name))
            isOptional dflt ctx
          = (generateTypeBody cat fuel (Typ.TypeReference name) false ctx).bind
              (fun r =>
                (asn1TagFromType cat fuel r.2
                    ⟨NamedType.mk identifier (Typ.TypeReference name), isOptional, dflt⟩).map
                  (fun q => (GoField.mk (goifyName identifier) r.1 q.1 none, q.2)))) := by
  refine ⟨?_, rfl, rfl, ?_, ?_, ?_, ?_⟩
  · have hsome : (resolveTypeReference cat (n + 1) ctx name).isSome = true := by
      rw [resolveTypeReference_isSome]
      exact (unwrapToLeafType_isSome_iff ctx n name).mpr hchain
    cases hres : resolveTypeReference cat (n + 1) ctx name with
    | none => rw [hres] at hsome; cases hsome
    | some p =>
        obtain ⟨res, ctx1⟩ := p
        refine ⟨res, ctx1, rfl, fun hplain noStar => ?_⟩
        rw [generateTypeBody]
        exact generateReferenceBody_identifier cat (n + 1) ctx name noStar res ctx1 hres hplain
  · intro fuel reference
    simp only [generateTypeDecl, generateTypeBodyOpt, commentFromType]
    cases generateTypeBody cat fuel (Typ.TypeReference name) true ctx with
    | none => rfl
    | some r => rfl
  · intro fuel noStar
    constructor
    · rw [generateTypeBody]
      cases generateTypeBody cat fuel (Typ.TypeReference name) true ctx with
      | none => rfl
      | some r => rfl
    · rw [generateTypeBody]
      cases generateTypeBody cat fuel (Typ.TypeReference name) true ctx with
      | none => rfl
      | some r => rfl
  · intro fuel noStar tag tagType constraint
    exact ⟨by rw [generateTypeBody], by rw [generateTypeBody]⟩
  · intro fuel identifier isOptional dflt
    rw [generateStructField]
    cases generateTypeBody cat fuel (Typ.TypeReference name) false ctx with
    | none => rfl
    | some r =>
        simp only [Option.some_bind]
        cases asn1TagFromType cat fuel r.2
            ⟨NamedType.mk identifier (Typ.TypeReference name), isOptional, dflt⟩ with
        | none => rfl
        | some q => rfl

/-- Witness of C27: in the module where `Name` is owned by `Other-Module` and
`Alias ::= Name`, the reference `Alias` resolves to the leaf `Name`; as a
declaration body it is `OtherModule.Alias`, as a field `*OtherModule.Alias`;
the undefined reference `Missing` is `Missing` and `*Missing`. -/
theorem generateTypeBody_reference_identifier_witness :
    chainEndsWithin (initialContext ownedModule) 1 "Alias" = true
    ∧ (resolveTypeReference sampleCatalog 2 (initialContext ownedModule) "Alias").map Prod.fst
        = some (some ⟨"Name", some Typ.IntegerType, "Other-Module"⟩)
    ∧ (generateTypeBody sampleCatalog 2 (Typ.TypeReference "Alias") true
          (initialContext ownedModule)).map Prod.fst
        = some (GoExpr.Ident "OtherModule.Alias")
    ∧ (generateTypeBody sampleCatalog 2 (Typ.TypeReference "Alias") false
          (initialContext ownedModule)).map Prod.fst
        = some (GoExpr.Ident "*OtherModule.Alias")
    ∧ (generateTypeBody sampleCatalog 2 (Typ.TypeReference "Missing") true
          (initialContext ownedModule)).map Prod.fst
        = some (GoExpr.Ident "Missing")
    ∧ (generateTypeBody sampleCatalog 2 (Typ.TypeReference "Missing") false
          (initialContext ownedModule)).map Prod.fst
        = some (GoExpr.Ident "*Missing")
    ∧ ∃ res ctx1,
        resolveTypeReference sampleCatalog 2 (initialContext ownedModule) "Alias"
          = some (res, ctx1) := by
  refine ⟨rfl, rfl, rfl, rfl, rfl, rfl, ?_⟩
  obtain ⟨res, ctx1, h, -⟩ :=
    (generateTypeBody_reference_identifier sampleCatalog 1 (initialContext ownedModule) "Alias"
      rfl).1
  exact ⟨res, ctx1, h⟩

/-- Counterexample to C27 as stated: in the module `A ::= B`, `B ::= A` the
reference `A` never resolves, so it matches no special case, and
`generateTypeBody` returns no identifier for it, in either position and
whatever the recursion depth allowed. -/
theorem generateTypeBody_reference_diverges_on_cycle :
    (∀ fuel : Nat,
        resolveTypeReference sampleCatalog fuel (initialContext cyclicModule) "A" = none)
    ∧ ¬ (∃ (fuel : Nat) (noStar : Bool),
          (generateTypeBody sampleCatalog fuel (Typ.TypeReference "A") noStar
            (initialContext cyclicModule)).isSome = true) := by
  have hu : ∀ fuel : Nat, unwrapToLeafType (initialContext cyclicModule) fuel "A" = none :=
    fun fuel =>
      (unwrapToLeafType_two_cycle (initialContext cyclicModule) "A" "B" rfl rfl fuel).1
  constructor
  · intro fuel
    simp only [resolveTypeReference, hu fuel]
  · rintro ⟨fuel, noStar, h⟩
    rw [generateTypeBody, generateReferenceBody_isSome_eq, hu fuel] at h
    cases h

end Asn1go
